import Mathlib

/-!
kas-fleet-manager: the deleting reconciler, the connector types service and the connector
handlers.

A shallow embedding of

* `pkg/workers/kafka_mgrs/deleting_kafkas_mgr.go` (`NewDeletingKafkaManager`, `Start`, `Stop`,
  `IsRunning`, `SetIsRunning`, `Reconcile`, `reconcileDeletingKafkas`),
* `internal/connector/internal/services/connector_types.go`
  (`PutConnectorShardMetadata`, `GetLatestConnectorShardMetadata`, `CatalogEntriesReconciled`,
  `DeleteOrDeprecateRemovedTypes`, `getDeprecatedTypes`),
* `internal/connector/internal/handlers/connectors.go` (`Patch`, `Delete`,
  `validateConnectorPatch`, `StringListSubtract`, `PatchResource`), and
* `internal/connector/internal/presenters/connector.go` (`ConvertConnector`,
  `PresentConnector`),

together with the properties stated about them, and a model of the admin update of a Kafka
request, whose handler is not among the embedded sources.

The collaborating services are interfaces whose implementations live outside the embedded
files.  They are taken as parameters: a service method is a function of the state of the
world `σ` returning its Go results and the next state of the world.  The calls a function
makes are observed by running it on recording services, which log every call with its result.

The relational store behind the connector types service is a list of rows; each statement
may fail, as chosen by a `Faults` value, and a failing statement has no effect.
-/

namespace KasFleetManager

/-! ## Errors -/

/-- A Go `error` value: either a `*errors.ServiceError` coming out of a service, or the result
of `errors.Wrap` / `errors.Wrapf` from `github.com/pkg/errors` applied to another error. -/
inductive GoError where
  | service (reason : String)
  | wrap (cause : GoError) (message : String)
deriving DecidableEq, Repr

namespace KafkaMgrs

/-! ## Data model of `deleting_kafkas_mgr.go` -/

/-- The values of `constants.KafkaStatus` that the deleting manager lists. -/
inductive KafkaStatus where
  | KafkaRequestStatusDeleting
  | KafkaRequestStatusDeleted
  | KafkaRequestStatusDeprovision
deriving DecidableEq, Repr

/-- The fields of `api.KafkaRequest` read by the deleting manager. -/
structure KafkaRequest where
  ID : String
  BootstrapServerHost : String
  SsoClientID : String
  SsoClientSecret : String
  SubscriptionId : String
deriving DecidableEq, Repr

/-- The `Keycloak` section of the application configuration. -/
structure KeycloakConfig where
  EnableAuthenticationOnKafka : Bool
deriving DecidableEq, Repr

/-- The `Kafka` section of the application configuration. -/
structure KafkaConfig where
  EnableQuotaService : Bool
deriving DecidableEq, Repr

/-- The parts of the application configuration read by the deleting manager. -/
structure ApplicationConfig where
  Keycloak : KeycloakConfig
  Kafka : KafkaConfig
deriving DecidableEq, Repr

/-- The methods of `services.KafkaService` called by the deleting manager.  `ListByStatus`
returns a slice and an error, as in Go; nothing is assumed about the slice when the error
is set. -/
structure KafkaService (σ : Type) where
  ListByStatus : List KafkaStatus → σ → (List KafkaRequest × Option GoError) × σ
  Delete : KafkaRequest → σ → Option GoError × σ

/-- The method of `services.QuotaService` called by the deleting manager. -/
structure QuotaService (σ : Type) where
  DeleteQuota : String → σ → Option GoError × σ

/-- The method of `services.ConfigService` called by the deleting manager: a getter of the
configuration the service was built with. -/
structure ConfigService where
  GetConfig : ApplicationConfig

/-- `DeletingKafkaManager`: a kafka manager that periodically reconciles kafka requests.
The stop channel, the wait group and the embedded `workers.Reconciler` take no part in
`Reconcile` and are left out of the structure; `Start` and `Stop` reach them through
`Lifecycle` and `Process`. -/
structure DeletingKafkaManager (σ : Type) where
  id : String
  workerType : String
  isRunning : Bool
  kafkaService : KafkaService σ
  configService : ConfigService
  quotaService : QuotaService σ

/-- `NewDeletingKafkaManager` creates a new kafka manager. -/
def NewDeletingKafkaManager {σ : Type} (kafkaService : KafkaService σ) (id : String)
    (configService : ConfigService) (quotaService : QuotaService σ) :
    DeletingKafkaManager σ :=
  { id := id
    workerType := "deleting_kafka"
    isRunning := false
    kafkaService := kafkaService
    configService := configService
    quotaService := quotaService }

/-! ## `reconcileDeletingKafkas` and `Reconcile` -/

/-- `reconcileDeletingKafkas` (lines 126-136): release the quota when the quota service is
enabled and the request carries a subscription id, then delete the request. -/
def reconcileDeletingKafkas {σ : Type} (k : DeletingKafkaManager σ) (kafka : KafkaRequest)
    (s : σ) : Option GoError × σ :=
  if k.configService.GetConfig.Kafka.EnableQuotaService && kafka.SubscriptionId != "" then
    match k.quotaService.DeleteQuota kafka.SubscriptionId s with
    | (some err, s1) =>
      (some (GoError.wrap err
        ("failed to delete subscription id " ++ kafka.SubscriptionId ++ " for kafka " ++ kafka.ID)),
       s1)
    | (none, s1) =>
      match k.kafkaService.Delete kafka s1 with
      | (some err, s2) => (some (GoError.wrap err ("failed to delete kafka " ++ kafka.ID)), s2)
      | (none, s2) => (none, s2)
  else
    match k.kafkaService.Delete kafka s with
    | (some err, s2) => (some (GoError.wrap err ("failed to delete kafka " ++ kafka.ID)), s2)
    | (none, s2) => (none, s2)

/-- The body of the loop of lines 102-113: a deprovisioning request that was never provisioned
to a data plane cluster is appended to the requests to delete. -/
def appendUnprovisioned {σ : Type} (k : DeletingKafkaManager σ)
    (deletingKafkas : List KafkaRequest) (deprovisioningKafka : KafkaRequest) :
    List KafkaRequest :=
  if deprovisioningKafka.BootstrapServerHost == "" then
    deletingKafkas ++ [deprovisioningKafka]
  else if k.configService.GetConfig.Keycloak.EnableAuthenticationOnKafka
      && (deprovisioningKafka.SsoClientID == "" || deprovisioningKafka.SsoClientSecret == "") then
    deletingKafkas ++ [deprovisioningKafka]
  else
    deletingKafkas

/-- The body of the loop of lines 115-121: reconcile one request, record its error if any. -/
def reconcileOne {σ : Type} (k : DeletingKafkaManager σ) (acc : List GoError × σ)
    (kafka : KafkaRequest) : List GoError × σ :=
  match reconcileDeletingKafkas k kafka acc.2 with
  | (some err, s1) =>
    (acc.1 ++ [GoError.wrap err ("failed to reconcile deleting kafka request " ++ kafka.ID)], s1)
  | (none, s1) => (acc.1, s1)

/-- `Reconcile` (lines 78-124): returns the encountered errors and the next state of the
world. -/
def Reconcile {σ : Type} (k : DeletingKafkaManager σ) (s : σ) : List GoError × σ :=
  let encounteredErrors : List GoError := []
  let deletingStatus :=
    [KafkaStatus.KafkaRequestStatusDeleting, KafkaStatus.KafkaRequestStatusDeleted]
  let r1 := k.kafkaService.ListByStatus deletingStatus s
  let deletingKafkas := r1.1.1
  let encounteredErrors :=
    match r1.1.2 with
    | some serviceErr =>
      encounteredErrors ++ [GoError.wrap serviceErr "failed to list deleting kafka requests"]
    | none => encounteredErrors
  let r2 := k.kafkaService.ListByStatus [KafkaStatus.KafkaRequestStatusDeprovision] r1.2
  let deprovisioningKafkas := r2.1.1
  let encounteredErrors :=
    match r2.1.2 with
    | some serviceErr =>
      encounteredErrors ++
        [GoError.wrap serviceErr "failed to list kafka deprovisioning requests"]
    | none => encounteredErrors
  let deletingKafkas := deprovisioningKafkas.foldl (appendUnprovisioned k) deletingKafkas
  deletingKafkas.foldl (reconcileOne k) (encounteredErrors, r2.2)

/-! ## Observing the calls made on the services -/

/-- A call made on a collaborating service, with what it returned. -/
inductive Call where
  | ListByStatus (status : List KafkaStatus) (result : List KafkaRequest × Option GoError)
  | DeleteQuota (subscriptionId : String) (err : Option GoError)
  | Delete (kafka : KafkaRequest) (err : Option GoError)
deriving DecidableEq, Repr

/-- The manager `k` with recording services: every service method behaves as in `k` and
appends the call, with its result, to a log carried next to the state of the world. -/
def recording {σ : Type} (k : DeletingKafkaManager σ) : DeletingKafkaManager (σ × List Call) :=
  { id := k.id
    workerType := k.workerType
    isRunning := k.isRunning
    kafkaService :=
      { ListByStatus := fun status w =>
          ((k.kafkaService.ListByStatus status w.1).1,
           ((k.kafkaService.ListByStatus status w.1).2,
            w.2 ++ [Call.ListByStatus status (k.kafkaService.ListByStatus status w.1).1]))
        Delete := fun kafka w =>
          ((k.kafkaService.Delete kafka w.1).1,
           ((k.kafkaService.Delete kafka w.1).2,
            w.2 ++ [Call.Delete kafka (k.kafkaService.Delete kafka w.1).1])) }
    configService := k.configService
    quotaService :=
      { DeleteQuota := fun subscriptionId w =>
          ((k.quotaService.DeleteQuota subscriptionId w.1).1,
           ((k.quotaService.DeleteQuota subscriptionId w.1).2,
            w.2 ++ [Call.DeleteQuota subscriptionId
              (k.quotaService.DeleteQuota subscriptionId w.1).1])) } }

/-- The calls `Reconcile` makes on the services when started in state `s`, in order. -/
def reconcileCalls {σ : Type} (k : DeletingKafkaManager σ) (s : σ) : List Call :=
  (Reconcile (recording k) (s, [])).2.2

/-- The calls `reconcileDeletingKafkas` makes for `kafka` when started in state `s`. -/
def callsOf {σ : Type} (k : DeletingKafkaManager σ) (kafka : KafkaRequest) (s : σ) :
    List Call :=
  (reconcileDeletingKafkas (recording k) kafka (s, [])).2.2

/-- The calls made while the requests of `l` are reconciled one after the other from `s`. -/
def loopCalls {σ : Type} (k : DeletingKafkaManager σ) : List KafkaRequest → σ → List Call
  | [], _ => []
  | kafka :: l, s => callsOf k kafka s ++ loopCalls k l (reconcileDeletingKafkas k kafka s).2

/-! ## The words of the specification -/

/-- The result of the first listing of `Reconcile`, for the statuses deleting and deleted. -/
def listDeleting {σ : Type} (k : DeletingKafkaManager σ) (s : σ) :
    (List KafkaRequest × Option GoError) × σ :=
  k.kafkaService.ListByStatus
    [KafkaStatus.KafkaRequestStatusDeleting, KafkaStatus.KafkaRequestStatusDeleted] s

/-- The result of the second listing of `Reconcile`, for the status deprovision. -/
def listDeprovision {σ : Type} (k : DeletingKafkaManager σ) (s : σ) :
    (List KafkaRequest × Option GoError) × σ :=
  k.kafkaService.ListByStatus [KafkaStatus.KafkaRequestStatusDeprovision] (listDeleting k s).2

/-- A request "never actually provisioned to a remote cluster": bootstrap endpoint empty, or
authentication enabled and SSO client id or secret empty. -/
def neverProvisioned (cfg : ApplicationConfig) (d : KafkaRequest) : Bool :=
  d.BootstrapServerHost == "" ||
    (cfg.Keycloak.EnableAuthenticationOnKafka && (d.SsoClientID == "" || d.SsoClientSecret == ""))

/-- The candidate list of the specification: the requests listed for deleting and deleted,
then the requests listed for deprovision that were never provisioned. -/
def specCandidates {σ : Type} (k : DeletingKafkaManager σ) (s : σ) : List KafkaRequest :=
  (listDeleting k s).1.1 ++
    (listDeprovision k s).1.1.filter (neverProvisioned k.configService.GetConfig)

/-- One error per listing that failed, in the order of the listings. -/
def listingErrors {σ : Type} (k : DeletingKafkaManager σ) (s : σ) : List GoError :=
  (match (listDeleting k s).1.2 with
    | some e => [GoError.wrap e "failed to list deleting kafka requests"]
    | none => []) ++
  (match (listDeprovision k s).1.2 with
    | some e => [GoError.wrap e "failed to list kafka deprovisioning requests"]
    | none => [])

/-- Quota release is required for a request: a non-empty subscription id, and quota
accounting enabled. -/
def quotaRequired (cfg : ApplicationConfig) (d : KafkaRequest) : Bool :=
  cfg.Kafka.EnableQuotaService && d.SubscriptionId != ""

/-- The state of the world in which the request following `pre` in the candidate list is
reconciled: the state after the two listings and after the requests of `pre`. -/
def stateAfter {σ : Type} (k : DeletingKafkaManager σ) (s : σ) (pre : List KafkaRequest) : σ :=
  (pre.foldl (reconcileOne k) (listingErrors k s, (listDeprovision k s).2)).2

/-- The state of the world after the requests of `l` were reconciled one after the other
from `s`. -/
def loopState {σ : Type} (k : DeletingKafkaManager σ) : List KafkaRequest → σ → σ
  | [], s => s
  | kafka :: l, s => loopState k l (reconcileDeletingKafkas k kafka s).2

/-- The requests of `l` with the result of `reconcileDeletingKafkas` for each, when they are
reconciled one after the other from `s`. -/
def outcomes {σ : Type} (k : DeletingKafkaManager σ) :
    List KafkaRequest → σ → List (KafkaRequest × Option GoError)
  | [], _ => []
  | kafka :: l, s =>
    (kafka, (reconcileDeletingKafkas k kafka s).1) ::
      outcomes k l (reconcileDeletingKafkas k kafka s).2

/-- The error `Reconcile` records for a request whose reconciliation returned `err`. -/
def outcomeError (o : KafkaRequest × Option GoError) : Option GoError :=
  match o.2 with
  | some err =>
    some (GoError.wrap err ("failed to reconcile deleting kafka request " ++ o.1.ID))
  | none => none

/-- The subscription ids of the `DeleteQuota` calls of a log, in order. -/
def quotaCalls (log : List Call) : List String :=
  log.filterMap fun c =>
    match c with
    | Call.DeleteQuota subscriptionId _ => some subscriptionId
    | _ => none

/-- The number of `Delete` calls of a log that returned no error. -/
def successfulDeletes (log : List Call) : Nat :=
  (log.filter fun c =>
    match c with
    | Call.Delete _ none => true
    | _ => false).length

/-- Every `Delete` call of the log is for a request that needs no quota release, or comes
right after a `DeleteQuota` call for the subscription of that request that returned no
error. -/
def DeletesGuarded (cfg : ApplicationConfig) (log : List Call) : Prop :=
  ∀ (l1 : List Call) (d : KafkaRequest) (r : Option GoError) (l2 : List Call),
    log = l1 ++ Call.Delete d r :: l2 →
      quotaRequired cfg d = false ∨ ∃ l0, l1 = l0 ++ [Call.DeleteQuota d.SubscriptionId none]

/-- The call sequences of the requests of `l`, one per request, when they are reconciled one
after the other from `s`. -/
def perRecordCalls {σ : Type} (k : DeletingKafkaManager σ) :
    List KafkaRequest → σ → List (List Call)
  | [], _ => []
  | kafka :: l, s => callsOf k kafka s :: perRecordCalls k l (reconcileDeletingKafkas k kafka s).2

/-- A call that is a listing. -/
def isListing : Call → Bool
  | Call.ListByStatus _ _ => true
  | _ => false

/-! ## The lifecycle of the manager -/

/-- `GetID`. -/
def GetID {σ : Type} (k : DeletingKafkaManager σ) : String := k.id

/-- `GetWorkerType`. -/
def GetWorkerType {σ : Type} (c : DeletingKafkaManager σ) : String := c.workerType

/-- `IsRunning`. -/
def IsRunning {σ : Type} (c : DeletingKafkaManager σ) : Bool := c.isRunning

/-- `SetIsRunning`. -/
def SetIsRunning {σ : Type} (c : DeletingKafkaManager σ) (val : Bool) :
    DeletingKafkaManager σ :=
  { c with isRunning := val }

/-- Modelled from the spec: package `metrics` is not part of the embedded sources.  The
metrics sink, "counters/gauges for leader status per worker type, operation success/total
counts, and duration histograms": `leaderWorker` holds the leader gauge of the worker types
that have one, `kafkaManagers` stands for the other metrics. -/
structure Metrics (ω : Type) where
  leaderWorker : List (String × Bool)
  kafkaManagers : ω
deriving DecidableEq, Repr

/-- Modelled from the spec: `metrics.SetLeaderWorkerMetric` is not part of the embedded
sources.  Sets the gauge "for leader status per worker type" of one worker type. -/
def SetLeaderWorkerMetric {ω : Type} (workerType : String) (leader : Bool) (m : Metrics ω) :
    Metrics ω :=
  { m with
    leaderWorker := (workerType, leader) :: m.leaderWorker.filter fun g => g.1 != workerType }

/-- What the leader gauge of a worker type reads, if it was ever set. -/
def leaderWorkerMetric {ω : Type} (m : Metrics ω) (workerType : String) : Option Bool :=
  (m.leaderWorker.find? fun g => g.1 == workerType).map Prod.snd

/-- Modelled from the spec: `workers.Reconciler` and `metrics.ResetMetricsForKafkaManagers`
are not part of the embedded sources; they are taken as parameters.  `Start` and `Stop` of
the reconciler receive the worker, which package `workers` reaches through its exported
methods only: of the manager they can change the running flag, which they return; they act
on the metrics and on `π`, the stop channel, the wait group and the goroutines. -/
structure Lifecycle (σ ω π : Type) where
  reconcilerStart : DeletingKafkaManager σ → Metrics ω × π → Bool × (Metrics ω × π)
  reconcilerStop : DeletingKafkaManager σ → Metrics ω × π → Bool × (Metrics ω × π)
  ResetMetricsForKafkaManagers : Metrics ω → Metrics ω

/-- The manager with what `Start` and `Stop` act on besides it. -/
structure Process (σ ω π : Type) where
  manager : DeletingKafkaManager σ
  metrics : Metrics ω
  runtime : π

/-- `Start` (lines 58-61) initializes the kafka manager to reconcile kafka requests. -/
def Start {σ ω π : Type} (e : Lifecycle σ ω π) (p : Process σ ω π) : Process σ ω π :=
  let metrics1 := SetLeaderWorkerMetric p.manager.workerType true p.metrics
  let r := e.reconcilerStart p.manager (metrics1, p.runtime)
  { manager := SetIsRunning p.manager r.1, metrics := r.2.1, runtime := r.2.2 }

/-- `Stop` (lines 64-68) causes the process for reconciling kafka requests to stop. -/
def Stop {σ ω π : Type} (e : Lifecycle σ ω π) (p : Process σ ω π) : Process σ ω π :=
  let r := e.reconcilerStop p.manager (p.metrics, p.runtime)
  let k := SetIsRunning p.manager r.1
  let metrics1 := e.ResetMetricsForKafkaManagers r.2.1
  let metrics2 := SetLeaderWorkerMetric k.workerType false metrics1
  { manager := k, metrics := metrics2, runtime := r.2.2 }

/-! ## A concrete manager -/

/-- A request in status deleting whose quota release will fail. -/
def demoDeleting : KafkaRequest :=
  { ID := "a", BootstrapServerHost := "a.example.com", SsoClientID := "client-a",
    SsoClientSecret := "secret-a", SubscriptionId := "sub-a" }

/-- A request in status deprovision that has no bootstrap host. -/
def demoUnprovisioned : KafkaRequest :=
  { ID := "b", BootstrapServerHost := "", SsoClientID := "", SsoClientSecret := "",
    SubscriptionId := "sub-b" }

/-- A request in status deprovision that was provisioned to a data plane cluster. -/
def demoProvisioned : KafkaRequest :=
  { ID := "c", BootstrapServerHost := "c.example.com", SsoClientID := "client-c",
    SsoClientSecret := "secret-c", SubscriptionId := "sub-c" }

/-- A manager over a world without state: both listings succeed, the quota release fails for
the subscription `sub-a` only, every delete succeeds, authentication and the quota service are
enabled. -/
def demoManager : DeletingKafkaManager Unit :=
  NewDeletingKafkaManager
    { ListByStatus := fun status s =>
        if status = [KafkaStatus.KafkaRequestStatusDeprovision] then
          (([demoUnprovisioned, demoProvisioned], none), s)
        else (([demoDeleting], none), s)
      Delete := fun _ s => (none, s) }
    "demo"
    { GetConfig :=
        { Keycloak := { EnableAuthenticationOnKafka := true }
          Kafka := { EnableQuotaService := true } } }
    { DeleteQuota := fun subscriptionId s =>
        if subscriptionId = "sub-a" then (some (GoError.service "quota unavailable"), s)
        else (none, s) }

/-- A manager over a world without state in which one listing fails, the one for deleting
and deleted when `failDeleting` is set, the one for deprovision otherwise; the other listing,
every quota release and every delete succeed, authentication and the quota service are
enabled. -/
def demoFailingManager (failDeleting : Bool) : DeletingKafkaManager Unit :=
  NewDeletingKafkaManager
    { ListByStatus := fun status s =>
        if status = [KafkaStatus.KafkaRequestStatusDeprovision] then
          if failDeleting then (([demoUnprovisioned, demoProvisioned], none), s)
          else (([], some (GoError.service "connection refused")), s)
        else
          if failDeleting then (([], some (GoError.service "connection refused")), s)
          else (([demoDeleting], none), s)
      Delete := fun _ s => (none, s) }
    "demo"
    { GetConfig :=
        { Keycloak := { EnableAuthenticationOnKafka := true }
          Kafka := { EnableQuotaService := true } } }
    { DeleteQuota := fun _ s => (none, s) }

/-- A reconciler that sets the running flag and counts the operations of the kafka managers;
the reset sets the count back to zero. -/
def demoLifecycle : Lifecycle Unit Nat Unit :=
  { reconcilerStart := fun _ w => (true, ({ w.1 with kafkaManagers := w.1.kafkaManagers + 1 }, ()))
    reconcilerStop := fun _ w => (false, w)
    ResetMetricsForKafkaManagers := fun m => { m with kafkaManagers := 0 } }

/-- The concrete manager before it was ever started: no gauge is set. -/
def demoProcess : Process Unit Nat Unit :=
  { manager := demoManager, metrics := { leaderWorker := [], kafkaManagers := 0 }, runtime := () }

end KafkaMgrs

namespace Services

/-! ## Data model of `connector_types.go` -/

/-- Modelled from the spec: the declaration of `dbapi.ConnectorShardMetadata` is not part of
the embedded sources.  A row of the shard-metadata table, "keyed by (type, channel, revision)
with a nullable latest_revision pointer column"; `ID` is the identifier column selected by
`PutConnectorShardMetadata`, `ShardMetadata` stands for the descriptor payload. -/
structure ConnectorShardMetadata where
  ID : Int
  ConnectorTypeId : String
  Channel : String
  Revision : Int
  LatestRevision : Option Int
  ShardMetadata : String
deriving DecidableEq, Repr

/-- The kinds of `errors.ServiceError` built by `PutConnectorShardMetadata` and
`GetLatestConnectorShardMetadata`. -/
inductive ServiceErrorCode where
  | ErrorGeneral
  | ErrorNotFound
deriving DecidableEq, Repr

/-- A value of `*errors.ServiceError`. -/
structure ServiceError where
  Code : ServiceErrorCode
  Reason : String
deriving DecidableEq, Repr

/-- `errors.GeneralError`; the reason is the format string, its arguments are not
rendered. -/
def GeneralError (reason : String) : ServiceError :=
  { Code := ServiceErrorCode.ErrorGeneral, Reason := reason }

/-- The store behind `connectionFactory.New()`: the rows of table `connector_shard_metadata`
in insertion order, and the last value drawn from the sequence of the `id` column. -/
structure DB where
  rows : List ConnectorShardMetadata
  seq : Nat
deriving DecidableEq, Repr

/-- The statements of one `PutConnectorShardMetadata` call that fail in the database, each
with the error it fails with.  A statement that fails has no effect on the table.  For the
`First` query the error is one other than record-not-found. -/
structure Faults where
  first : Option String
  scan : Option String
  save : Option String
  update : Option String
deriving DecidableEq, Repr

/-- No statement fails. -/
def Faults.none : Faults :=
  { first := Option.none, scan := Option.none, save := Option.none, update := Option.none }

/-- The predicate `connector_type_id = ? AND channel = ?`. -/
def sameGroup (typeId channel : String) (r : ConnectorShardMetadata) : Bool :=
  r.ConnectorTypeId == typeId && r.Channel == channel

/-- The predicate `connector_type_id = ? AND channel = ? AND revision = ?`. -/
def sameKey (typeId channel : String) (revision : Int) (r : ConnectorShardMetadata) : Bool :=
  r.ConnectorTypeId == typeId && r.Channel == channel && r.Revision == revision

/-- `Select("id").Where(...).First(&resource)`: the first row with the given type, channel
and revision, if any. -/
def dbFirst (rows : List ConnectorShardMetadata) (typeId channel : String) (revision : Int) :
    Option ConnectorShardMetadata :=
  rows.find? (sameKey typeId channel revision)

/-- The aggregate `max` over a column: NULL on no rows. -/
def maxOf : List Int → Option Int
  | [] => Option.none
  | x :: xs =>
    match maxOf xs with
    | Option.none => some x
    | some m => some (max x m)

/-- `Select("max(revision)").Where(connector_type_id = ?).Where(channel = ?).Scan(..)`. -/
def dbMaxRevision (rows : List ConnectorShardMetadata) (typeId channel : String) :
    Option Int :=
  maxOf ((rows.filter (sameGroup typeId channel)).map fun r => r.Revision)

/-- The row as the database stores it: a row that comes without `id` gets the next value of
the sequence. -/
def withId (db : DB) (m : ConnectorShardMetadata) : ConnectorShardMetadata :=
  if m.ID = 0 then { m with ID := (db.seq : Int) + 1 } else m

/-- The update of `Save` for a row that carries an `id`: the stored row with that `id` is
overwritten, every column.  `id` is the primary key, so there is at most one such row; of
several the first is taken. -/
def dbReplaceById (m : ConnectorShardMetadata) :
    List ConnectorShardMetadata → List ConnectorShardMetadata
  | [] => []
  | r :: rows => if r.ID = m.ID then m :: rows else r :: dbReplaceById m rows

/-- Modelled from the spec: the schema of table `connector_shard_metadata` is not part of the
embedded sources; the table is "keyed by (type, channel, revision)" and `id` is its primary
key, drawn from a sequence.  `Save` of a row (gorm): a row that comes without `id` is
inserted with the next value of the sequence; a row that carries the `id` of a stored row
overwrites that row; a row that carries an `id` no stored row has is inserted with it.  The
statement is refused when another row has the key of the row, or when the value drawn from
the sequence is the `id` of a stored row.  Returns the table and the saved row. -/
def dbSave (db : DB) (m : ConnectorShardMetadata) :
    Except String (DB × ConnectorShardMetadata) :=
  if db.rows.any (fun r =>
      r.ID != (withId db m).ID && sameKey m.ConnectorTypeId m.Channel m.Revision r) then
    Except.error "duplicate key value violates unique constraint"
  else if db.rows.any (fun r => r.ID == (withId db m).ID) then
    if m.ID = 0 then Except.error "duplicate key value violates unique constraint"
    else Except.ok ({ db with rows := dbReplaceById m db.rows }, m)
  else
    Except.ok
      ({ rows := db.rows ++ [withId db m], seq := if m.ID = 0 then db.seq + 1 else db.seq },
       withId db m)

/-- `Where(connector_type_id = ?).Where(channel = ?).Where(revision < ?)
.Update("latest_revision", revision)`. -/
def dbUpdateLatestRevision (rows : List ConnectorShardMetadata) (typeId channel : String)
    (revision : Int) : List ConnectorShardMetadata :=
  rows.map fun r =>
    if sameGroup typeId channel r && decide (r.Revision < revision) then
      { r with LatestRevision := some revision }
    else r

/-- What a call of `PutConnectorShardMetadata` leaves behind: the two values it returns, the
store, and the argument, which the call writes to. -/
structure PutResult where
  id : Int
  err : Option ServiceError
  db : DB
  arg : ConnectorShardMetadata
deriving DecidableEq, Repr

/-- `connectorTypesService.PutConnectorShardMetadata` (lines 342-404).  Every statement runs
on a connection of its own, `cts.connectionFactory.New()`; the function opens no
transaction.  On the path that inserts the row the function returns `resource.ID` (line 396)
of the variable `resource` that the `First` query, finding no row, left at its zero value:
the id returned there is 0. -/
def PutConnectorShardMetadata (f : Faults) (db : DB)
    (connectorShardMetadata : ConnectorShardMetadata) : PutResult :=
  match f.first with
  | some _ =>
    { id := 0, err := some (GeneralError "unable to save connector shard metadata"),
      db := db, arg := connectorShardMetadata }
  | Option.none =>
    match dbFirst db.rows connectorShardMetadata.ConnectorTypeId connectorShardMetadata.Channel
        connectorShardMetadata.Revision with
    | some resource =>
      { id := resource.ID, err := Option.none, db := db, arg := connectorShardMetadata }
    | Option.none =>
      match f.scan with
      | some _ =>
        { id := 0,
          err := some (GeneralError
            "failed to find max(revision) of connector shard metadata %v: %v"),
          db := db, arg := connectorShardMetadata }
      | Option.none =>
        let currentLatestRevision :=
          dbMaxRevision db.rows connectorShardMetadata.ConnectorTypeId
            connectorShardMetadata.Channel
        let withLatest : ConnectorShardMetadata :=
          match currentLatestRevision with
          | some current =>
            if connectorShardMetadata.Revision < current then
              { connectorShardMetadata with LatestRevision := some current }
            else { connectorShardMetadata with LatestRevision := Option.none }
          | Option.none => { connectorShardMetadata with LatestRevision := Option.none }
        match f.save, dbSave db withLatest with
        | some _, _ =>
          { id := 0,
            err := some (GeneralError "failed to create connector shard metadata %v: %v"),
            db := db, arg := withLatest }
        | Option.none, Except.error _ =>
          { id := 0,
            err := some (GeneralError "failed to create connector shard metadata %v: %v"),
            db := db, arg := withLatest }
        | Option.none, Except.ok (db1, saved) =>
          if saved.LatestRevision = Option.none then
            match f.update with
            | some _ =>
              { id := 0,
                err := some (GeneralError
                  ("failed to update other connectors shard metadata with the latest " ++
                    "revision from: %v")),
                db := db1, arg := saved }
            | Option.none =>
              { id := 0, err := Option.none,
                db :=
                  { db1 with
                    rows := dbUpdateLatestRevision db1.rows saved.ConnectorTypeId
                      saved.Channel saved.Revision },
                arg := saved }
          else { id := 0, err := Option.none, db := db1, arg := saved }

/-! ## The statements of `PutConnectorShardMetadata`, one at a time -/

/-- Where a call of `PutConnectorShardMetadata` stands: before the `First` query, before the
`max(revision)` query, before `Save`, before the update of the other rows, or returned. -/
inductive PutPhase where
  | first
  | scan
  | save (withLatest : ConnectorShardMetadata)
  | update (saved : ConnectorShardMetadata)
  | done (id : Int) (err : Option ServiceError) (arg : ConnectorShardMetadata)
deriving DecidableEq, Repr

/-- The next statement of a call of `PutConnectorShardMetadata` with argument
`connectorShardMetadata`, run against the store as it is now. -/
def putStep (f : Faults) (connectorShardMetadata : ConnectorShardMetadata) (db : DB) :
    PutPhase → DB × PutPhase
  | PutPhase.first =>
    match f.first with
    | some _ =>
      (db, PutPhase.done 0 (some (GeneralError "unable to save connector shard metadata"))
        connectorShardMetadata)
    | Option.none =>
      match dbFirst db.rows connectorShardMetadata.ConnectorTypeId
          connectorShardMetadata.Channel connectorShardMetadata.Revision with
      | some resource => (db, PutPhase.done resource.ID Option.none connectorShardMetadata)
      | Option.none => (db, PutPhase.scan)
  | PutPhase.scan =>
    match f.scan with
    | some _ =>
      (db, PutPhase.done 0
        (some (GeneralError "failed to find max(revision) of connector shard metadata %v: %v"))
        connectorShardMetadata)
    | Option.none =>
      match dbMaxRevision db.rows connectorShardMetadata.ConnectorTypeId
          connectorShardMetadata.Channel with
      | some current =>
        if connectorShardMetadata.Revision < current then
          (db, PutPhase.save { connectorShardMetadata with LatestRevision := some current })
        else (db, PutPhase.save { connectorShardMetadata with LatestRevision := Option.none })
      | Option.none =>
        (db, PutPhase.save { connectorShardMetadata with LatestRevision := Option.none })
  | PutPhase.save withLatest =>
    match f.save, dbSave db withLatest with
    | some _, _ =>
      (db, PutPhase.done 0
        (some (GeneralError "failed to create connector shard metadata %v: %v")) withLatest)
    | Option.none, Except.error _ =>
      (db, PutPhase.done 0
        (some (GeneralError "failed to create connector shard metadata %v: %v")) withLatest)
    | Option.none, Except.ok (db1, saved) =>
      if saved.LatestRevision = Option.none then (db1, PutPhase.update saved)
      else (db1, PutPhase.done 0 Option.none saved)
  | PutPhase.update saved =>
    match f.update with
    | some _ =>
      (db, PutPhase.done 0
        (some (GeneralError
          ("failed to update other connectors shard metadata with the latest " ++
            "revision from: %v"))) saved)
    | Option.none =>
      ({ db with
          rows := dbUpdateLatestRevision db.rows saved.ConnectorTypeId saved.Channel
            saved.Revision },
        PutPhase.done 0 Option.none saved)
  | PutPhase.done id err arg => (db, PutPhase.done id err arg)

/-- A call run alone: its statements one after the other, nothing in between. -/
def putRun (f : Faults) (m : ConnectorShardMetadata) (db : DB) : DB × PutPhase :=
  let s1 := putStep f m db PutPhase.first
  let s2 := putStep f m s1.1 s1.2
  let s3 := putStep f m s2.1 s2.2
  putStep f m s3.1 s3.2

/-- Two calls on the same store, with arguments `ma` and `mb`: the schedule says, statement
by statement, which call runs next (`true` for the first call). -/
def interleave (fa fb : Faults) (ma mb : ConnectorShardMetadata) :
    List Bool → DB × PutPhase × PutPhase → DB × PutPhase × PutPhase
  | [], st => st
  | true :: schedule, (db, pa, pb) =>
    interleave fa fb ma mb schedule ((putStep fa ma db pa).1, (putStep fa ma db pa).2, pb)
  | false :: schedule, (db, pa, pb) =>
    interleave fa fb ma mb schedule ((putStep fb mb db pb).1, pa, (putStep fb mb db pb).2)

/-! ## Concrete rows -/

/-- A row of group ("t", "stable") as a caller passes it: no id, no latest revision. -/
def demoRow (revision : Int) : ConnectorShardMetadata :=
  { ID := 0, ConnectorTypeId := "t", Channel := "stable", Revision := revision,
    LatestRevision := Option.none, ShardMetadata := "" }

/-- The store after revision 1 of group ("t", "stable") was put into the empty store. -/
def demoDB : DB :=
  { rows := [{ ID := 1, ConnectorTypeId := "t", Channel := "stable", Revision := 1,
               LatestRevision := Option.none, ShardMetadata := "" }],
    seq := 1 }

/-! ## The invariant of the shard-metadata table -/

/-- The rows of a (type, channel) group that are current: `LatestRevision == nil`. -/
def currentRows (rows : List ConnectorShardMetadata) (typeId channel : String) :
    List ConnectorShardMetadata :=
  rows.filter fun r => sameGroup typeId channel r && r.LatestRevision.isNone

/-- At most one row per (type, channel) has `LatestRevision == nil`. -/
def AtMostOneCurrent (rows : List ConnectorShardMetadata) : Prop :=
  ∀ typeId channel : String, (currentRows rows typeId channel).length ≤ 1

/-- The empty store. -/
def DB.empty : DB := { rows := [], seq := 0 }

/-- The stores reachable from the empty store by successful calls of
`PutConnectorShardMetadata`, one after the other. -/
inductive Reachable : DB → Prop where
  | empty : Reachable DB.empty
  | put (f : Faults) (db : DB) (m : ConnectorShardMetadata) :
      Reachable db → (PutConnectorShardMetadata f db m).err = Option.none →
      Reachable (PutConnectorShardMetadata f db m).db

/-- The stores reachable from the empty store by successful calls of
`PutConnectorShardMetadata`, one after the other, for entries that carry no `id` or an `id`
that no stored row has: the calls whose `Save` inserts. -/
inductive ReachableByInserts : DB → Prop where
  | empty : ReachableByInserts DB.empty
  | put (f : Faults) (db : DB) (m : ConnectorShardMetadata) :
      ReachableByInserts db → (PutConnectorShardMetadata f db m).err = Option.none →
      (m.ID = 0 ∨ ∀ r ∈ db.rows, r.ID ≠ m.ID) →
      ReachableByInserts (PutConnectorShardMetadata f db m).db

/-- No two rows of the table have the same type, channel and revision. -/
def UniqueKeys (rows : List ConnectorShardMetadata) : Prop :=
  rows.Pairwise fun a b => sameKey a.ConnectorTypeId a.Channel a.Revision b = false

/-- In every (type, channel) group the row with the maximum revision has
`LatestRevision == nil` and every other row points at that maximum. -/
def PointsAtLatest (rows : List ConnectorShardMetadata) : Prop :=
  ∀ r ∈ rows, ∀ M, dbMaxRevision rows r.ConnectorTypeId r.Channel = some M →
    (r.Revision = M → r.LatestRevision = Option.none)
    ∧ (r.Revision ≠ M → r.LatestRevision = some M)

/-! ## `GetLatestConnectorShardMetadata` -/

/-- `errors.NotFound`; the reason is the format string. -/
def NotFound (reason : String) : ServiceError :=
  { Code := ServiceErrorCode.ErrorNotFound, Reason := reason }

/-- The condition of `Where(dbapi.ConnectorShardMetadata{ConnectorTypeId: typeId,
Channel: channel})` (line 428).  gorm builds the condition of a struct from its non-zero
fields only: an empty `typeId` or `channel` puts no condition on its column. -/
def structCondition (typeId channel : String) (r : ConnectorShardMetadata) : Bool :=
  (typeId == "" || r.ConnectorTypeId == typeId) && (channel == "" || r.Channel == channel)

/-- The order of `Order("revision desc").First(&resource)`: by revision, the greatest first,
and then, as `First` adds, by primary key.  Whether row `r` comes before row `b`. -/
def comesBefore (r b : ConnectorShardMetadata) : Bool :=
  decide (b.Revision < r.Revision) || (b.Revision == r.Revision && decide (r.ID < b.ID))

/-- `Where(struct).Order("revision desc").First(&resource)`: of the rows that meet the
condition the one with the greatest revision, of several the one with the least `id`. -/
def dbFirstByRevisionDesc (rows : List ConnectorShardMetadata) (typeId channel : String) :
    Option ConnectorShardMetadata :=
  (rows.filter (structCondition typeId channel)).foldl
    (fun best r =>
      match best with
      | Option.none => some r
      | some b => if comesBefore r b then some r else some b)
    Option.none

/-- `connectorTypesService.GetLatestConnectorShardMetadata` (lines 423-439); `fault` is the
error the query fails with, if it fails with one other than record-not-found. -/
def GetLatestConnectorShardMetadata (fault : Option String) (db : DB)
    (typeId channel : String) : Except ServiceError ConnectorShardMetadata :=
  match fault with
  | some _ => Except.error (GeneralError "unable to get connector type shard metadata: %s")
  | Option.none =>
    match dbFirstByRevisionDesc db.rows typeId channel with
    | Option.none => Except.error (NotFound "connector type shard metadata not found")
    | some resource => Except.ok resource

/-! ## Connector types: data model -/

/-- Modelled from the spec: the declaration of `dbapi.ConnectorType` is not part of the
embedded sources.  A row of table `connector_types`, with the columns read or written by
`CatalogEntriesReconciled` and `DeleteOrDeprecateRemovedTypes`.  `Deleted` stands for
`DeletedAt.Valid` (see `connectorTypesService.Get`): a deleted row stays in the table with
its deletion mark and is passed over by every query that is not `Unscoped`. -/
structure ConnectorType where
  ID : String
  Checksum : Option String
  Deprecated : Bool
  Deleted : Bool
deriving DecidableEq, Repr

/-- Modelled from the spec: the declaration of `dbapi.Connector` is not part of the embedded
sources.  A row of table `connectors`, the "request record" of a connector, with the columns
the distinct query of `DeleteOrDeprecateRemovedTypes` depends on; `Deleted` stands for
`deleted_at IS NOT NULL`. -/
structure Connector where
  ID : String
  ConnectorTypeId : String
  Deleted : Bool
deriving DecidableEq, Repr

/-- The part of `openapi.ConnectorType` read from a catalog entry. -/
structure CatalogConnectorType where
  Id : String
deriving DecidableEq, Repr

/-- The part of `config.ConnectorCatalogEntry` read by `DeleteOrDeprecateRemovedTypes`. -/
structure ConnectorCatalogEntry where
  ConnectorType : CatalogConnectorType
deriving DecidableEq, Repr

/-- The parts of `config.ConnectorsConfig` read by the two functions: the entries of the
latest catalog, and the map `CatalogChecksums` from type id to checksum, given by its
entries (a Go map has no two entries with the same key). -/
structure ConnectorsConfig where
  CatalogEntries : List ConnectorCatalogEntry
  CatalogChecksums : List (String × String)
deriving DecidableEq, Repr

/-- The tables behind `connectionFactory.New()` that the two functions touch. -/
structure CatalogDB where
  types : List ConnectorType
  connectors : List Connector
deriving DecidableEq, Repr

/-- The statements of one `DeleteOrDeprecateRemovedTypes` call that fail in the database.
A statement that fails has no effect on the tables. -/
structure TypeFaults where
  find : Option String
  update : Option String
  delete : Option String
deriving DecidableEq, Repr

/-- No statement fails. -/
def TypeFaults.none : TypeFaults :=
  { find := Option.none, update := Option.none, delete := Option.none }

/-! ## `CatalogEntriesReconciled` -/

/-- The keys of a Go map given by its entries: `for id := range m` with `append`. -/
def mapKeys (m : List (String × String)) : List String :=
  m.foldl (fun typeIds kv => typeIds ++ [kv.1]) []

/-- The map index expression `m[k]`: the value of the entry with key `k`, the zero value of
`string` when there is none. -/
def mapIndex (m : List (String × String)) (k : String) : String :=
  match m.find? fun kv => kv.1 == k with
  | some kv => kv.2
  | Option.none => ""

/-- `Select("id, checksum").Where("id in ?", typeIds).Find(&connectorTypes)`. -/
def dbFindTypesIn (types : List ConnectorType) (typeIds : List String) : List ConnectorType :=
  types.filter fun r => !r.Deleted && typeIds.contains r.ID

/-- The loop of lines 458-462: `false` at the first type whose checksum is nil or differs
from the configured one, `true` when the loop runs to its end. -/
def checksumsMatch (catalogChecksums : List (String × String)) : List ConnectorType → Bool
  | [] => true
  | ct :: rest =>
    if ct.Checksum = Option.none || ct.Checksum != some (mapIndex catalogChecksums ct.ID) then
      false
    else checksumsMatch catalogChecksums rest

/-- `connectorTypesService.CatalogEntriesReconciled` (lines 441-464); `findFault` is the error
of the query, if it fails. -/
def CatalogEntriesReconciled (cfg : ConnectorsConfig) (findFault : Option String)
    (db : CatalogDB) : Bool × Option ServiceError :=
  let catalogChecksums := cfg.CatalogChecksums
  let typeIds := mapKeys catalogChecksums
  match findFault with
  | some _ => (false, some (GeneralError "Unable to find Connector type with id='%v': %s"))
  | Option.none =>
    let connectorTypes := dbFindTypesIn db.types typeIds
    if catalogChecksums.length != connectorTypes.length then (false, Option.none)
    else if checksumsMatch catalogChecksums connectorTypes then (true, Option.none)
    else (false, Option.none)

/-! ## `DeleteOrDeprecateRemovedTypes` -/

/-- Lines 467-470: `make([]string, len(cts.connectorsConfig.CatalogEntries))` is a slice of
that many empty strings, and the loop appends the id of every catalog entry to it. -/
def catalogNotToBeDeletedIDs (cfg : ConnectorsConfig) : List String :=
  cfg.CatalogEntries.foldl
    (fun notToBeDeletedIDs entry => notToBeDeletedIDs ++ [entry.ConnectorType.Id])
    (List.replicate cfg.CatalogEntries.length "")

/-- `Model(&dbapi.Connector{}).Distinct("connector_type_id").Find(&usedConnectorTypeIDs)`:
the type ids of the connectors that are not deleted, each once. -/
def dbDistinctConnectorTypeIds (connectors : List Connector) : List String :=
  ((connectors.filter fun c => !c.Deleted).map fun c => c.ConnectorTypeId).dedup

/-- `getDeprecatedTypes` (lines 500-513): the ids that are used, but not in the latest
catalog.  The set `latestIds` is a Go map with empty values. -/
def getDeprecatedTypes (usedConnectorTypeIDs : List String) (notToBeDeletedIDs : List String) :
    List String :=
  let latestIds : List String :=
    notToBeDeletedIDs.foldl (fun latestIds k => if k ∈ latestIds then latestIds else k :: latestIds)
      []
  usedConnectorTypeIDs.foldl
    (fun deprecatedIds k => if k ∈ latestIds then deprecatedIds else deprecatedIds ++ [k]) []

/-- `Model(&dbapi.ConnectorType{}).Where("id IN ?", deprecatedIds).Update("deprecated", true)`. -/
def dbDeprecate (types : List ConnectorType) (deprecatedIds : List String) :
    List ConnectorType :=
  types.map fun r =>
    if !r.Deleted && deprecatedIds.contains r.ID then { r with Deprecated := true } else r

/-- `Delete(&dbapi.ConnectorType{}, "id NOT IN ?", notToBeDeletedIDs)`.  gorm renders an
empty slice as `(NULL)`, and `id NOT IN (NULL)` holds of no row: with an empty list no row
is deleted. -/
def dbDeleteNotIn (types : List ConnectorType) (notToBeDeletedIDs : List String) :
    List ConnectorType :=
  types.map fun r =>
    if !r.Deleted && !notToBeDeletedIDs.isEmpty && !notToBeDeletedIDs.contains r.ID then
      { r with Deleted := true }
    else r

/-- `connectorTypesService.DeleteOrDeprecateRemovedTypes` (lines 466-498): the error returned
and the tables afterwards. -/
def DeleteOrDeprecateRemovedTypes (cfg : ConnectorsConfig) (f : TypeFaults) (db : CatalogDB) :
    Option ServiceError × CatalogDB :=
  let notToBeDeletedIDs := catalogNotToBeDeletedIDs cfg
  match f.find with
  | some _ => (some (GeneralError "failed to find active connectors: %v"), db)
  | Option.none =>
    let usedConnectorTypeIDs := dbDistinctConnectorTypeIds db.connectors
    let deprecatedIds := getDeprecatedTypes usedConnectorTypeIDs notToBeDeletedIDs
    let flagged : Option ServiceError × CatalogDB :=
      if deprecatedIds.length > 0 then
        match f.update with
        | some _ =>
          (some (GeneralError "failed to deprecate connector types with ids %v : %v"), db)
        | Option.none => (Option.none, { db with types := dbDeprecate db.types deprecatedIds })
      else (Option.none, db)
    match flagged with
    | (some err, db1) => (some err, db1)
    | (Option.none, db1) =>
      let notToBeDeletedIDs := notToBeDeletedIDs ++ usedConnectorTypeIDs
      match f.delete with
      | some _ =>
        (some (GeneralError "failed to delete connector type with ids %v : %v"), db1)
      | Option.none =>
        (Option.none, { db1 with types := dbDeleteNotIn db1.types notToBeDeletedIDs })

/-- The ids of the entries of the latest catalog configuration. -/
def catalogIds (cfg : ConnectorsConfig) : List String :=
  cfg.CatalogEntries.map fun entry => entry.ConnectorType.Id

/-! ## Concrete catalog -/

/-- A catalog with the single type `a` and its checksum. -/
def demoConfig : ConnectorsConfig :=
  { CatalogEntries := [{ ConnectorType := { Id := "a" } }],
    CatalogChecksums := [("a", "sum-a")] }

/-- Types `a` (in the catalog), `b` (used by a connector, not in the catalog) and `c`
(neither), and one connector of type `b`. -/
def demoCatalogDB : CatalogDB :=
  { types :=
      [{ ID := "a", Checksum := some "sum-a", Deprecated := false, Deleted := false },
       { ID := "b", Checksum := some "sum-b", Deprecated := false, Deleted := false },
       { ID := "c", Checksum := Option.none, Deprecated := false, Deleted := false }],
    connectors := [{ ID := "1", ConnectorTypeId := "b", Deleted := false }] }

end Services

namespace KafkaHandlers

/-! ## The admin update of a Kafka request -/

/-- Modelled from the spec: the statuses of the state machine of a request,
`accepted → preparing → provisioning → ready`, `ready ⇄ suspending → suspended ⇄ resuming →
ready`, and `deprovision → deleting → deleted`.  The declaration of `constants.KafkaStatus`
is not part of the embedded sources. -/
inductive KafkaStatus where
  | accepted
  | preparing
  | provisioning
  | ready
  | suspending
  | suspended
  | resuming
  | deprovision
  | deleting
  | deleted
deriving DecidableEq, Repr

/-- Modelled from the spec: the error kinds of the error taxonomy and their HTTP status,
"validation→400, not-found→404, unauthenticated→401, general→500, forbidden→403".  The
package `pkg/errors` is not part of the embedded sources. -/
inductive ErrorKind where
  | validation
  | notFound
  | unauthenticated
  | general
  | forbidden
deriving DecidableEq, Repr

/-- Modelled from the spec: the HTTP status of an error kind. -/
def ErrorKind.httpStatus : ErrorKind → Nat
  | ErrorKind.validation => 400
  | ErrorKind.notFound => 404
  | ErrorKind.unauthenticated => 401
  | ErrorKind.general => 500
  | ErrorKind.forbidden => 403

/-- Modelled from the spec: the fields of the stored request (`dbapi.KafkaRequest`, not part
of the embedded sources) that the transition rules of the admin update read or write.  Times
are in seconds; `ExpiresAt` is `none` when no expiry is set. -/
structure KafkaRequest where
  ID : String
  Status : KafkaStatus
  InstanceType : String
  ActualKafkaBillingModel : String
  ExpiresAt : Option Int
  DesiredKafkaVersion : String
  DesiredStrimziVersion : String
  DesiredKafkaIBPVersion : String
  KafkaUpgrading : Bool
  StrimziUpgrading : Bool
  KafkaIBPUpgrading : Bool
deriving DecidableEq, Repr

/-- Modelled from the spec: the body of the update request, as the test of the handler posts
it: the three version fields (empty when absent) and the optional `suspended` flag. -/
structure KafkaUpdateRequest where
  KafkaVersion : String
  StrimziVersion : String
  KafkaIbpVersion : String
  Suspended : Option Bool
deriving DecidableEq, Repr

/-- Modelled from the spec: what the admin update depends on besides the stored request and
the body: the current time, the grace period in days configured for an instance type and a
billing model, the validations the specification does not describe (availability of the
versions, upgradable status), and the service call that persists the request. -/
structure UpdateEnv where
  now : Int
  gracePeriodDays : String → String → Nat
  otherValidation : KafkaRequest → KafkaUpdateRequest → Option ErrorKind
  persist : KafkaRequest → Option ErrorKind

/-- Modelled from the spec: "now" is within the grace-period window before the expiry. -/
def withinGracePeriod (now expiresAt : Int) (gracePeriodDays : Nat) : Bool :=
  decide (expiresAt - (gracePeriodDays : Int) * 86400 ≤ now) && decide (now ≤ expiresAt)

/-- Modelled from the spec: a version field "may only be set to a new value if the
corresponding upgrading flag is currently false; otherwise the update is rejected". -/
def versionRejected (requested desired : String) (upgrading : Bool) : Bool :=
  requested != "" && requested != desired && upgrading

/-- Modelled from the spec: the status an update with the given `suspended` flag leads to.
"Suspend is only legal from `ready`"; "Resume is only legal from `suspended`", it "is
rejected while an expiry timestamp exists and now is within a configured grace-period window
before that expiry", and it "sets status to `resuming`, not directly to `ready`". -/
def nextStatus (env : UpdateEnv) (stored : KafkaRequest) (suspended : Option Bool) :
    Except ErrorKind KafkaStatus :=
  match suspended with
  | Option.none => Except.ok stored.Status
  | some true =>
    if stored.Status = KafkaStatus.ready then Except.ok KafkaStatus.suspending
    else Except.error ErrorKind.validation
  | some false =>
    if stored.Status = KafkaStatus.suspended then
      match stored.ExpiresAt with
      | Option.none => Except.ok KafkaStatus.resuming
      | some expiresAt =>
        if withinGracePeriod env.now expiresAt
            (env.gracePeriodDays stored.InstanceType stored.ActualKafkaBillingModel) then
          Except.error ErrorKind.validation
        else Except.ok KafkaStatus.resuming
    else Except.error ErrorKind.validation

/-- The answer of the admin update: the HTTP status, the error if any, and the stored
request afterwards. -/
structure UpdateResult where
  status : Nat
  err : Option ErrorKind
  stored : KafkaRequest
deriving DecidableEq, Repr

/-- The answer to a rejected update: the stored request is not touched. -/
def rejected (kind : ErrorKind) (stored : KafkaRequest) : UpdateResult :=
  { status := kind.httpStatus, err := some kind, stored := stored }

/-- Modelled from the spec: `adminKafkaHandler.Update` is not part of the embedded sources,
only its test `Test_adminKafkaHandler_Update` is.  The update applies the transition rules of
section 4.1 to the stored request: the version rule, then the suspend and resume rules, then
the validations the specification does not describe; an update that passes is persisted and
answered with 200, one that does not is answered with the HTTP status of its error and
leaves the stored request as it is. -/
def Update (env : UpdateEnv) (stored : KafkaRequest) (req : KafkaUpdateRequest) :
    UpdateResult :=
  if versionRejected req.KafkaVersion stored.DesiredKafkaVersion stored.KafkaUpgrading
      || versionRejected req.StrimziVersion stored.DesiredStrimziVersion stored.StrimziUpgrading
      || versionRejected req.KafkaIbpVersion stored.DesiredKafkaIBPVersion
          stored.KafkaIBPUpgrading then
    rejected ErrorKind.validation stored
  else
    match nextStatus env stored req.Suspended with
    | Except.error kind => rejected kind stored
    | Except.ok status =>
      match env.otherValidation stored req with
      | some kind => rejected kind stored
      | Option.none =>
        let updated : KafkaRequest :=
          { stored with
            Status := status
            DesiredKafkaVersion :=
              if req.KafkaVersion != "" then req.KafkaVersion else stored.DesiredKafkaVersion
            DesiredStrimziVersion :=
              if req.StrimziVersion != "" then req.StrimziVersion
              else stored.DesiredStrimziVersion
            DesiredKafkaIBPVersion :=
              if req.KafkaIbpVersion != "" then req.KafkaIbpVersion
              else stored.DesiredKafkaIBPVersion }
        match env.persist updated with
        | some kind => rejected kind stored
        | Option.none => { status := 200, err := Option.none, stored := updated }

/-! ## Concrete requests -/

/-- The request of the tests of the handler: versions 2.8, instance type and billing model
of the test configuration. -/
def demoKafka (status : KafkaStatus) (expiresAt : Option Int) : KafkaRequest :=
  { ID := "id", Status := status, InstanceType := "myinstancetype",
    ActualKafkaBillingModel := "mybillingmodel", ExpiresAt := expiresAt,
    DesiredKafkaVersion := "2.8", DesiredStrimziVersion := "2.8",
    DesiredKafkaIBPVersion := "2.8", KafkaUpgrading := false, StrimziUpgrading := false,
    KafkaIBPUpgrading := false }

/-- The environment of the tests of the handler: the given grace period for every instance
type and billing model, nothing else rejects the update, and it is persisted. -/
def demoEnv (now : Int) (graceDays : Nat) : UpdateEnv :=
  { now := now, gracePeriodDays := fun _ _ => graceDays,
    otherValidation := fun _ _ => Option.none, persist := fun _ => Option.none }

/-- The body of the tests that sets the `suspended` flag and nothing else. -/
def suspendedBody (suspended : Bool) : KafkaUpdateRequest :=
  { KafkaVersion := "", StrimziVersion := "", KafkaIbpVersion := "",
    Suspended := some suspended }

end KafkaHandlers

namespace ConnectorHandlers

/-! ## Data model of `handlers/connectors.go` and `presenters/connector.go` -/

/-- The kinds of `errors.ServiceError` built by the connector handlers and presenters. -/
inductive ErrorCode where
  | ErrorBadRequest
  | ErrorGeneral
  | ErrorValidation
  | ErrorNotFound
deriving DecidableEq, Repr

/-- A value of `*errors.ServiceError`. -/
structure ServiceError where
  Code : ErrorCode
  Reason : String
deriving DecidableEq, Repr

/-- `errors.BadRequest`; the reason is the format string, its arguments are not rendered. -/
def BadRequest (reason : String) : ServiceError :=
  { Code := ErrorCode.ErrorBadRequest, Reason := reason }

/-- `errors.GeneralError`; the reason is the format string, its arguments are not
rendered. -/
def GeneralError (reason : String) : ServiceError :=
  { Code := ErrorCode.ErrorGeneral, Reason := reason }

/-- `api.KafkaConnectionSettings`. -/
structure KafkaConnectionSettings where
  BootstrapServer : String
  ClientId : String
  ClientSecret : String
deriving DecidableEq, Repr

/-- The field of `api.ConnectorStatus` the embedded sources read or write. -/
structure ConnectorStatus where
  Phase : String
deriving DecidableEq, Repr

/-- Modelled from the spec: the declaration of `api.Connector` is not part of the embedded
sources.  The stored record of a connector, with the fields the presenters and the handlers
read or write: identity, owner and organisation, desired state, deployment target, the
connector specification as JSON text, and the status.  Times are numbers, 0 for the zero
time. -/
structure Connector where
  ID : String
  CreatedAt : Int
  UpdatedAt : Int
  TargetKind : String
  AddonClusterId : String
  CloudProvider : String
  Region : String
  MultiAZ : Bool
  Name : String
  Owner : String
  OrganisationId : String
  KafkaID : String
  Version : Int
  ConnectorTypeId : String
  ConnectorSpec : String
  DesiredState : String
  Channel : String
  Kafka : KafkaConnectionSettings
  Status : ConnectorStatus
deriving DecidableEq, Repr

/-- The fields of `api.ConnectorType` the handlers read. -/
structure ConnectorType where
  ID : String
  JsonSchema : String
deriving DecidableEq, Repr

/-- `openapi.ConnectorAllOfMetadata`. -/
structure ConnectorAllOfMetadata where
  Owner : String
  KafkaId : String
  Name : String
  CreatedAt : Int
  UpdatedAt : Int
  ResourceVersion : Int
deriving DecidableEq, Repr

/-- `openapi.ClusterTarget`. -/
structure ClusterTarget where
  Kind : String
  ClusterId : String
  CloudProvider : String
  Region : String
  MultiAz : Bool
deriving DecidableEq, Repr

/-- `openapi.Connector`, the connector as presented to clients; `J` is the type of a decoded
JSON object, a Go map from strings to values of any type in the source. -/
structure PresentedConnector (J : Type) where
  Id : String
  Kind : String
  Href : String
  Metadata : ConnectorAllOfMetadata
  DeploymentLocation : ClusterTarget
  ConnectorTypeId : String
  ConnectorSpec : J
  Status : String
  DesiredState : String
  Channel : String
  Kafka : KafkaConnectionSettings
deriving DecidableEq, Repr

/-- What `presenters.PresentReference` returns. -/
structure Reference where
  Id : String
  Kind : String
  Href : String
deriving DecidableEq, Repr

/-- The options of `handlers.Validation` used by the handlers. -/
inductive ValidateOption where
  | MinLen (min : Nat)
  | MaxLen (max : Nat)
  | IsOneOf (options : List String)
deriving DecidableEq, Repr

/-- What the callback of `validateConnectorPatch` reads of an `ajson.Node`: whether its type
is `ajson.Object`, and its keys. -/
structure JsonNode where
  isObject : Bool
  keys : List String
deriving DecidableEq, Repr

/-- The function registered with `db.AddPostCommitAction` by `Patch`, given by the variable
it captures: the secrets it deletes from the vault when it runs. -/
structure PostCommitAction where
  staleSecrets : List String
deriving DecidableEq, Repr

/-- The methods of `services2.ConnectorsService` called by `Patch` and `Delete`.  `Update`
receives a pointer: it returns its error and the connector as the call leaves it. -/
structure ConnectorsService (σ : Type) where
  Get : String → String → σ → Except ServiceError Connector × σ
  Update : Connector → σ → (Option ServiceError × Connector) × σ
  SaveStatus : ConnectorStatus → σ → Option ServiceError × σ

/-- The method of `services2.ConnectorTypesService` called by `Patch`. -/
structure ConnectorTypesService (σ : Type) where
  Get : String → σ → Except ServiceError ConnectorType × σ

/-- The method of `services.KafkaService` called by `Patch`. -/
structure KafkaService (σ : Type) where
  Get : String → σ → Option ServiceError × σ

/-- The method of `services.VaultService` called by the post-commit action of `Patch`. -/
structure VaultService (σ : Type) where
  DeleteSecretString : String → σ → Option String × σ

/-- `ConnectorsHandler`. -/
structure ConnectorsHandler (σ : Type) where
  connectorsService : ConnectorsService σ
  connectorTypesService : ConnectorTypesService σ
  kafkaService : KafkaService σ
  vaultService : VaultService σ

/-- The functions and constants of other packages, and of files of package `handlers` that
are not embedded, which `connectors.go` and `presenters/connector.go` use: `encoding/json`
on the values it is applied to, `jsonpatch`, `secrets.ModifySecrets`, `handlers.Validation`,
`validateConnectorSpec`, `getSecretRefs`, `moveSecretsToVault`, `stripSecretReferences`,
`db.AddPostCommitAction`, `presenters.PresentReference`, and constants.  The functions that
receive a pointer return the value as they leave it. -/
structure Deps (σ J : Type) where
  PresentReference : String → Reference
  unmarshalSpec : String → Except String J
  marshalSpec : J → Except String String
  marshalConnector : PresentedConnector J → Except String String
  unmarshalConnector : String → Except String (PresentedConnector J)
  unmarshalPatchSpec : String → Except String String
  DecodePatch : String → Except String String
  ApplyPatch : String → String → Except String String
  MergePatch : String → String → Except String String
  ModifySecrets : String → String → (JsonNode → Option String) → Except String String
  Validation : String → String → List ValidateOption → Option ServiceError
  validateConnectorSpec : PresentedConnector J → String → σ → Option ServiceError × σ
  getSecretRefs : Connector → ConnectorType → Except String (List String)
  moveSecretsToVault : Connector → ConnectorType → Bool → σ → (Option ServiceError × Connector) × σ
  stripSecretReferences : Connector → ConnectorType → Option ServiceError × Connector
  AddPostCommitAction : PostCommitAction → σ → Option String × σ
  maxConnectorTypeIdLength : Nat
  ConnectorStatusPhaseAssigning : String
  ConnectorStatusPhaseUpdating : String
  nilSpec : J

/-- The zero value of `openapi.Connector`, with a nil map for the connector specification. -/
def zeroConnector {σ J : Type} (d : Deps σ J) : PresentedConnector J :=
  { Id := "", Kind := "", Href := ""
    Metadata :=
      { Owner := "", KafkaId := "", Name := "", CreatedAt := 0, UpdatedAt := 0,
        ResourceVersion := 0 }
    DeploymentLocation :=
      { Kind := "", ClusterId := "", CloudProvider := "", Region := "", MultiAz := false }
    ConnectorTypeId := "", ConnectorSpec := d.nilSpec, Status := "", DesiredState := ""
    Channel := "", Kafka := { BootstrapServer := "", ClientId := "", ClientSecret := "" } }

/-- `maxKafkaNameLength`. -/
def maxKafkaNameLength : Nat := 32

/-- `maxConnectorIdLength`. -/
def maxConnectorIdLength : Nat := 32

/-! ## The presenters -/

/-- `presenters.ConvertConnector` (`presenters/connector.go`, lines 11-44).  The fields the
composite literal does not set have their zero value. -/
def ConvertConnector {σ J : Type} (d : Deps σ J) (frm : PresentedConnector J) :
    Except ServiceError Connector :=
  match d.marshalSpec frm.ConnectorSpec with
  | Except.error _ => Except.error (BadRequest "invalid connector spec: %v")
  | Except.ok spec =>
    Except.ok
      { ID := frm.Id
        CreatedAt := 0
        UpdatedAt := 0
        TargetKind := frm.DeploymentLocation.Kind
        AddonClusterId := frm.DeploymentLocation.ClusterId
        CloudProvider := frm.DeploymentLocation.CloudProvider
        Region := frm.DeploymentLocation.Region
        MultiAZ := frm.DeploymentLocation.MultiAz
        Name := frm.Metadata.Name
        Owner := frm.Metadata.Owner
        OrganisationId := ""
        KafkaID := frm.Metadata.KafkaId
        Version := frm.Metadata.ResourceVersion
        ConnectorTypeId := frm.ConnectorTypeId
        ConnectorSpec := spec
        DesiredState := frm.DesiredState
        Channel := frm.Channel
        Kafka :=
          { BootstrapServer := frm.Kafka.BootstrapServer
            ClientId := frm.Kafka.ClientId
            ClientSecret := frm.Kafka.ClientSecret }
        Status := { Phase := frm.Status } }

/-- `presenters.PresentConnector` (`presenters/connector.go`, lines 46-84). -/
def PresentConnector {σ J : Type} (d : Deps σ J) (frm : Connector) :
    Except ServiceError (PresentedConnector J) :=
  match d.unmarshalSpec frm.ConnectorSpec with
  | Except.error _ => Except.error (BadRequest "invalid connector spec: %v")
  | Except.ok spec =>
    let reference := d.PresentReference frm.ID
    Except.ok
      { Id := reference.Id
        Kind := reference.Kind
        Href := reference.Href
        Metadata :=
          { Owner := frm.Owner
            KafkaId := frm.KafkaID
            Name := frm.Name
            CreatedAt := frm.CreatedAt
            UpdatedAt := frm.UpdatedAt
            ResourceVersion := frm.Version }
        DeploymentLocation :=
          { Kind := frm.TargetKind
            ClusterId := frm.AddonClusterId
            CloudProvider := frm.CloudProvider
            Region := frm.Region
            MultiAz := frm.MultiAZ }
        ConnectorTypeId := frm.ConnectorTypeId
        ConnectorSpec := spec
        Status := frm.Status.Phase
        DesiredState := frm.DesiredState
        Channel := frm.Channel
        Kafka :=
          { BootstrapServer := frm.Kafka.BootstrapServer
            ClientId := frm.Kafka.ClientId
            ClientSecret := frm.Kafka.ClientSecret } }

/-! ## The handlers -/

/-- `validateConnectorPatch` (lines 260-284): a patch must not change a secret of the
connector specification into an object with keys. -/
def validateConnectorPatch {σ J : Type} (d : Deps σ J) (bytes : String) (ct : ConnectorType) :
    Option ServiceError :=
  match d.unmarshalPatchSpec bytes with
  | Except.error _ => some (BadRequest "invalid patch: %v")
  | Except.ok connectorSpec =>
    if connectorSpec.utf8ByteSize > 0 then
      match d.ModifySecrets ct.JsonSchema connectorSpec
          (fun node =>
            if node.isObject then
              if node.keys.length > 0 then some "attempting to change opaque connector secret"
              else Option.none
            else Option.none) with
      | Except.error _ => some (BadRequest "invalid patch: %v")
      | Except.ok _ => Option.none
    else Option.none

/-- `StringListSubtract` (lines 286-298).  The Go map `m` is the list of its keys; the order
in which the loop over a map visits its keys is not specified, here it is the order of
insertion. -/
def StringListSubtract (l : List String) (items : List String) : List String :=
  let m : List String := l.foldl (fun m x => if x ∈ m then m else m ++ [x]) []
  let m : List String := items.foldl (fun m item => m.filter fun k => k != item) m
  m.foldl (fun result item => result ++ [item]) []

/-- `PatchResource` (lines 300-335), for a resource that is an `openapi.Connector` and a
`patched` that points to an empty one. -/
def PatchResource {σ J : Type} (d : Deps σ J) (resource : PresentedConnector J)
    (patchType : String) (patchBytes : String) : Except ServiceError (PresentedConnector J) :=
  match d.marshalConnector resource with
  | Except.error _ => Except.error (GeneralError "failed to encode to json")
  | Except.ok resourceJson =>
    let applied : Except ServiceError String :=
      if patchType = "application/json-patch+json" then
        match d.DecodePatch patchBytes with
        | Except.error _ => Except.error (BadRequest "invalid json patch: %v")
        | Except.ok patchObj =>
          match d.ApplyPatch patchObj resourceJson with
          | Except.error _ => Except.error (GeneralError "failed to apply patch patch: %v")
          | Except.ok patchedJson => Except.ok patchedJson
      else if patchType = "application/merge-patch+json" then
        match d.MergePatch resourceJson patchBytes with
        | Except.error _ => Except.error (BadRequest "invalid json patch: %v")
        | Except.ok patchedJson => Except.ok patchedJson
      else
        Except.error (BadRequest
          ("bad Content-Type, must be one of: application/json-patch+json or " ++
            "application/merge-patch+json"))
    match applied with
    | Except.error serr => Except.error serr
    | Except.ok patchedJson =>
      match d.unmarshalConnector patchedJson with
      | Except.error _ => Except.error (GeneralError "failed to decode patched resource: %v")
      | Except.ok patched => Except.ok patched

/-- The body of the post-commit action of `Patch` (lines 239-244): every stale secret is
deleted from the vault; an error is logged and the loop goes on. -/
def runPostCommitAction {σ : Type} (h : ConnectorsHandler σ) (a : PostCommitAction) (s : σ) :
    σ :=
  a.staleSecrets.foldl (fun s1 secret => (h.vaultService.DeleteSecretString secret s1).2) s

/-- `Patch`, lines 231-252: the secrets of the updated connector are read, the secrets of the
stored connector that are not among them are handed to a post-commit action, and the updated
connector is presented. -/
def patchSecrets {σ J : Type} (d : Deps σ J) (ct : ConnectorType)
    (originalSecrets : List String) (p : Connector) (s : σ) :
    Except ServiceError (PresentedConnector J) × σ :=
  match d.getSecretRefs p ct with
  | Except.error _ => (Except.error (GeneralError "could not get existing secrets: %v"), s)
  | Except.ok newSecrets =>
    let staleSecrets := StringListSubtract originalSecrets newSecrets
    let s1 :=
      if staleSecrets.length > 0 then
        (d.AddPostCommitAction { staleSecrets := staleSecrets } s).2
      else s
    match d.stripSecretReferences p ct with
    | (some err, _) => (Except.error err, s1)
    | (Option.none, p1) => (PresentConnector d p1, s1)

/-- `Patch`, lines 217-229, then lines 231-252: the connector is updated, and its status is
saved as updating unless it is being assigned. -/
def patchStore {σ J : Type} (h : ConnectorsHandler σ) (d : Deps σ J)
    (dbresource : Connector) (ct : ConnectorType) (originalSecrets : List String)
    (originalResource : PresentedConnector J) (p : Connector) (s : σ) :
    Except ServiceError (PresentedConnector J) × σ :=
  match h.connectorsService.Update p s with
  | ((some serr, _), s1) => (Except.error serr, s1)
  | ((Option.none, p1), s1) =>
    if originalResource.Status != d.ConnectorStatusPhaseAssigning then
      match h.connectorsService.SaveStatus
          { dbresource.Status with Phase := d.ConnectorStatusPhaseUpdating } s1 with
      | (some serr, s2) => (Except.error serr, s2)
      | (Option.none, s2) =>
        patchSecrets d ct originalSecrets
          { p1 with Status := { p1.Status with Phase := d.ConnectorStatusPhaseUpdating } } s2
    else patchSecrets d ct originalSecrets p1 s1

/-- `Patch`, lines 207-215, then the rest: the patched resource is converted and its secrets
are moved to the vault. -/
def patchConvert {σ J : Type} (h : ConnectorsHandler σ) (d : Deps σ J)
    (dbresource : Connector) (ct : ConnectorType) (originalSecrets : List String)
    (originalResource resource : PresentedConnector J) (s : σ) :
    Except ServiceError (PresentedConnector J) × σ :=
  match ConvertConnector d resource with
  | Except.error svcErr => (Except.error svcErr, s)
  | Except.ok p =>
    match d.moveSecretsToVault p ct false s with
    | ((some svcErr, _), s1) => (Except.error svcErr, s1)
    | ((Option.none, p1), s1) =>
      patchStore h d dbresource ct originalSecrets originalResource p1 s1

/-- `Patch`, lines 199-205, then the rest: the kafka instance is looked up when it
changed. -/
def patchUpdate {σ J : Type} (h : ConnectorsHandler σ) (d : Deps σ J)
    (dbresource : Connector) (ct : ConnectorType) (originalSecrets : List String)
    (originalResource resource : PresentedConnector J) (s : σ) :
    Except ServiceError (PresentedConnector J) × σ :=
  if resource.Metadata.KafkaId != originalResource.Metadata.KafkaId then
    match h.kafkaService.Get resource.Metadata.KafkaId s with
    | (some err, s1) => (Except.error err, s1)
    | (Option.none, s1) =>
      patchConvert h d dbresource ct originalSecrets originalResource resource s1
  else patchConvert h d dbresource ct originalSecrets originalResource resource s

/-- `Patch`, lines 183-197, then the rest: the patched resource is validated again. -/
def patchRevalidate {σ J : Type} (h : ConnectorsHandler σ) (d : Deps σ J)
    (connectorTypeId : String) (dbresource : Connector) (ct : ConnectorType)
    (originalSecrets : List String) (originalResource resource : PresentedConnector J)
    (s : σ) : Except ServiceError (PresentedConnector J) × σ :=
  match d.Validation "name" resource.Metadata.Name
      [ValidateOption.MinLen 1, ValidateOption.MaxLen 100] with
  | some err => (Except.error err, s)
  | Option.none =>
    match d.Validation "connector_type_id" resource.ConnectorTypeId
        [ValidateOption.MinLen 1, ValidateOption.MaxLen maxKafkaNameLength] with
    | some err => (Except.error err, s)
    | Option.none =>
      match d.Validation "kafka_id" resource.Metadata.KafkaId
          [ValidateOption.MinLen 1, ValidateOption.MaxLen maxKafkaNameLength] with
      | some err => (Except.error err, s)
      | Option.none =>
        match d.Validation "Kafka client_id" resource.Kafka.ClientId
            [ValidateOption.MinLen 1] with
        | some err => (Except.error err, s)
        | Option.none =>
          match d.validateConnectorSpec resource connectorTypeId s with
          | (some err, s1) => (Except.error err, s1)
          | (Option.none, s1) =>
            patchUpdate h d dbresource ct originalSecrets originalResource resource s1

/-- What `Patch` reads of the HTTP request: the path variables, the `Content-Type` header and
the body, or the error of reading it. -/
structure PatchRequest where
  connectorId : String
  connectorTypeId : String
  contentType : String
  body : Except String String

/-- The `Action` of `Patch` (lines 128-253). -/
def patchAction {σ J : Type} [DecidableEq J] (h : ConnectorsHandler σ) (d : Deps σ J)
    (r : PatchRequest) (s : σ) : Except ServiceError (PresentedConnector J) × σ :=
  match h.connectorsService.Get r.connectorId r.connectorTypeId s with
  | (Except.error serr, s1) => (Except.error serr, s1)
  | (Except.ok dbresource, s1) =>
    match PresentConnector d dbresource with
    | Except.error serr => (Except.error serr, s1)
    | Except.ok resource =>
      match h.connectorTypesService.Get dbresource.ConnectorTypeId s1 with
      | (Except.error _, s2) =>
        (Except.error (BadRequest "invalid connector type id: %s"), s2)
      | (Except.ok ct, s2) =>
        match d.getSecretRefs dbresource ct with
        | Except.error _ =>
          (Except.error (GeneralError "could not get existing secrets: %v"), s2)
        | Except.ok originalSecrets =>
          match r.body with
          | Except.error _ => (Except.error (BadRequest "failed to get patch bytes"), s2)
          | Except.ok patchBytes =>
            match validateConnectorPatch d patchBytes ct with
            | some serr => (Except.error serr, s2)
            | Option.none =>
              match PatchResource d resource r.contentType patchBytes with
              | Except.error serr => (Except.error serr, s2)
              | Except.ok patch =>
                let resource : PresentedConnector J :=
                  { resource with
                    Metadata :=
                      { resource.Metadata with
                        Name := patch.Metadata.Name
                        KafkaId := patch.Metadata.KafkaId
                        ResourceVersion := patch.Metadata.ResourceVersion }
                    ConnectorSpec := patch.ConnectorSpec
                    DesiredState := patch.DesiredState
                    Kafka := patch.Kafka }
                let originalResource : PresentedConnector J :=
                  match PresentConnector d dbresource with
                  | Except.ok presented => presented
                  | Except.error _ => zeroConnector d
                if originalResource = resource then (Except.ok originalResource, s2)
                else
                  patchRevalidate h d r.connectorTypeId dbresource ct originalSecrets
                    originalResource resource s2

/-- `ConnectorsHandler.Patch` (lines 116-258): `handlers.Handle` runs the validations of the
request in order and answers with the first error; when all pass it runs the action. -/
def Patch {σ J : Type} [DecidableEq J] (h : ConnectorsHandler σ) (d : Deps σ J)
    (r : PatchRequest) (s : σ) : Except ServiceError (PresentedConnector J) × σ :=
  match d.Validation "connector_id" r.connectorId
      [ValidateOption.MinLen 1, ValidateOption.MaxLen maxConnectorIdLength] with
  | some err => (Except.error err, s)
  | Option.none =>
    match d.Validation "connector_type_id" r.connectorTypeId
        [ValidateOption.MaxLen d.maxConnectorTypeIdLength] with
    | some err => (Except.error err, s)
    | Option.none =>
      match d.Validation "Content-Type header" r.contentType
          [ValidateOption.IsOneOf
            ["application/json-patch+json", "application/merge-patch+json"]] with
      | some err => (Except.error err, s)
      | Option.none => patchAction h d r s

/-- The `Action` of `Delete` (lines 373-388). -/
def deleteAction {σ : Type} (h : ConnectorsHandler σ) (connectorId : String) (s : σ) :
    Option ServiceError × σ :=
  match h.connectorsService.Get connectorId "" s with
  | (Except.error err, s1) => (some err, s1)
  | (Except.ok c, s1) =>
    if c.DesiredState != "deleted" then
      match h.connectorsService.Update { c with DesiredState := "deleted" } s1 with
      | ((some err, _), s2) => (some err, s2)
      | ((Option.none, _), s2) => (Option.none, s2)
    else (Option.none, s1)

/-- `ConnectorsHandler.Delete` (lines 366-391): `handlers.HandleDelete` runs the validation
of the connector id and answers with its error; when it passes it runs the action.  Returns
the error answered, none for status 204. -/
def Delete {σ J : Type} (h : ConnectorsHandler σ) (d : Deps σ J) (connectorId : String)
    (s : σ) : Option ServiceError × σ :=
  match d.Validation "connector_id" connectorId
      [ValidateOption.MinLen 1, ValidateOption.MaxLen maxConnectorIdLength] with
  | some err => (some err, s)
  | Option.none => deleteAction h connectorId s

/-! ## Observing the calls of the handlers -/

/-- A call made by a handler on one of its services, on `moveSecretsToVault` or on
`db.AddPostCommitAction`, with what it returned. -/
inductive HandlerCall where
  | ConnectorsGet (id typeId : String) (found : Option Connector) (err : Option ServiceError)
  | ConnectorsUpdate (c : Connector) (err : Option ServiceError) (after : Connector)
  | ConnectorsSaveStatus (status : ConnectorStatus) (err : Option ServiceError)
  | ConnectorTypesGet (id : String) (found : Option ConnectorType)
  | KafkaGet (id : String) (err : Option ServiceError)
  | MoveSecretsToVault (c : Connector) (err : Option ServiceError) (after : Connector)
  | DeleteSecretString (secret : String)
  | AddPostCommitAction (a : PostCommitAction)
deriving DecidableEq, Repr

/-- The value of a result, if it is one. -/
def okValue {ε α : Type} : Except ε α → Option α
  | Except.ok a => some a
  | Except.error _ => Option.none

/-- The error of a result, if it is one. -/
def errValue {ε α : Type} : Except ε α → Option ε
  | Except.ok _ => Option.none
  | Except.error e => some e

/-- The handler `h` with recording services: every method behaves as in `h` and appends the
call, with its result, to a log carried next to the state of the world. -/
def recordingHandler {σ : Type} (h : ConnectorsHandler σ) :
    ConnectorsHandler (σ × List HandlerCall) :=
  { connectorsService :=
      { Get := fun id typeId w =>
          ((h.connectorsService.Get id typeId w.1).1,
           ((h.connectorsService.Get id typeId w.1).2,
            w.2 ++ [HandlerCall.ConnectorsGet id typeId
              (okValue (h.connectorsService.Get id typeId w.1).1)
              (errValue (h.connectorsService.Get id typeId w.1).1)]))
        Update := fun c w =>
          ((h.connectorsService.Update c w.1).1,
           ((h.connectorsService.Update c w.1).2,
            w.2 ++ [HandlerCall.ConnectorsUpdate c (h.connectorsService.Update c w.1).1.1
              (h.connectorsService.Update c w.1).1.2]))
        SaveStatus := fun status w =>
          ((h.connectorsService.SaveStatus status w.1).1,
           ((h.connectorsService.SaveStatus status w.1).2,
            w.2 ++ [HandlerCall.ConnectorsSaveStatus status
              (h.connectorsService.SaveStatus status w.1).1])) }
    connectorTypesService :=
      { Get := fun id w =>
          ((h.connectorTypesService.Get id w.1).1,
           ((h.connectorTypesService.Get id w.1).2,
            w.2 ++ [HandlerCall.ConnectorTypesGet id
              (okValue (h.connectorTypesService.Get id w.1).1)])) }
    kafkaService :=
      { Get := fun id w =>
          ((h.kafkaService.Get id w.1).1,
           ((h.kafkaService.Get id w.1).2,
            w.2 ++ [HandlerCall.KafkaGet id (h.kafkaService.Get id w.1).1])) }
    vaultService :=
      { DeleteSecretString := fun secret w =>
          ((h.vaultService.DeleteSecretString secret w.1).1,
           ((h.vaultService.DeleteSecretString secret w.1).2,
            w.2 ++ [HandlerCall.DeleteSecretString secret])) } }

/-- The functions of `d` over the world with a log: `moveSecretsToVault` and
`db.AddPostCommitAction` append their call to the log, `validateConnectorSpec` leaves the log
alone, the other functions do not depend on the world. -/
def recordingDeps {σ J : Type} (d : Deps σ J) : Deps (σ × List HandlerCall) J :=
  { PresentReference := d.PresentReference
    unmarshalSpec := d.unmarshalSpec
    marshalSpec := d.marshalSpec
    marshalConnector := d.marshalConnector
    unmarshalConnector := d.unmarshalConnector
    unmarshalPatchSpec := d.unmarshalPatchSpec
    DecodePatch := d.DecodePatch
    ApplyPatch := d.ApplyPatch
    MergePatch := d.MergePatch
    ModifySecrets := d.ModifySecrets
    Validation := d.Validation
    validateConnectorSpec := fun resource tid w =>
      ((d.validateConnectorSpec resource tid w.1).1,
       ((d.validateConnectorSpec resource tid w.1).2, w.2))
    getSecretRefs := d.getSecretRefs
    moveSecretsToVault := fun c ct create w =>
      ((d.moveSecretsToVault c ct create w.1).1,
       ((d.moveSecretsToVault c ct create w.1).2,
        w.2 ++ [HandlerCall.MoveSecretsToVault c (d.moveSecretsToVault c ct create w.1).1.1
          (d.moveSecretsToVault c ct create w.1).1.2]))
    stripSecretReferences := d.stripSecretReferences
    AddPostCommitAction := fun a w =>
      ((d.AddPostCommitAction a w.1).1,
       ((d.AddPostCommitAction a w.1).2, w.2 ++ [HandlerCall.AddPostCommitAction a]))
    maxConnectorTypeIdLength := d.maxConnectorTypeIdLength
    ConnectorStatusPhaseAssigning := d.ConnectorStatusPhaseAssigning
    ConnectorStatusPhaseUpdating := d.ConnectorStatusPhaseUpdating
    nilSpec := d.nilSpec }

/-- The calls `Delete` makes when started in state `s`, in order. -/
def deleteCalls {σ J : Type} (h : ConnectorsHandler σ) (d : Deps σ J) (connectorId : String)
    (s : σ) : List HandlerCall :=
  (Delete (recordingHandler h) (recordingDeps d) connectorId (s, [])).2.2

/-- The calls `Patch` makes when started in state `s`, in order. -/
def patchCalls {σ J : Type} [DecidableEq J] (h : ConnectorsHandler σ) (d : Deps σ J)
    (r : PatchRequest) (s : σ) : List HandlerCall :=
  (Patch (recordingHandler h) (recordingDeps d) r (s, [])).2.2

/-- The calls the post-commit action of `Patch` makes when it runs in state `s`. -/
def postCommitCalls {σ : Type} (h : ConnectorsHandler σ) (a : PostCommitAction) (s : σ) :
    List HandlerCall :=
  (runPostCommitAction (recordingHandler h) a (s, [])).2

/-- The calls of lines 231-252 of `Patch`: one registration of a post-commit action, for the
stale secrets, when there are any. -/
def secretsCalls {σ J : Type} (d : Deps σ J) (ct : ConnectorType)
    (originalSecrets : List String) (p : Connector) : List HandlerCall :=
  match d.getSecretRefs p ct with
  | Except.error _ => []
  | Except.ok newSecrets =>
    if (StringListSubtract originalSecrets newSecrets).length > 0 then
      [HandlerCall.AddPostCommitAction
        { staleSecrets := StringListSubtract originalSecrets newSecrets }]
    else []

/-- A call that deletes a secret or registers a post-commit action. -/
def isSecretCall : HandlerCall → Bool
  | HandlerCall.DeleteSecretString _ => true
  | HandlerCall.AddPostCommitAction _ => true
  | _ => false

/-- The calls of a log that register a post-commit action. -/
def registrations (log : List HandlerCall) : List PostCommitAction :=
  log.filterMap fun c =>
    match c with
    | HandlerCall.AddPostCommitAction a => some a
    | _ => Option.none

/-- In a log no secret is deleted, and every post-commit action registered is for the
secrets of `originalSecrets` that are not secrets of the connector updated before: the
connector as a successful `Update` of the log left it, with the phase updating when the
status was saved. -/
def StaleScheduled {σ J : Type} (d : Deps σ J) (ct : ConnectorType)
    (originalSecrets : List String) (log : List HandlerCall) : Prop :=
  (∀ secret, HandlerCall.DeleteSecretString secret ∉ log)
  ∧ (registrations log).length ≤ 1
  ∧ ∀ a, HandlerCall.AddPostCommitAction a ∈ log →
      ∃ p0 p1 p newSecrets,
        HandlerCall.ConnectorsUpdate p0 Option.none p1 ∈ log
        ∧ (p = p1 ∨ p = { p1 with
              Status := { p1.Status with Phase := d.ConnectorStatusPhaseUpdating } })
        ∧ d.getSecretRefs p ct = Except.ok newSecrets
        ∧ a.staleSecrets = StringListSubtract originalSecrets newSecrets
        ∧ a.staleSecrets ≠ []

/-- In the log of a `Patch` no secret is deleted, at most one post-commit action is
registered, and an action registered is for the secrets of the stored connector, the one
`Get` returned, that are not secrets of the updated connector: the connector as the
successful `Update` left it, with the phase updating when the status was saved. -/
def SecretsScheduled {σ J : Type} (d : Deps σ J) (r : PatchRequest)
    (log : List HandlerCall) : Prop :=
  (∀ secret, HandlerCall.DeleteSecretString secret ∉ log)
  ∧ (registrations log).length ≤ 1
  ∧ ∀ a, HandlerCall.AddPostCommitAction a ∈ log →
      ∃ dbresource ct originalSecrets p0 p1 p newSecrets,
        HandlerCall.ConnectorsGet r.connectorId r.connectorTypeId (some dbresource) Option.none
          ∈ log
        ∧ HandlerCall.ConnectorTypesGet dbresource.ConnectorTypeId (some ct) ∈ log
        ∧ d.getSecretRefs dbresource ct = Except.ok originalSecrets
        ∧ HandlerCall.ConnectorsUpdate p0 Option.none p1 ∈ log
        ∧ (p = p1 ∨ p = { p1 with
              Status := { p1.Status with Phase := d.ConnectorStatusPhaseUpdating } })
        ∧ d.getSecretRefs p ct = Except.ok newSecrets
        ∧ a.staleSecrets = StringListSubtract originalSecrets newSecrets
        ∧ a.staleSecrets ≠ []

/-- The resource of `Patch` after lines 170-175: the presented connector with the fields a
client may modify taken from the patch. -/
def patchedResource {J : Type} (resource patch : PresentedConnector J) : PresentedConnector J :=
  { resource with
    Metadata :=
      { resource.Metadata with
        Name := patch.Metadata.Name
        KafkaId := patch.Metadata.KafkaId
        ResourceVersion := patch.Metadata.ResourceVersion }
    ConnectorSpec := patch.ConnectorSpec
    DesiredState := patch.DesiredState
    Kafka := patch.Kafka }

/-- What a call of `Patch` hands on, `resource` being the patched resource:
`moveSecretsToVault` receives the conversion of `resource`, and `Update` receives the
connector as a successful `moveSecretsToVault` left that conversion. -/
def FramedCall {σ J : Type} (d : Deps σ J) (ct : ConnectorType)
    (resource : PresentedConnector J) : HandlerCall → Prop
  | HandlerCall.MoveSecretsToVault p _ _ => ConvertConnector d resource = Except.ok p
  | HandlerCall.ConnectorsUpdate c _ _ =>
    ∃ p s, ConvertConnector d resource = Except.ok p
      ∧ (d.moveSecretsToVault p ct false s).1 = (Option.none, c)
  | _ => True

/-- A call on the connectors service that writes: `Update` or `SaveStatus`. -/
def isWriteCall : HandlerCall → Bool
  | HandlerCall.ConnectorsUpdate _ _ _ => true
  | HandlerCall.ConnectorsSaveStatus _ _ => true
  | _ => false

/-- In a log in which `Update` succeeded and no `SaveStatus` failed, the post-commit actions
registered are those of lines 231-246 for the updated connector: the connector as `Update`
left it when no status was saved, with the phase updating when the status was saved. -/
def StaleRegistered {σ J : Type} (d : Deps σ J) (ct : ConnectorType)
    (originalSecrets : List String) (log : List HandlerCall) : Prop :=
  ∀ p0 p1, HandlerCall.ConnectorsUpdate p0 Option.none p1 ∈ log →
    (∀ st e, HandlerCall.ConnectorsSaveStatus st (some e) ∉ log) →
    ∃ p,
      ((p = p1 ∧ ∀ st, HandlerCall.ConnectorsSaveStatus st Option.none ∉ log)
        ∨ (p = { p1 with
              Status := { p1.Status with Phase := d.ConnectorStatusPhaseUpdating } }
            ∧ ∃ st, HandlerCall.ConnectorsSaveStatus st Option.none ∈ log))
      ∧ registrations log = registrations (secretsCalls d ct originalSecrets p)

/-- In the log of a `Patch` in which `Update` succeeded and no `SaveStatus` failed, the
post-commit actions registered are those of lines 231-246 for the secrets of the stored
connector, the one `Get` returned, and the updated connector. -/
def SecretsRegistered {σ J : Type} (d : Deps σ J) (r : PatchRequest)
    (log : List HandlerCall) : Prop :=
  ∀ p0 p1, HandlerCall.ConnectorsUpdate p0 Option.none p1 ∈ log →
    (∀ st e, HandlerCall.ConnectorsSaveStatus st (some e) ∉ log) →
    ∃ dbresource ct originalSecrets p,
      HandlerCall.ConnectorsGet r.connectorId r.connectorTypeId (some dbresource) Option.none
        ∈ log
      ∧ HandlerCall.ConnectorTypesGet dbresource.ConnectorTypeId (some ct) ∈ log
      ∧ d.getSecretRefs dbresource ct = Except.ok originalSecrets
      ∧ ((p = p1 ∧ ∀ st, HandlerCall.ConnectorsSaveStatus st Option.none ∉ log)
        ∨ (p = { p1 with
              Status := { p1.Status with Phase := d.ConnectorStatusPhaseUpdating } }
            ∧ ∃ st, HandlerCall.ConnectorsSaveStatus st Option.none ∈ log))
      ∧ registrations log = registrations (secretsCalls d ct originalSecrets p)

/-! ## A store of connectors -/

/-- Modelled from the spec: the connectors service is not part of the embedded sources.  A
service over a store of connector records, the "single source of truth": `Get` returns the
record with the given id, a not-found error when there is none; `Update` replaces the record
that has the id of its argument; `SaveStatus` changes nothing here. -/
def storeConnectorsService : ConnectorsService (List Connector) :=
  { Get := fun id _ store =>
      match store.find? fun c => c.ID == id with
      | some c => (Except.ok c, store)
      | Option.none =>
        (Except.error { Code := ErrorCode.ErrorNotFound, Reason := "Connector not found" },
          store)
    Update := fun c store =>
      ((Option.none, c), store.map fun c0 => if c0.ID == c.ID then c else c0)
    SaveStatus := fun _ store => (Option.none, store) }

/-- A handler over the store of connectors; its other services do nothing. -/
def storeHandler : ConnectorsHandler (List Connector) :=
  { connectorsService := storeConnectorsService
    connectorTypesService :=
      { Get := fun id store => (Except.ok { ID := id, JsonSchema := "" }, store) }
    kafkaService := { Get := fun _ store => (Option.none, store) }
    vaultService := { DeleteSecretString := fun _ store => (Option.none, store) } }

/-! ## Concrete handler data -/

/-- Functions over the store of connectors for which nothing fails: JSON texts stand for
themselves, every validation passes, a connector has the one secret named by its
`ClientSecret`, and nothing is moved or stripped. -/
def demoDeps : Deps (List Connector) String :=
  { PresentReference := fun id =>
      { Id := id, Kind := "Connector", Href := "/api/connector_mgmt/v1/kafka_connectors/" ++ id }
    unmarshalSpec := fun text => Except.ok text
    marshalSpec := fun spec => Except.ok spec
    marshalConnector := fun c => Except.ok c.ConnectorSpec
    unmarshalConnector := fun _ => Except.error "not a connector"
    unmarshalPatchSpec := fun _ => Except.ok ""
    DecodePatch := fun text => Except.ok text
    ApplyPatch := fun _ doc => Except.ok doc
    MergePatch := fun doc _ => Except.ok doc
    ModifySecrets := fun _ doc _ => Except.ok doc
    Validation := fun _ _ _ => Option.none
    validateConnectorSpec := fun _ _ store => (Option.none, store)
    getSecretRefs := fun c _ => Except.ok [c.Kafka.ClientSecret]
    moveSecretsToVault := fun c _ _ store => ((Option.none, c), store)
    stripSecretReferences := fun c _ => (Option.none, c)
    AddPostCommitAction := fun _ store => (Option.none, store)
    maxConnectorTypeIdLength := 32
    ConnectorStatusPhaseAssigning := "assigning"
    ConnectorStatusPhaseUpdating := "updating"
    nilSpec := "null" }

/-- A stored connector whose desired state is `ready`. -/
def demoConnector : Connector :=
  { ID := "c1", CreatedAt := 1, UpdatedAt := 2, TargetKind := "addon", AddonClusterId := "k1",
    CloudProvider := "aws", Region := "us-east-1", MultiAZ := true, Name := "sink",
    Owner := "alice", OrganisationId := "org", KafkaID := "kafka1", Version := 3,
    ConnectorTypeId := "aws-sqs-source", ConnectorSpec := "\x7b\x7d", DesiredState := "ready",
    Channel := "stable",
    Kafka := { BootstrapServer := "b:443", ClientId := "id", ClientSecret := "secret-ref-1" },
    Status := { Phase := "ready" } }

/-- The functions of `demoDeps` with a decoder of patched documents: a merge patch replaces
the document, and the patched document is read as the concrete connector with the document
as its client secret. -/
def patchDeps : Deps (List Connector) String :=
  { demoDeps with
    MergePatch := fun _ patch => Except.ok patch
    unmarshalConnector := fun text =>
      Except.ok
        { Id := "c1", Kind := "Connector", Href := "/api/connector_mgmt/v1/kafka_connectors/c1"
          Metadata :=
            { Owner := "alice", KafkaId := "kafka1", Name := "sink", CreatedAt := 1,
              UpdatedAt := 2, ResourceVersion := 3 }
          DeploymentLocation :=
            { Kind := "addon", ClusterId := "k1", CloudProvider := "aws", Region := "us-east-1",
              MultiAz := true }
          ConnectorTypeId := "aws-sqs-source", ConnectorSpec := "\x7b\x7d", Status := "ready"
          DesiredState := "ready", Channel := "stable"
          Kafka := { BootstrapServer := "b:443", ClientId := "id", ClientSecret := text } } }

/-- A merge patch of the concrete connector that names a new client secret. -/
def demoPatch : PatchRequest :=
  { connectorId := "c1", connectorTypeId := "aws-sqs-source"
    contentType := "application/merge-patch+json", body := Except.ok "secret-ref-2" }

/-- A merge patch of the concrete connector that names the client secret it has. -/
def demoNoopPatch : PatchRequest :=
  { connectorId := "c1", connectorTypeId := "aws-sqs-source"
    contentType := "application/merge-patch+json", body := Except.ok "secret-ref-1" }

/-! ## `encoding/json` on a fragment of JSON

The presenters decode the connector specification with `json.Unmarshal` into a
`map[string]interface{}` and encode it with `json.Marshal`.  The fragment: the text `null`,
and the objects, written without white space, whose keys are strings and whose values are
`null`, `true`, `false`, strings, or integers of at most 300 digits and other than `-0`;
the strings hold printable ASCII characters other than the quote, the backslash and the
characters `<`, `>`, `&`, so that they are written and read without escape. -/

end ConnectorHandlers

namespace KafkaMgrs

/-! ## Lemmas on the loops -/

theorem foldl_appendUnprovisioned {σ : Type} (k : DeletingKafkaManager σ)
    (l acc : List KafkaRequest) :
    l.foldl (appendUnprovisioned k) acc
      = acc ++ l.filter (neverProvisioned k.configService.GetConfig) := by
  induction l generalizing acc with
  | nil => simp
  | cons d l ih =>
    rw [List.foldl_cons, ih]
    by_cases h1 : d.BootstrapServerHost = ""
    · simp [appendUnprovisioned, neverProvisioned, h1, List.filter_cons]
    · by_cases h2 : (k.configService.GetConfig.Keycloak.EnableAuthenticationOnKafka
          && (d.SsoClientID == "" || d.SsoClientSecret == "")) = true
      · simp only [appendUnprovisioned, neverProvisioned, List.filter_cons]
        simp [h1, h2]
      · simp only [appendUnprovisioned, neverProvisioned, List.filter_cons]
        simp [h1, h2]

theorem reconcile_eq_loop {σ : Type} (k : DeletingKafkaManager σ) (s : σ) :
    Reconcile k s
      = (specCandidates k s).foldl (reconcileOne k) (listingErrors k s, (listDeprovision k s).2) := by
  unfold Reconcile
  simp only [foldl_appendUnprovisioned]
  unfold specCandidates listingErrors listDeprovision listDeleting
  cases (k.kafkaService.ListByStatus
      [KafkaStatus.KafkaRequestStatusDeleting, KafkaStatus.KafkaRequestStatusDeleted] s).1.2 <;>
    cases (k.kafkaService.ListByStatus [KafkaStatus.KafkaRequestStatusDeprovision]
      (k.kafkaService.ListByStatus
        [KafkaStatus.KafkaRequestStatusDeleting,
          KafkaStatus.KafkaRequestStatusDeleted] s).2).1.2 <;> rfl

/-- The calls of `reconcileDeletingKafkas`, written out. -/
theorem callsOf_eq {σ : Type} (k : DeletingKafkaManager σ) (d : KafkaRequest) (s : σ) :
    callsOf k d s =
      if quotaRequired k.configService.GetConfig d = true then
        match (k.quotaService.DeleteQuota d.SubscriptionId s).1 with
        | some e => [Call.DeleteQuota d.SubscriptionId (some e)]
        | none =>
          [Call.DeleteQuota d.SubscriptionId none,
           Call.Delete d
             (k.kafkaService.Delete d (k.quotaService.DeleteQuota d.SubscriptionId s).2).1]
      else [Call.Delete d (k.kafkaService.Delete d s).1] := by
  unfold callsOf reconcileDeletingKafkas quotaRequired
  by_cases hq : (k.configService.GetConfig.Kafka.EnableQuotaService
      && d.SubscriptionId != "") = true
  · rw [if_pos hq]
    have hq2 : ((recording k).configService.GetConfig.Kafka.EnableQuotaService
      && d.SubscriptionId != "") = true := hq
    rw [if_pos hq2]
    rcases hx : k.quotaService.DeleteQuota d.SubscriptionId s with ⟨_ | e, s1⟩
    · rcases hy : k.kafkaService.Delete d s1 with ⟨_ | e2, s2⟩ <;>
        simp [recording, hx, hy]
    · simp [recording, hx]
  · rw [if_neg hq]
    have hq2 : ¬ ((recording k).configService.GetConfig.Kafka.EnableQuotaService
      && d.SubscriptionId != "") = true := hq
    rw [if_neg hq2]
    rcases hy : k.kafkaService.Delete d s with ⟨_ | e2, s2⟩ <;>
      simp [recording, hy]

/-- Recording changes neither the result nor the state of `reconcileDeletingKafkas`; it
appends the calls made to the log. -/
theorem recording_reconcileDeletingKafkas {σ : Type} (k : DeletingKafkaManager σ)
    (d : KafkaRequest) (s : σ) (log : List Call) :
    reconcileDeletingKafkas (recording k) d (s, log)
      = ((reconcileDeletingKafkas k d s).1,
          ((reconcileDeletingKafkas k d s).2, log ++ callsOf k d s)) := by
  unfold callsOf reconcileDeletingKafkas
  by_cases hq : (k.configService.GetConfig.Kafka.EnableQuotaService
      && d.SubscriptionId != "") = true
  · have hq2 : ((recording k).configService.GetConfig.Kafka.EnableQuotaService
      && d.SubscriptionId != "") = true := hq
    rw [if_pos hq, if_pos hq2, if_pos hq2]
    rcases hx : k.quotaService.DeleteQuota d.SubscriptionId s with ⟨_ | e, s1⟩
    · rcases hy : k.kafkaService.Delete d s1 with ⟨_ | e2, s2⟩ <;>
        simp [recording, hx, hy]
    · simp [recording, hx]
  · have hq2 : ¬ ((recording k).configService.GetConfig.Kafka.EnableQuotaService
      && d.SubscriptionId != "") = true := hq
    rw [if_neg hq, if_neg hq2, if_neg hq2]
    rcases hy : k.kafkaService.Delete d s with ⟨_ | e2, s2⟩ <;>
      simp [recording, hy]

/-- Recording changes neither the errors nor the state of the reconcile loop; it appends
the calls made to the log. -/
theorem recording_loop {σ : Type} (k : DeletingKafkaManager σ) (l : List KafkaRequest)
    (errs : List GoError) (s : σ) (log : List Call) :
    l.foldl (reconcileOne (recording k)) (errs, (s, log))
      = ((l.foldl (reconcileOne k) (errs, s)).1,
          ((l.foldl (reconcileOne k) (errs, s)).2, log ++ loopCalls k l s)) := by
  induction l generalizing errs s log with
  | nil => simp [loopCalls]
  | cons d l ih =>
    simp only [List.foldl_cons, loopCalls]
    have h1 : reconcileOne (recording k) (errs, (s, log)) d
        = ((reconcileOne k (errs, s) d).1,
            ((reconcileDeletingKafkas k d s).2, log ++ callsOf k d s)) := by
      simp only [reconcileOne, recording_reconcileDeletingKafkas]
      rcases hx : reconcileDeletingKafkas k d s with ⟨_ | e, s1⟩ <;> simp
    have h2 : reconcileOne k (errs, s) d
        = ((reconcileOne k (errs, s) d).1, (reconcileDeletingKafkas k d s).2) := by
      simp only [reconcileOne]
      rcases hx : reconcileDeletingKafkas k d s with ⟨_ | e, s1⟩ <;> simp
    rw [h1, ih, ← h2, List.append_assoc]

/-- The state in which the loop continues after a request. -/
theorem reconcileOne_snd {σ : Type} (k : DeletingKafkaManager σ) (acc : List GoError × σ)
    (d : KafkaRequest) :
    (reconcileOne k acc d).2 = (reconcileDeletingKafkas k d acc.2).2 := by
  simp only [reconcileOne]
  rcases hx : reconcileDeletingKafkas k d acc.2 with ⟨_ | e, s1⟩ <;> simp

/-- The calls of `Reconcile`: the two listings, then the calls of the loop over the
candidates. -/
theorem reconcileCalls_eq {σ : Type} (k : DeletingKafkaManager σ) (s : σ) :
    reconcileCalls k s =
      [Call.ListByStatus
          [KafkaStatus.KafkaRequestStatusDeleting, KafkaStatus.KafkaRequestStatusDeleted]
          (listDeleting k s).1,
        Call.ListByStatus [KafkaStatus.KafkaRequestStatusDeprovision] (listDeprovision k s).1]
      ++ loopCalls k (specCandidates k s) (listDeprovision k s).2 := by
  unfold reconcileCalls
  rw [reconcile_eq_loop]
  have h1 : specCandidates (recording k) (s, []) = specCandidates k s := rfl
  have h2 : listingErrors (recording k) (s, []) = listingErrors k s := rfl
  have h3 : (listDeprovision (recording k) (s, [])).2
      = ((listDeprovision k s).2,
          [Call.ListByStatus
            [KafkaStatus.KafkaRequestStatusDeleting, KafkaStatus.KafkaRequestStatusDeleted]
            (listDeleting k s).1,
          Call.ListByStatus [KafkaStatus.KafkaRequestStatusDeprovision]
            (listDeprovision k s).1]) := rfl
  rw [h1, h2, h3, recording_loop]

/-- Recording does not change the errors `Reconcile` returns. -/
theorem recording_Reconcile_errors {σ : Type} (k : DeletingKafkaManager σ) (s : σ) :
    (Reconcile (recording k) (s, [])).1 = (Reconcile k s).1 := by
  rw [reconcile_eq_loop, reconcile_eq_loop]
  have h1 : specCandidates (recording k) (s, []) = specCandidates k s := rfl
  have h2 : listingErrors (recording k) (s, []) = listingErrors k s := rfl
  have h3 : (listDeprovision (recording k) (s, [])).2
      = ((listDeprovision k s).2,
          [Call.ListByStatus
            [KafkaStatus.KafkaRequestStatusDeleting, KafkaStatus.KafkaRequestStatusDeleted]
            (listDeleting k s).1,
          Call.ListByStatus [KafkaStatus.KafkaRequestStatusDeprovision]
            (listDeprovision k s).1]) := rfl
  rw [h1, h2, h3, recording_loop]

/-! ## Lemmas on the calls of the loop -/

theorem mem_callsOf {σ : Type} (k : DeletingKafkaManager σ) (d : KafkaRequest) (s : σ)
    (c : Call) (hc : c ∈ callsOf k d s) :
    (∃ r, c = Call.DeleteQuota d.SubscriptionId r
        ∧ quotaRequired k.configService.GetConfig d = true)
      ∨ (∃ r, c = Call.Delete d r) := by
  rw [callsOf_eq] at hc
  by_cases hq : quotaRequired k.configService.GetConfig d = true
  · rw [if_pos hq] at hc
    rcases hx : (k.quotaService.DeleteQuota d.SubscriptionId s).1 with _ | e
    · rw [hx] at hc
      simp only [List.mem_cons, List.mem_singleton, List.not_mem_nil, or_false] at hc
      rcases hc with h | h
      · exact Or.inl ⟨none, h, hq⟩
      · exact Or.inr ⟨_, h⟩
    · rw [hx] at hc
      simp only [List.mem_singleton] at hc
      exact Or.inl ⟨some e, hc, hq⟩
  · rw [if_neg hq] at hc
    simp only [List.mem_singleton] at hc
    exact Or.inr ⟨_, hc⟩

theorem callsOf_cover {σ : Type} (k : DeletingKafkaManager σ) (d : KafkaRequest) (s : σ) :
    (∃ r, Call.DeleteQuota d.SubscriptionId r ∈ callsOf k d s)
      ∨ (∃ r, Call.Delete d r ∈ callsOf k d s) := by
  rw [callsOf_eq]
  by_cases hq : quotaRequired k.configService.GetConfig d = true
  · rw [if_pos hq]
    rcases hx : (k.quotaService.DeleteQuota d.SubscriptionId s).1 with _ | e
    · exact Or.inl ⟨none, by simp⟩
    · exact Or.inl ⟨some e, by simp⟩
  · rw [if_neg hq]
    exact Or.inr ⟨(k.kafkaService.Delete d s).1, by simp⟩

theorem mem_loopCalls {σ : Type} (k : DeletingKafkaManager σ) (l : List KafkaRequest) (s : σ)
    (c : Call) (hc : c ∈ loopCalls k l s) :
    ∃ d ∈ l, (∃ r, c = Call.DeleteQuota d.SubscriptionId r
        ∧ quotaRequired k.configService.GetConfig d = true)
      ∨ (∃ r, c = Call.Delete d r) := by
  induction l generalizing s with
  | nil => simp [loopCalls] at hc
  | cons d l ih =>
    simp only [loopCalls, List.mem_append] at hc
    rcases hc with h | h
    · exact ⟨d, List.mem_cons_self _ _, mem_callsOf k d s c h⟩
    · obtain ⟨d', hd', h'⟩ := ih _ h
      exact ⟨d', List.mem_cons_of_mem _ hd', h'⟩

theorem loopCalls_cover {σ : Type} (k : DeletingKafkaManager σ) (l : List KafkaRequest)
    (s : σ) (d : KafkaRequest) (hd : d ∈ l) :
    (∃ r, Call.DeleteQuota d.SubscriptionId r ∈ loopCalls k l s)
      ∨ (∃ r, Call.Delete d r ∈ loopCalls k l s) := by
  induction l generalizing s with
  | nil => simp at hd
  | cons a l ih =>
    simp only [loopCalls, List.mem_append]
    rcases List.mem_cons.mp hd with h | h
    · subst h
      rcases callsOf_cover k d s with ⟨r, hr⟩ | ⟨r, hr⟩
      · exact Or.inl ⟨r, Or.inl hr⟩
      · exact Or.inr ⟨r, Or.inl hr⟩
    · rcases ih (reconcileDeletingKafkas k a s).2 h with ⟨r, hr⟩ | ⟨r, hr⟩
      · exact Or.inl ⟨r, Or.inr hr⟩
      · exact Or.inr ⟨r, Or.inr hr⟩

theorem loopCalls_append {σ : Type} (k : DeletingKafkaManager σ) (l1 l2 : List KafkaRequest)
    (s : σ) :
    loopCalls k (l1 ++ l2) s = loopCalls k l1 s ++ loopCalls k l2 (loopState k l1 s) := by
  induction l1 generalizing s with
  | nil => simp [loopCalls, loopState]
  | cons d l ih => simp [loopCalls, loopState, ih]

theorem foldl_reconcileOne_snd {σ : Type} (k : DeletingKafkaManager σ)
    (l : List KafkaRequest) (errs : List GoError) (s : σ) :
    (l.foldl (reconcileOne k) (errs, s)).2 = loopState k l s := by
  induction l generalizing errs s with
  | nil => simp [loopState]
  | cons d l ih =>
    simp only [List.foldl_cons, loopState]
    have h : reconcileOne k (errs, s) d
        = ((reconcileOne k (errs, s) d).1, (reconcileDeletingKafkas k d s).2) := by
      rw [← reconcileOne_snd k (errs, s) d]
    rw [h, ih]

theorem foldl_reconcileOne_fst {σ : Type} (k : DeletingKafkaManager σ)
    (l : List KafkaRequest) (errs : List GoError) (s : σ) :
    (l.foldl (reconcileOne k) (errs, s)).1
      = errs ++ (outcomes k l s).filterMap outcomeError := by
  induction l generalizing errs s with
  | nil => simp [outcomes]
  | cons d l ih =>
    simp only [List.foldl_cons, outcomes]
    rcases hx : reconcileDeletingKafkas k d s with ⟨_ | e, s1⟩
    · have h : reconcileOne k (errs, s) d = (errs, s1) := by simp [reconcileOne, hx]
      rw [h, ih]
      simp [List.filterMap_cons, outcomeError]
    · have h : reconcileOne k (errs, s) d
          = (errs ++ [GoError.wrap e ("failed to reconcile deleting kafka request " ++ d.ID)],
              s1) := by
        simp [reconcileOne, hx]
      rw [h, ih]
      simp [List.filterMap_cons, outcomeError]

theorem stateAfter_eq {σ : Type} (k : DeletingKafkaManager σ) (s : σ)
    (pre : List KafkaRequest) :
    stateAfter k s pre = loopState k pre (listDeprovision k s).2 := by
  unfold stateAfter
  rw [foldl_reconcileOne_snd]

theorem mem_specCandidates {σ : Type} (k : DeletingKafkaManager σ) (s : σ)
    (d : KafkaRequest) :
    d ∈ specCandidates k s ↔
      d ∈ (listDeleting k s).1.1 ∨
        (d ∈ (listDeprovision k s).1.1 ∧
          (d.BootstrapServerHost = "" ∨
            (k.configService.GetConfig.Keycloak.EnableAuthenticationOnKafka = true ∧
              (d.SsoClientID = "" ∨ d.SsoClientSecret = "")))) := by
  simp [specCandidates, neverProvisioned, List.mem_filter]

theorem quotaRequired_iff (cfg : ApplicationConfig) (d : KafkaRequest) :
    quotaRequired cfg d = true ↔
      d.SubscriptionId ≠ "" ∧ cfg.Kafka.EnableQuotaService = true := by
  simp [quotaRequired, and_comm]

theorem quotaCalls_callsOf {σ : Type} (k : DeletingKafkaManager σ) (d : KafkaRequest)
    (s : σ) :
    quotaCalls (callsOf k d s)
      = if quotaRequired k.configService.GetConfig d = true then [d.SubscriptionId] else [] := by
  rw [callsOf_eq]
  by_cases hq : quotaRequired k.configService.GetConfig d = true
  · rw [if_pos hq, if_pos hq]
    rcases hx : (k.quotaService.DeleteQuota d.SubscriptionId s).1 with _ | e <;>
      simp [quotaCalls, List.filterMap_cons]
  · rw [if_neg hq, if_neg hq]
    simp [quotaCalls, List.filterMap_cons]

theorem quotaCalls_loopCalls {σ : Type} (k : DeletingKafkaManager σ)
    (l : List KafkaRequest) (s : σ) :
    quotaCalls (loopCalls k l s)
      = (l.filter (quotaRequired k.configService.GetConfig)).map (fun d => d.SubscriptionId) := by
  induction l generalizing s with
  | nil => simp [loopCalls, quotaCalls]
  | cons d l ih =>
    have happ : quotaCalls (loopCalls k (d :: l) s)
        = quotaCalls (callsOf k d s)
          ++ quotaCalls (loopCalls k l (reconcileDeletingKafkas k d s).2) := by
      simp [loopCalls, quotaCalls, List.filterMap_append]
    rw [happ, ih, quotaCalls_callsOf]
    by_cases hq : quotaRequired k.configService.GetConfig d = true
    · simp [hq, List.filter_cons]
    · simp [hq, List.filter_cons]

theorem outcomes_append {σ : Type} (k : DeletingKafkaManager σ) (l1 l2 : List KafkaRequest)
    (s : σ) :
    outcomes k (l1 ++ l2) s = outcomes k l1 s ++ outcomes k l2 (loopState k l1 s) := by
  induction l1 generalizing s with
  | nil => simp [outcomes, loopState]
  | cons d l ih => simp [outcomes, loopState, ih]

theorem outcomes_length {σ : Type} (k : DeletingKafkaManager σ) (l : List KafkaRequest)
    (s : σ) : (outcomes k l s).length = l.length := by
  induction l generalizing s with
  | nil => simp [outcomes]
  | cons d l ih => simp [outcomes, ih]

/-- The result of `reconcileDeletingKafkas`, written out on the results of the services. -/
theorem reconcileDeletingKafkas_fst {σ : Type} (k : DeletingKafkaManager σ)
    (d : KafkaRequest) (s : σ) :
    (reconcileDeletingKafkas k d s).1 =
      if quotaRequired k.configService.GetConfig d = true then
        match (k.quotaService.DeleteQuota d.SubscriptionId s).1 with
        | some e =>
          some (GoError.wrap e
            ("failed to delete subscription id " ++ d.SubscriptionId ++ " for kafka " ++ d.ID))
        | none =>
          match (k.kafkaService.Delete d
              (k.quotaService.DeleteQuota d.SubscriptionId s).2).1 with
          | some e => some (GoError.wrap e ("failed to delete kafka " ++ d.ID))
          | none => none
      else
        match (k.kafkaService.Delete d s).1 with
        | some e => some (GoError.wrap e ("failed to delete kafka " ++ d.ID))
        | none => none := by
  unfold reconcileDeletingKafkas quotaRequired
  by_cases hq : (k.configService.GetConfig.Kafka.EnableQuotaService
      && d.SubscriptionId != "") = true
  · rw [if_pos hq, if_pos hq]
    rcases hx : k.quotaService.DeleteQuota d.SubscriptionId s with ⟨_ | e, s1⟩
    · rcases hy : k.kafkaService.Delete d s1 with ⟨_ | e2, s2⟩ <;> simp [hy]
    · simp
  · rw [if_neg hq, if_neg hq]
    rcases hy : k.kafkaService.Delete d s with ⟨_ | e2, s2⟩ <;> simp

theorem successfulDeletes_callsOf {σ : Type} (k : DeletingKafkaManager σ)
    (d : KafkaRequest) (s : σ) :
    successfulDeletes (callsOf k d s)
      = if (reconcileDeletingKafkas k d s).1 = none then 1 else 0 := by
  rw [callsOf_eq, reconcileDeletingKafkas_fst]
  by_cases hq : quotaRequired k.configService.GetConfig d = true
  · rw [if_pos hq, if_pos hq]
    rcases hx : (k.quotaService.DeleteQuota d.SubscriptionId s).1 with _ | e
    · rcases hy : (k.kafkaService.Delete d
          (k.quotaService.DeleteQuota d.SubscriptionId s).2).1 with _ | e2 <;>
        simp [successfulDeletes, List.filter_cons]
    · simp [successfulDeletes, List.filter_cons]
  · rw [if_neg hq, if_neg hq]
    rcases hy : (k.kafkaService.Delete d s).1 with _ | e2 <;>
      simp [successfulDeletes, List.filter_cons]

theorem successfulDeletes_append (a b : List Call) :
    successfulDeletes (a ++ b) = successfulDeletes a + successfulDeletes b := by
  simp [successfulDeletes, List.filter_append]

theorem successfulDeletes_loopCalls {σ : Type} (k : DeletingKafkaManager σ)
    (l : List KafkaRequest) (s : σ) :
    successfulDeletes (loopCalls k l s)
      = ((outcomes k l s).filter fun o => o.2.isNone).length := by
  induction l generalizing s with
  | nil => simp [loopCalls, outcomes, successfulDeletes]
  | cons d l ih =>
    simp only [loopCalls, outcomes, successfulDeletes_append, ih, successfulDeletes_callsOf]
    rcases hx : (reconcileDeletingKafkas k d s).1 with _ | e
    · simp [List.filter_cons, hx, Nat.add_comm]
    · simp [List.filter_cons, hx]

/-- A log with no `Delete` call has all its `Delete` calls guarded. -/
theorem deletesGuarded_of_no_delete (cfg : ApplicationConfig) (log : List Call)
    (h : ∀ d r, Call.Delete d r ∉ log) : DeletesGuarded cfg log := by
  intro l1 d r l2 heq
  exact absurd (by rw [heq]; simp) (h d r)

theorem deletesGuarded_append (cfg : ApplicationConfig) (a b : List Call)
    (ha : DeletesGuarded cfg a) (hb : DeletesGuarded cfg b) : DeletesGuarded cfg (a ++ b) := by
  intro l1 d r l2 heq
  rcases List.append_eq_append_iff.mp heq with ⟨a', h1, h2⟩ | ⟨c', h1, h2⟩
  · rcases hb a' d r l2 h2 with h | ⟨l0, h⟩
    · exact Or.inl h
    · exact Or.inr ⟨a ++ l0, by rw [h1, h, List.append_assoc]⟩
  · rcases c' with _ | ⟨c, c'⟩
    · simp only [List.nil_append] at h2
      rcases hb [] d r l2 (by simpa using h2.symm) with h | ⟨l0, h⟩
      · exact Or.inl h
      · simp at h
    · simp only [List.cons_append, List.cons.injEq] at h2
      obtain ⟨h3, _⟩ := h2
      subst h3
      exact ha l1 d r c' h1

theorem deletesGuarded_callsOf {σ : Type} (k : DeletingKafkaManager σ) (d : KafkaRequest)
    (s : σ) : DeletesGuarded k.configService.GetConfig (callsOf k d s) := by
  intro l1 d' r l2 heq
  rw [callsOf_eq] at heq
  by_cases hq : quotaRequired k.configService.GetConfig d = true
  · rw [if_pos hq] at heq
    rcases hx : (k.quotaService.DeleteQuota d.SubscriptionId s).1 with _ | e
    · rw [hx] at heq
      rcases l1 with _ | ⟨a, _ | ⟨b, l1⟩⟩
      · simp at heq
      · simp only [List.cons_append, List.nil_append, List.cons.injEq, Call.Delete.injEq] at heq
        obtain ⟨h1, ⟨h2, _⟩, _⟩ := heq
        subst h1 h2
        exact Or.inr ⟨[], rfl⟩
      · simp at heq
    · rw [hx] at heq
      rcases l1 with _ | ⟨a, l1⟩ <;> simp at heq
  · rw [if_neg hq] at heq
    rcases l1 with _ | ⟨a, l1⟩
    · simp only [List.nil_append, List.cons.injEq, Call.Delete.injEq] at heq
      obtain ⟨⟨h1, _⟩, _⟩ := heq
      subst h1
      exact Or.inl (by simpa using hq)
    · simp at heq

theorem deletesGuarded_loopCalls {σ : Type} (k : DeletingKafkaManager σ)
    (l : List KafkaRequest) (s : σ) :
    DeletesGuarded k.configService.GetConfig (loopCalls k l s) := by
  induction l generalizing s with
  | nil =>
    apply deletesGuarded_of_no_delete
    simp [loopCalls]
  | cons d l ih =>
    simp only [loopCalls]
    exact deletesGuarded_append _ _ _ (deletesGuarded_callsOf k d s) (ih _)

theorem deletesGuarded_reconcileCalls {σ : Type} (k : DeletingKafkaManager σ) (s : σ) :
    DeletesGuarded k.configService.GetConfig (reconcileCalls k s) := by
  rw [reconcileCalls_eq]
  apply deletesGuarded_append
  · apply deletesGuarded_of_no_delete
    simp
  · exact deletesGuarded_loopCalls k _ _

/-- The calls of `Reconcile`, split at one candidate. -/
theorem reconcileCalls_split {σ : Type} (k : DeletingKafkaManager σ) (s : σ)
    (pre post : List KafkaRequest) (d : KafkaRequest)
    (hc : specCandidates k s = pre ++ d :: post) :
    reconcileCalls k s =
      [Call.ListByStatus
          [KafkaStatus.KafkaRequestStatusDeleting, KafkaStatus.KafkaRequestStatusDeleted]
          (listDeleting k s).1,
        Call.ListByStatus [KafkaStatus.KafkaRequestStatusDeprovision] (listDeprovision k s).1]
      ++ loopCalls k pre (listDeprovision k s).2
      ++ callsOf k d (stateAfter k s pre)
      ++ loopCalls k post (reconcileDeletingKafkas k d (stateAfter k s pre)).2 := by
  rw [reconcileCalls_eq, hc, loopCalls_append, stateAfter_eq]
  simp [loopCalls, List.append_assoc]

/-- The errors of `Reconcile`: the listing errors, then one error per failed candidate. -/
theorem reconcile_errors_eq {σ : Type} (k : DeletingKafkaManager σ) (s : σ) :
    (Reconcile k s).1
      = listingErrors k s
        ++ (outcomes k (specCandidates k s) (listDeprovision k s).2).filterMap outcomeError := by
  rw [reconcile_eq_loop, foldl_reconcileOne_fst]

/-! ## The deleting reconciler: properties -/

/-- C1. The requests `Reconcile` processes are exactly the candidates of the specification:
`Reconcile` is the reconcile loop run over the requests listed for deleting and deleted
followed by the requests listed for deprovision whose bootstrap host is empty, or for which
authentication is enabled and the SSO client id or secret is empty.  Every candidate gets a
quota or a delete call, every delete call and every quota call is for a candidate, and a
deprovision request with a bootstrap host and (authentication disabled, or both SSO fields
set) that was not listed for deleting is no candidate and is never deleted. -/
theorem reconcile_processes_exactly_candidates {σ : Type} (k : DeletingKafkaManager σ)
    (s : σ) :
    Reconcile k s
        = (specCandidates k s).foldl (reconcileOne k)
            (listingErrors k s, (listDeprovision k s).2)
    ∧ (∀ d, d ∈ specCandidates k s ↔
        d ∈ (listDeleting k s).1.1 ∨
          (d ∈ (listDeprovision k s).1.1 ∧
            (d.BootstrapServerHost = "" ∨
              (k.configService.GetConfig.Keycloak.EnableAuthenticationOnKafka = true ∧
                (d.SsoClientID = "" ∨ d.SsoClientSecret = "")))))
    ∧ (∀ d ∈ specCandidates k s,
        (∃ r, Call.DeleteQuota d.SubscriptionId r ∈ reconcileCalls k s)
          ∨ (∃ r, Call.Delete d r ∈ reconcileCalls k s))
    ∧ (∀ d r, Call.Delete d r ∈ reconcileCalls k s → d ∈ specCandidates k s)
    ∧ (∀ sub r, Call.DeleteQuota sub r ∈ reconcileCalls k s →
        ∃ d ∈ specCandidates k s, d.SubscriptionId = sub)
    ∧ (∀ d, d ∈ (listDeprovision k s).1.1 → d ∉ (listDeleting k s).1.1 →
        d.BootstrapServerHost ≠ "" →
        (k.configService.GetConfig.Keycloak.EnableAuthenticationOnKafka = false
          ∨ (d.SsoClientID ≠ "" ∧ d.SsoClientSecret ≠ "")) →
        d ∉ specCandidates k s ∧ ∀ r, Call.Delete d r ∉ reconcileCalls k s) := by
  have hdel : ∀ d r, Call.Delete d r ∈ reconcileCalls k s → d ∈ specCandidates k s := by
    intro d r h
    rw [reconcileCalls_eq] at h
    simp only [List.cons_append, List.nil_append, List.mem_cons] at h
    rcases h with h | h | h
    · cases h
    · cases h
    · obtain ⟨d', hd', h'⟩ := mem_loopCalls k _ _ _ h
      rcases h' with ⟨r', hr', _⟩ | ⟨r', hr'⟩
      · cases hr'
      · cases hr'
        exact hd'
  refine ⟨reconcile_eq_loop k s, mem_specCandidates k s, ?_, hdel, ?_, ?_⟩
  · intro d hd
    rw [reconcileCalls_eq]
    rcases loopCalls_cover k _ (listDeprovision k s).2 d hd with ⟨r, hr⟩ | ⟨r, hr⟩
    · exact Or.inl ⟨r, List.mem_append_right _ hr⟩
    · exact Or.inr ⟨r, List.mem_append_right _ hr⟩
  · intro sub r h
    rw [reconcileCalls_eq] at h
    simp only [List.cons_append, List.nil_append, List.mem_cons] at h
    rcases h with h | h | h
    · cases h
    · cases h
    · obtain ⟨d', hd', h'⟩ := mem_loopCalls k _ _ _ h
      rcases h' with ⟨r', hr', _⟩ | ⟨r', hr'⟩
      · cases hr'
        exact ⟨d', hd', rfl⟩
      · cases hr'
  · intro d _ hnd hb hsso
    have hnot : d ∉ specCandidates k s := by
      rw [mem_specCandidates]
      rintro (h | ⟨_, h | ⟨ha, h | h⟩⟩)
      · exact hnd h
      · exact hb h
      · rcases hsso with h1 | ⟨h1, _⟩
        · rw [h1] at ha
          cases ha
        · exact h1 h
      · rcases hsso with h1 | ⟨_, h1⟩
        · rw [h1] at ha
          cases ha
        · exact h1 h
    exact ⟨hnot, fun r h => hnot (hdel d r h)⟩

/-- C2. While a request is reconciled, `DeleteQuota` is called, once and with the
subscription id of the request, if and only if that id is non-empty and
`Kafka.EnableQuotaService` is true; otherwise no quota call is made for it.  Over a whole
`Reconcile`, the quota calls are those of the candidates that need one, in order. -/
theorem deleteQuota_called_iff_required {σ : Type} (k : DeletingKafkaManager σ) :
    (∀ (d : KafkaRequest) (s : σ),
        quotaCalls (callsOf k d s)
          = if d.SubscriptionId ≠ "" ∧ k.configService.GetConfig.Kafka.EnableQuotaService = true
            then [d.SubscriptionId] else [])
    ∧ (∀ (d : KafkaRequest) (s : σ),
        (∃ sub r, Call.DeleteQuota sub r ∈ callsOf k d s) ↔
          (d.SubscriptionId ≠ "" ∧ k.configService.GetConfig.Kafka.EnableQuotaService = true))
    ∧ (∀ s : σ,
        quotaCalls (reconcileCalls k s)
          = ((specCandidates k s).filter fun d =>
              decide (d.SubscriptionId ≠ "")
                && k.configService.GetConfig.Kafka.EnableQuotaService).map
              fun d => d.SubscriptionId) := by
  refine ⟨?_, ?_, ?_⟩
  · intro d s
    rw [quotaCalls_callsOf]
    by_cases hq : quotaRequired k.configService.GetConfig d = true
    · rw [if_pos hq, if_pos ((quotaRequired_iff _ _).mp hq)]
    · rw [if_neg hq, if_neg (fun h => hq ((quotaRequired_iff _ _).mpr h))]
  · intro d s
    rw [← quotaRequired_iff]
    constructor
    · rintro ⟨sub, r, h⟩
      rcases mem_callsOf k d s _ h with ⟨_, _, hq⟩ | ⟨_, h'⟩
      · exact hq
      · cases h'
    · intro hq
      rcases callsOf_cover k d s with ⟨r, hr⟩ | ⟨r, hr⟩
      · exact ⟨_, r, hr⟩
      · rcases hx : (k.quotaService.DeleteQuota d.SubscriptionId s).1 with _ | e
        · exact ⟨d.SubscriptionId, none, by rw [callsOf_eq, if_pos hq, hx]; simp⟩
        · exact ⟨d.SubscriptionId, some e, by rw [callsOf_eq, if_pos hq, hx]; simp⟩
  · intro s
    rw [reconcileCalls_eq]
    have happ : ∀ a b : List Call, quotaCalls (a ++ b) = quotaCalls a ++ quotaCalls b := by
      intro a b
      simp [quotaCalls, List.filterMap_append]
    rw [happ, quotaCalls_loopCalls]
    have hfun : (fun d : KafkaRequest => decide (d.SubscriptionId ≠ "")
        && k.configService.GetConfig.Kafka.EnableQuotaService)
        = quotaRequired k.configService.GetConfig := by
      funext d
      by_cases hd : d.SubscriptionId = "" <;> simp [quotaRequired, hd]
    rw [hfun]
    simp [quotaCalls]

/-- C3. When the quota release attempted for a candidate fails, the only call made for that
candidate is the failed `DeleteQuota`, the errors returned by `Reconcile` contain the error of
that candidate, and, the candidate occurring once in the list, no `Delete` is called for it
in this run.  In every run, a `Delete` is issued only for a request that needs no quota
release or right after the successful quota release of that same request. -/
theorem quota_failure_blocks_delete {σ : Type} (k : DeletingKafkaManager σ) (s : σ)
    (pre post : List KafkaRequest) (d : KafkaRequest) (e : GoError)
    (hc : specCandidates k s = pre ++ d :: post)
    (hq : d.SubscriptionId ≠ "" ∧ k.configService.GetConfig.Kafka.EnableQuotaService = true)
    (he : (k.quotaService.DeleteQuota d.SubscriptionId (stateAfter k s pre)).1 = some e) :
    callsOf k d (stateAfter k s pre) = [Call.DeleteQuota d.SubscriptionId (some e)]
    ∧ GoError.wrap
        (GoError.wrap e
          ("failed to delete subscription id " ++ d.SubscriptionId ++ " for kafka " ++ d.ID))
        ("failed to reconcile deleting kafka request " ++ d.ID) ∈ (Reconcile k s).1
    ∧ (d ∉ pre → d ∉ post → ∀ r, Call.Delete d r ∉ reconcileCalls k s)
    ∧ (∀ (l1 : List Call) (d1 : KafkaRequest) (r : Option GoError) (l2 : List Call),
        reconcileCalls k s = l1 ++ Call.Delete d1 r :: l2 →
          (d1.SubscriptionId = "" ∨ k.configService.GetConfig.Kafka.EnableQuotaService = false)
            ∨ ∃ l0, l1 = l0 ++ [Call.DeleteQuota d1.SubscriptionId none]) := by
  have hreq : quotaRequired k.configService.GetConfig d = true := (quotaRequired_iff _ _).mpr hq
  have hcalls : callsOf k d (stateAfter k s pre)
      = [Call.DeleteQuota d.SubscriptionId (some e)] := by
    rw [callsOf_eq, if_pos hreq, he]
  refine ⟨hcalls, ?_, ?_, ?_⟩
  · rw [reconcile_errors_eq, hc, outcomes_append, ← stateAfter_eq]
    apply List.mem_append_right
    rw [List.mem_filterMap]
    refine ⟨(d, (reconcileDeletingKafkas k d (stateAfter k s pre)).1), ?_, ?_⟩
    · simp [outcomes]
    · rw [reconcileDeletingKafkas_fst, if_pos hreq, he]
      rfl
  · intro hpre hpost r hmem
    rw [reconcileCalls_split k s pre post d hc, hcalls] at hmem
    simp only [List.mem_append, List.mem_cons, List.mem_singleton, List.not_mem_nil,
      or_false] at hmem
    rcases hmem with (((h | h) | h) | h) | h
    · cases h
    · cases h
    · obtain ⟨d1, hd1, h1⟩ := mem_loopCalls k _ _ _ h
      rcases h1 with ⟨_, h1, _⟩ | ⟨_, h1⟩
      · cases h1
      · cases h1
        exact hpre hd1
    · cases h
    · obtain ⟨d1, hd1, h1⟩ := mem_loopCalls k _ _ _ h
      rcases h1 with ⟨_, h1, _⟩ | ⟨_, h1⟩
      · cases h1
      · cases h1
        exact hpost hd1
  · intro l1 d1 r l2 heq
    rcases deletesGuarded_reconcileCalls k s l1 d1 r l2 heq with h | h
    · left
      by_contra hcon
      have : quotaRequired k.configService.GetConfig d1 = true := by
        rw [quotaRequired_iff]
        constructor
        · intro h0
          exact hcon (Or.inl h0)
        · cases hb : k.configService.GetConfig.Kafka.EnableQuotaService
          · exact absurd (Or.inr hb) hcon
          · rfl
      rw [this] at h
      cases h
    · exact Or.inr h

/-- The hypotheses of `quota_failure_blocks_delete` hold for the first candidate of the
concrete manager, whose quota release fails. -/
theorem quota_failure_blocks_delete_witness :
    callsOf demoManager demoDeleting (stateAfter demoManager () [])
        = [Call.DeleteQuota "sub-a" (some (GoError.service "quota unavailable"))]
    ∧ GoError.wrap
        (GoError.wrap (GoError.service "quota unavailable")
          ("failed to delete subscription id " ++ demoDeleting.SubscriptionId
            ++ " for kafka " ++ demoDeleting.ID))
        ("failed to reconcile deleting kafka request " ++ demoDeleting.ID)
          ∈ (Reconcile demoManager ()).1
    ∧ (demoDeleting ∉ [] → demoDeleting ∉ [demoUnprovisioned] →
        ∀ r, Call.Delete demoDeleting r ∉ reconcileCalls demoManager ())
    ∧ (∀ (l1 : List Call) (d1 : KafkaRequest) (r : Option GoError) (l2 : List Call),
        reconcileCalls demoManager () = l1 ++ Call.Delete d1 r :: l2 →
          (d1.SubscriptionId = ""
              ∨ demoManager.configService.GetConfig.Kafka.EnableQuotaService = false)
            ∨ ∃ l0, l1 = l0 ++ [Call.DeleteQuota d1.SubscriptionId none]) :=
  quota_failure_blocks_delete demoManager () [] [demoUnprovisioned] demoDeleting
    (GoError.service "quota unavailable") (by decide) (by decide) (by decide)

/-- C4. Whatever happens to the other candidates, `Reconcile` processes every candidate: the
calls of a run contain, after the calls for the candidates before it, the calls for the
candidate, which are not empty; and a candidate whose own quota release (when needed) and
delete succeed gets a successful `Delete`. -/
theorem failures_do_not_block_other_candidates {σ : Type} (k : DeletingKafkaManager σ)
    (s : σ) (pre post : List KafkaRequest) (d : KafkaRequest)
    (hc : specCandidates k s = pre ++ d :: post) :
    reconcileCalls k s =
        [Call.ListByStatus
            [KafkaStatus.KafkaRequestStatusDeleting, KafkaStatus.KafkaRequestStatusDeleted]
            (listDeleting k s).1,
          Call.ListByStatus [KafkaStatus.KafkaRequestStatusDeprovision]
            (listDeprovision k s).1]
        ++ loopCalls k pre (listDeprovision k s).2
        ++ callsOf k d (stateAfter k s pre)
        ++ loopCalls k post (reconcileDeletingKafkas k d (stateAfter k s pre)).2
    ∧ callsOf k d (stateAfter k s pre) ≠ []
    ∧ ((d.SubscriptionId = "" ∨ k.configService.GetConfig.Kafka.EnableQuotaService = false) →
        (k.kafkaService.Delete d (stateAfter k s pre)).1 = none →
        Call.Delete d none ∈ reconcileCalls k s)
    ∧ ((d.SubscriptionId ≠ "" ∧ k.configService.GetConfig.Kafka.EnableQuotaService = true) →
        (k.quotaService.DeleteQuota d.SubscriptionId (stateAfter k s pre)).1 = none →
        (k.kafkaService.Delete d
          (k.quotaService.DeleteQuota d.SubscriptionId (stateAfter k s pre)).2).1 = none →
        Call.DeleteQuota d.SubscriptionId none ∈ reconcileCalls k s
          ∧ Call.Delete d none ∈ reconcileCalls k s) := by
  have hsplit := reconcileCalls_split k s pre post d hc
  have hin : ∀ c, c ∈ callsOf k d (stateAfter k s pre) → c ∈ reconcileCalls k s := by
    intro c h
    rw [hsplit]
    exact List.mem_append_left _ (List.mem_append_right _ h)
  refine ⟨hsplit, ?_, ?_, ?_⟩
  · intro hnil
    rcases callsOf_cover k d (stateAfter k s pre) with ⟨r, hr⟩ | ⟨r, hr⟩ <;>
      · rw [hnil] at hr
        cases hr
  · intro hno hdel
    apply hin
    have hreq : ¬ quotaRequired k.configService.GetConfig d = true := by
      rw [quotaRequired_iff]
      rintro ⟨h1, h2⟩
      rcases hno with h | h
      · exact h1 h
      · rw [h] at h2
        cases h2
    rw [callsOf_eq, if_neg hreq, hdel]
    simp
  · intro hq hquota hdel
    have hreq : quotaRequired k.configService.GetConfig d = true :=
      (quotaRequired_iff _ _).mpr hq
    have hcalls : callsOf k d (stateAfter k s pre)
        = [Call.DeleteQuota d.SubscriptionId none, Call.Delete d none] := by
      rw [callsOf_eq, if_pos hreq, hquota]
      simp only
      rw [hdel]
    constructor
    · apply hin
      rw [hcalls]
      simp
    · apply hin
      rw [hcalls]
      simp

/-- The second candidate of the concrete manager is deleted although the quota release of
the first one failed. -/
theorem failures_do_not_block_other_candidates_witness :
    (Reconcile demoManager ()).1 ≠ []
    ∧ Call.DeleteQuota "sub-b" none ∈ reconcileCalls demoManager ()
    ∧ Call.Delete demoUnprovisioned none ∈ reconcileCalls demoManager () :=
  ⟨by decide,
    ((failures_do_not_block_other_candidates demoManager () [demoDeleting] []
      demoUnprovisioned (by decide)).2.2.2 (by decide) (by decide) (by decide)).1,
    ((failures_do_not_block_other_candidates demoManager () [demoDeleting] []
      demoUnprovisioned (by decide)).2.2.2 (by decide) (by decide) (by decide)).2⟩

/-- C5. The errors returned by `Reconcile` are, in order, one error per listing that failed
and one error per candidate whose reconciliation failed, and nothing else; the list is empty
if and only if both listings succeeded and the reconciliation of every candidate returned no
error, which is the case exactly when every candidate got a successful `Delete`. -/
theorem reconcile_errors_exact {σ : Type} (k : DeletingKafkaManager σ) (s : σ) :
    (Reconcile k s).1
        = listingErrors k s
          ++ (outcomes k (specCandidates k s) (listDeprovision k s).2).filterMap outcomeError
    ∧ (Reconcile k s).1.length
        = (if (listDeleting k s).1.2.isSome then 1 else 0)
          + (if (listDeprovision k s).1.2.isSome then 1 else 0)
          + ((outcomes k (specCandidates k s) (listDeprovision k s).2).filter
              fun o => o.2.isSome).length
    ∧ ((Reconcile k s).1 = [] ↔
        (listDeleting k s).1.2 = none ∧ (listDeprovision k s).1.2 = none
          ∧ ∀ o ∈ outcomes k (specCandidates k s) (listDeprovision k s).2, o.2 = none)
    ∧ ((∀ o ∈ outcomes k (specCandidates k s) (listDeprovision k s).2, o.2 = none) ↔
        successfulDeletes (reconcileCalls k s) = (specCandidates k s).length) := by
  have hfm : ∀ l : List (KafkaRequest × Option GoError),
      (l.filterMap outcomeError).length = (l.filter fun o => o.2.isSome).length := by
    intro l
    induction l with
    | nil => simp
    | cons o l ih =>
      rcases o with ⟨d, _ | e⟩
      · simp [List.filterMap_cons, List.filter_cons, outcomeError, ih]
      · simp [List.filterMap_cons, List.filter_cons, outcomeError, ih]
  have hnone : ∀ o : KafkaRequest × Option GoError, outcomeError o = none ↔ o.2 = none := by
    rintro ⟨d, _ | e⟩ <;> simp [outcomeError]
  refine ⟨reconcile_errors_eq k s, ?_, ?_, ?_⟩
  · rw [reconcile_errors_eq, List.length_append, hfm]
    congr 1
    unfold listingErrors
    rcases (listDeleting k s).1.2 with _ | e1 <;>
      rcases (listDeprovision k s).1.2 with _ | e2 <;> simp
  · rw [reconcile_errors_eq, List.append_eq_nil, List.filterMap_eq_nil_iff]
    unfold listingErrors
    rcases (listDeleting k s).1.2 with _ | e1 <;>
      rcases (listDeprovision k s).1.2 with _ | e2 <;> simp [hnone]
  · rw [reconcileCalls_eq, successfulDeletes_append, successfulDeletes_loopCalls,
      ← outcomes_length k (specCandidates k s) (listDeprovision k s).2]
    have h0 : successfulDeletes
        [Call.ListByStatus
            [KafkaStatus.KafkaRequestStatusDeleting, KafkaStatus.KafkaRequestStatusDeleted]
            (listDeleting k s).1,
          Call.ListByStatus [KafkaStatus.KafkaRequestStatusDeprovision]
            (listDeprovision k s).1] = 0 := by
      simp [successfulDeletes, List.filter_cons]
    rw [h0, Nat.zero_add, List.filter_length_eq_length]
    constructor
    · intro h o ho
      simp [h o ho]
    · intro h o ho
      have := h o ho
      simpa using this

/-! ## The order of the calls -/

theorem loopCalls_eq_flatten {σ : Type} (k : DeletingKafkaManager σ) (l : List KafkaRequest)
    (s : σ) : loopCalls k l s = (perRecordCalls k l s).flatten := by
  induction l generalizing s with
  | nil => simp [loopCalls, perRecordCalls]
  | cons d l ih => simp [loopCalls, perRecordCalls, ih]

theorem perRecordCalls_length {σ : Type} (k : DeletingKafkaManager σ) (l : List KafkaRequest)
    (s : σ) : (perRecordCalls k l s).length = l.length := by
  induction l generalizing s with
  | nil => simp [perRecordCalls]
  | cons d l ih => simp [perRecordCalls, ih]

theorem perRecordCalls_append {σ : Type} (k : DeletingKafkaManager σ)
    (l1 l2 : List KafkaRequest) (s : σ) :
    perRecordCalls k (l1 ++ l2) s
      = perRecordCalls k l1 s ++ perRecordCalls k l2 (loopState k l1 s) := by
  induction l1 generalizing s with
  | nil => simp [perRecordCalls, loopState]
  | cons d l ih => simp [perRecordCalls, loopState, ih]

theorem isListing_callsOf {σ : Type} (k : DeletingKafkaManager σ) (d : KafkaRequest) (s : σ) :
    ∀ c ∈ callsOf k d s, isListing c = false := by
  intro c hc
  rcases mem_callsOf k d s c hc with ⟨r, h, _⟩ | ⟨r, h⟩ <;> rw [h] <;> rfl

theorem isListing_loopCalls {σ : Type} (k : DeletingKafkaManager σ) (l : List KafkaRequest)
    (s : σ) : ∀ c ∈ loopCalls k l s, isListing c = false := by
  intro c hc
  obtain ⟨d, _, h⟩ := mem_loopCalls k l s c hc
  rcases h with ⟨r, h, _⟩ | ⟨r, h⟩ <;> rw [h] <;> rfl

/-- C22. Within one `Reconcile` the candidates are processed one after the other in list
order: the calls are the two listings, then the calls for the requests listed for deleting
and deleted, in the order returned, then the calls for the qualifying deprovision requests, in
the order returned.  The quota-release and delete calls of the run are the concatenation of
the call sequences of the candidates, one sequence per candidate, in that order, each the
calls `reconcileDeletingKafkas` makes for its candidate in the state its predecessors left. -/
theorem reconcile_calls_in_list_order {σ : Type} (k : DeletingKafkaManager σ) (s : σ) :
    reconcileCalls k s =
        [Call.ListByStatus
            [KafkaStatus.KafkaRequestStatusDeleting, KafkaStatus.KafkaRequestStatusDeleted]
            (listDeleting k s).1,
          Call.ListByStatus [KafkaStatus.KafkaRequestStatusDeprovision] (listDeprovision k s).1]
        ++ loopCalls k (listDeleting k s).1.1 (listDeprovision k s).2
        ++ loopCalls k
            ((listDeprovision k s).1.1.filter (neverProvisioned k.configService.GetConfig))
            (loopState k (listDeleting k s).1.1 (listDeprovision k s).2)
    ∧ (reconcileCalls k s).filter (fun c => !isListing c)
        = (perRecordCalls k
            ((listDeleting k s).1.1 ++
              (listDeprovision k s).1.1.filter (neverProvisioned k.configService.GetConfig))
            (listDeprovision k s).2).flatten
    ∧ (perRecordCalls k
          ((listDeleting k s).1.1 ++
            (listDeprovision k s).1.1.filter (neverProvisioned k.configService.GetConfig))
          (listDeprovision k s).2).length
        = ((listDeleting k s).1.1 ++
            (listDeprovision k s).1.1.filter
              (neverProvisioned k.configService.GetConfig)).length
    ∧ (∀ (l pre post : List KafkaRequest) (d : KafkaRequest) (s0 : σ),
        l = pre ++ d :: post →
        perRecordCalls k l s0
          = perRecordCalls k pre s0
            ++ callsOf k d (loopState k pre s0)
              :: perRecordCalls k post (reconcileDeletingKafkas k d (loopState k pre s0)).2) := by
  refine ⟨?_, ?_, perRecordCalls_length k _ _, ?_⟩
  · rw [reconcileCalls_eq]
    unfold specCandidates
    rw [loopCalls_append, List.append_assoc]
  · rw [reconcileCalls_eq, List.filter_append, ← loopCalls_eq_flatten]
    have h1 : List.filter (fun c => !isListing c)
        [Call.ListByStatus
            [KafkaStatus.KafkaRequestStatusDeleting, KafkaStatus.KafkaRequestStatusDeleted]
            (listDeleting k s).1,
          Call.ListByStatus [KafkaStatus.KafkaRequestStatusDeprovision]
            (listDeprovision k s).1] = [] := by
      simp [List.filter_cons, isListing]
    have h2 : List.filter (fun c => !isListing c)
        (loopCalls k (specCandidates k s) (listDeprovision k s).2)
        = loopCalls k (specCandidates k s) (listDeprovision k s).2 := by
      rw [List.filter_eq_self]
      intro c hc
      simp [isListing_loopCalls k _ _ c hc]
    rw [h1, h2]
    rfl
  · intro l pre post d s0 hl
    rw [hl, perRecordCalls_append]
    rfl

/-- On the concrete manager the calls are those for the deleting request, then those for the
deprovision request that was never provisioned. -/
theorem reconcile_calls_in_list_order_witness :
    (reconcileCalls demoManager ()).filter (fun c => !isListing c)
      = [Call.DeleteQuota "sub-a" (some (GoError.service "quota unavailable")),
         Call.DeleteQuota "sub-b" none, Call.Delete demoUnprovisioned none] := by
  rw [(reconcile_calls_in_list_order demoManager ()).2.1]
  decide

/-! ## Failed listings -/

/-- C28. A failed listing does not stop `Reconcile`.  When the listing for deleting and
deleted fails, its wrapped error is in the returned list, and every request of the deprovision
listing that was never provisioned is a candidate and gets a quota or a delete call.  When the
listing for deprovision fails, its wrapped error is in the returned list, and every request of
the listing for deleting and deleted is a candidate and gets a quota or a delete call. -/
theorem failed_listing_does_not_stop_reconcile {σ : Type} (k : DeletingKafkaManager σ)
    (s : σ) :
    (∀ e, (listDeleting k s).1.2 = some e →
        GoError.wrap e "failed to list deleting kafka requests" ∈ (Reconcile k s).1
        ∧ ∀ d ∈ (listDeprovision k s).1.1,
            neverProvisioned k.configService.GetConfig d = true →
            d ∈ specCandidates k s
            ∧ ((∃ r, Call.DeleteQuota d.SubscriptionId r ∈ reconcileCalls k s)
              ∨ (∃ r, Call.Delete d r ∈ reconcileCalls k s)))
    ∧ (∀ e, (listDeprovision k s).1.2 = some e →
        GoError.wrap e "failed to list kafka deprovisioning requests" ∈ (Reconcile k s).1
        ∧ ∀ d ∈ (listDeleting k s).1.1,
            d ∈ specCandidates k s
            ∧ ((∃ r, Call.DeleteQuota d.SubscriptionId r ∈ reconcileCalls k s)
              ∨ (∃ r, Call.Delete d r ∈ reconcileCalls k s))) := by
  have hcover : ∀ d ∈ specCandidates k s,
      (∃ r, Call.DeleteQuota d.SubscriptionId r ∈ reconcileCalls k s)
        ∨ (∃ r, Call.Delete d r ∈ reconcileCalls k s) := by
    intro d hd
    rw [reconcileCalls_eq]
    rcases loopCalls_cover k _ (listDeprovision k s).2 d hd with ⟨r, hr⟩ | ⟨r, hr⟩
    · exact Or.inl ⟨r, List.mem_append_right _ hr⟩
    · exact Or.inr ⟨r, List.mem_append_right _ hr⟩
  constructor
  · intro e he
    constructor
    · rw [reconcile_errors_eq]
      apply List.mem_append_left
      unfold listingErrors
      rw [he]
      simp
    · intro d hd hn
      have hc : d ∈ specCandidates k s := by
        unfold specCandidates
        exact List.mem_append_right _ (List.mem_filter.mpr ⟨hd, hn⟩)
      exact ⟨hc, hcover d hc⟩
  · intro e he
    constructor
    · rw [reconcile_errors_eq]
      apply List.mem_append_left
      unfold listingErrors
      rw [he]
      simp
    · intro d hd
      have hc : d ∈ specCandidates k s := by
        unfold specCandidates
        exact List.mem_append_left _ hd
      exact ⟨hc, hcover d hc⟩

/-- With the first listing failing the deprovision request that was never provisioned is
still deleted, and with the second listing failing the deleting request is; the error of the
listing is returned. -/
theorem failed_listing_does_not_stop_reconcile_witness :
    (GoError.wrap (GoError.service "connection refused") "failed to list deleting kafka requests"
        ∈ (Reconcile (demoFailingManager true) ()).1
      ∧ Call.Delete demoUnprovisioned none ∈ reconcileCalls (demoFailingManager true) ())
    ∧ (GoError.wrap (GoError.service "connection refused")
          "failed to list kafka deprovisioning requests"
        ∈ (Reconcile (demoFailingManager false) ()).1
      ∧ Call.Delete demoDeleting none ∈ reconcileCalls (demoFailingManager false) ()) :=
  ⟨⟨((failed_listing_does_not_stop_reconcile (demoFailingManager true) ()).1
        (GoError.service "connection refused") (by decide)).1, by decide⟩,
    ⟨((failed_listing_does_not_stop_reconcile (demoFailingManager false) ()).2
        (GoError.service "connection refused") (by decide)).1, by decide⟩⟩

/-! ## The lifecycle -/

theorem leaderWorkerMetric_set {ω : Type} (workerType : String) (leader : Bool)
    (m : Metrics ω) :
    leaderWorkerMetric (SetLeaderWorkerMetric workerType leader m) workerType = some leader := by
  simp [leaderWorkerMetric, SetLeaderWorkerMetric]

/-- C21. `Stop` stops the reconciler, then resets the metrics of the kafka managers, then
sets the leader gauge of the worker type to false: whatever the reconciler and the reset do,
after `Stop` the gauge reads false.  `Start` sets the gauge to true and then starts the
reconciler: after `Start` the gauge reads true, the reconciler leaving it alone.  A manager
built by `NewDeletingKafkaManager` has worker type `deleting_kafka` and the id given, and is
not running; `IsRunning` returns what `SetIsRunning` was last called with. -/
theorem stop_resets_leader_gauge {σ ω π : Type} (e : Lifecycle σ ω π) (p : Process σ ω π) :
    (Stop e p).metrics
        = SetLeaderWorkerMetric p.manager.workerType false
            (e.ResetMetricsForKafkaManagers
              (e.reconcilerStop p.manager (p.metrics, p.runtime)).2.1)
    ∧ leaderWorkerMetric (Stop e p).metrics p.manager.workerType = some false
    ∧ (Start e p).metrics
        = (e.reconcilerStart p.manager
            (SetLeaderWorkerMetric p.manager.workerType true p.metrics, p.runtime)).2.1
    ∧ ((∀ m, leaderWorkerMetric (e.reconcilerStart p.manager (m, p.runtime)).2.1
            p.manager.workerType = leaderWorkerMetric m p.manager.workerType) →
        leaderWorkerMetric (Start e p).metrics p.manager.workerType = some true)
    ∧ (∀ (kafkaService : KafkaService σ) (id : String) (configService : ConfigService)
        (quotaService : QuotaService σ),
        GetWorkerType (NewDeletingKafkaManager kafkaService id configService quotaService)
            = "deleting_kafka"
        ∧ GetID (NewDeletingKafkaManager kafkaService id configService quotaService) = id
        ∧ IsRunning (NewDeletingKafkaManager kafkaService id configService quotaService) = false
        ∧ IsRunning
            (SetIsRunning (NewDeletingKafkaManager kafkaService id configService quotaService)
              true) = true
        ∧ (p.manager = NewDeletingKafkaManager kafkaService id configService quotaService →
            leaderWorkerMetric (Stop e p).metrics "deleting_kafka" = some false
            ∧ (Stop e p).manager.workerType = "deleting_kafka"
            ∧ (Start e p).manager.workerType = "deleting_kafka"))
    ∧ (∀ (c : DeletingKafkaManager σ) (val : Bool),
        IsRunning (SetIsRunning c val) = val
        ∧ GetWorkerType (SetIsRunning c val) = GetWorkerType c
        ∧ GetID (SetIsRunning c val) = GetID c) := by
  have hstop : leaderWorkerMetric (Stop e p).metrics p.manager.workerType = some false :=
    leaderWorkerMetric_set _ _ _
  refine ⟨rfl, hstop, rfl, ?_, ?_, fun c val => ⟨rfl, rfl, rfl⟩⟩
  · intro h
    show leaderWorkerMetric (e.reconcilerStart p.manager
      (SetLeaderWorkerMetric p.manager.workerType true p.metrics, p.runtime)).2.1
      p.manager.workerType = some true
    rw [h]
    exact leaderWorkerMetric_set _ _ _
  · intro kafkaService id configService quotaService
    refine ⟨rfl, rfl, rfl, rfl, ?_⟩
    intro hp
    have hw : p.manager.workerType = "deleting_kafka" := by rw [hp]; rfl
    refine ⟨?_, hw, hw⟩
    rw [← hw]
    exact hstop

/-- The concrete manager, started and then stopped: the gauge of `deleting_kafka` reads true
after `Start` and false after `Stop`. -/
theorem stop_resets_leader_gauge_witness :
    leaderWorkerMetric (Start demoLifecycle demoProcess).metrics "deleting_kafka" = some true
    ∧ leaderWorkerMetric (Stop demoLifecycle (Start demoLifecycle demoProcess)).metrics
        "deleting_kafka" = some false
    ∧ IsRunning (Start demoLifecycle demoProcess).manager = true :=
  ⟨(stop_resets_leader_gauge demoLifecycle demoProcess).2.2.2.1 (fun _ => rfl),
    (stop_resets_leader_gauge demoLifecycle (Start demoLifecycle demoProcess)).2.1,
    by decide⟩

end KafkaMgrs

namespace Services

/-! ## Lemmas on the statements of `PutConnectorShardMetadata` -/

theorem maxOf_eq_none_iff (l : List Int) : maxOf l = Option.none ↔ l = [] := by
  cases l with
  | nil => simp [maxOf]
  | cons x xs =>
    simp only [maxOf]
    cases maxOf xs <;> simp

theorem maxOf_spec (l : List Int) (M : Int) (h : maxOf l = some M) :
    M ∈ l ∧ ∀ x ∈ l, x ≤ M := by
  induction l generalizing M with
  | nil => simp [maxOf] at h
  | cons x xs ih =>
    simp only [maxOf] at h
    cases hm : maxOf xs with
    | none =>
      rw [hm] at h
      have hxs : xs = [] := (maxOf_eq_none_iff xs).mp hm
      simp only [Option.some.injEq] at h
      subst hxs h
      simp
    | some m =>
      rw [hm] at h
      simp only [Option.some.injEq] at h
      obtain ⟨hmem, hle⟩ := ih m hm
      subst h
      constructor
      · rcases le_total x m with hxm | hxm
        · rw [max_eq_right hxm]
          exact List.mem_cons_of_mem _ hmem
        · rw [max_eq_left hxm]
          exact List.mem_cons_self _ _
      · intro y hy
        rcases List.mem_cons.mp hy with hy | hy
        · subst hy
          exact le_max_left _ _
        · exact le_trans (hle y hy) (le_max_right _ _)

theorem maxOf_eq_some_of_max (l : List Int) (M : Int) (hmem : M ∈ l)
    (hle : ∀ x ∈ l, x ≤ M) : maxOf l = some M := by
  cases h : maxOf l with
  | none =>
    rw [maxOf_eq_none_iff] at h
    subst h
    simp at hmem
  | some m =>
    obtain ⟨h1, h2⟩ := maxOf_spec l m h
    have : m = M := le_antisymm (hle m h1) (h2 M hmem)
    rw [this]

/-- The maximum read by `max(revision)` bounds the revisions of the group. -/
theorem dbMaxRevision_spec (rows : List ConnectorShardMetadata) (typeId channel : String)
    (M : Int) (h : dbMaxRevision rows typeId channel = some M) :
    (∃ r ∈ rows, sameGroup typeId channel r = true ∧ r.Revision = M)
      ∧ ∀ r ∈ rows, sameGroup typeId channel r = true → r.Revision ≤ M := by
  obtain ⟨h1, h2⟩ := maxOf_spec _ M h
  constructor
  · simp only [List.mem_map, List.mem_filter] at h1
    obtain ⟨r, ⟨hr, hg⟩, hrev⟩ := h1
    exact ⟨r, hr, hg, hrev⟩
  · intro r hr hg
    apply h2
    simp only [List.mem_map, List.mem_filter]
    exact ⟨r, ⟨hr, hg⟩, rfl⟩

theorem dbMaxRevision_eq_some (rows : List ConnectorShardMetadata) (typeId channel : String)
    (M : Int) (hM : ∃ r ∈ rows, sameGroup typeId channel r = true ∧ r.Revision = M)
    (hle : ∀ r ∈ rows, sameGroup typeId channel r = true → r.Revision ≤ M) :
    dbMaxRevision rows typeId channel = some M := by
  apply maxOf_eq_some_of_max
  · obtain ⟨r, hr, hg, hrev⟩ := hM
    simp only [List.mem_map, List.mem_filter]
    exact ⟨r, ⟨hr, hg⟩, hrev⟩
  · intro x hx
    simp only [List.mem_map, List.mem_filter] at hx
    obtain ⟨r, ⟨hr, hg⟩, hrev⟩ := hx
    rw [← hrev]
    exact hle r hr hg

theorem dbFirst_eq_none_iff (rows : List ConnectorShardMetadata) (typeId channel : String)
    (revision : Int) :
    dbFirst rows typeId channel revision = Option.none ↔
      ∀ r ∈ rows, sameKey typeId channel revision r = false := by
  simp [dbFirst, List.find?_eq_none]

theorem withId_id (db : DB) (m : ConnectorShardMetadata) (l : Option Int) :
    (withId db { m with LatestRevision := l }).ID = (withId db m).ID := by
  unfold withId
  by_cases h : m.ID = 0 <;> simp [h]

/-- `Save` of a row whose key is not in the table and whose `id`, the one it carries or the
one it gets from the sequence, is that of no stored row: the row is appended. -/
theorem dbSave_of_not_found (db : DB) (m : ConnectorShardMetadata)
    (hnew : ∀ r ∈ db.rows, sameKey m.ConnectorTypeId m.Channel m.Revision r = false)
    (hid : ∀ r ∈ db.rows, r.ID ≠ (withId db m).ID) :
    dbSave db m
      = Except.ok
          ({ rows := db.rows ++ [withId db m],
             seq := if m.ID = 0 then db.seq + 1 else db.seq },
           withId db m) := by
  unfold dbSave
  have hany : db.rows.any (fun r =>
      r.ID != (withId db m).ID && sameKey m.ConnectorTypeId m.Channel m.Revision r) = false := by
    rw [List.any_eq_false]
    intro r hr
    simp [hnew r hr]
  have hany2 : db.rows.any (fun r => r.ID == (withId db m).ID) = false := by
    rw [List.any_eq_false]
    intro r hr
    simp [hid r hr]
  rw [hany, hany2]
  simp

/-- `Save` of a row whose key is not in the table and which carries the `id` of a stored
row: that row is overwritten. -/
theorem dbSave_of_stored_id (db : DB) (m : ConnectorShardMetadata)
    (hnew : ∀ r ∈ db.rows, sameKey m.ConnectorTypeId m.Channel m.Revision r = false)
    (h0 : m.ID ≠ 0) (hex : ∃ r ∈ db.rows, r.ID = m.ID) :
    dbSave db m = Except.ok ({ db with rows := dbReplaceById m db.rows }, m) := by
  unfold dbSave
  have hw : withId db m = m := by simp [withId, h0]
  have hany : db.rows.any (fun r =>
      r.ID != (withId db m).ID && sameKey m.ConnectorTypeId m.Channel m.Revision r) = false := by
    rw [List.any_eq_false]
    intro r hr
    simp [hnew r hr]
  have hany2 : db.rows.any (fun r => r.ID == (withId db m).ID) = true := by
    rw [List.any_eq_true]
    obtain ⟨r, hr, hrid⟩ := hex
    exact ⟨r, hr, by simp [hw, hrid]⟩
  rw [hany, hany2]
  simp [h0]

/-- `Save` of a row without `id` when the next value of the sequence is taken: refused. -/
theorem dbSave_of_taken_id (db : DB) (m : ConnectorShardMetadata)
    (h0 : m.ID = 0) (hex : ∃ r ∈ db.rows, r.ID = (withId db m).ID) :
    ∃ e, dbSave db m = Except.error e := by
  unfold dbSave
  have hany2 : db.rows.any (fun r => r.ID == (withId db m).ID) = true := by
    rw [List.any_eq_true]
    obtain ⟨r, hr, hrid⟩ := hex
    exact ⟨r, hr, by simp [hrid]⟩
  rw [hany2]
  by_cases hany : db.rows.any (fun r =>
      r.ID != (withId db m).ID && sameKey m.ConnectorTypeId m.Channel m.Revision r) = true
  · rw [hany]
    exact ⟨_, rfl⟩
  · simp only [hany, h0]
    exact ⟨_, rfl⟩

theorem withId_fields (db : DB) (m : ConnectorShardMetadata) :
    (withId db m).ConnectorTypeId = m.ConnectorTypeId ∧ (withId db m).Channel = m.Channel
      ∧ (withId db m).Revision = m.Revision
      ∧ (withId db m).LatestRevision = m.LatestRevision
      ∧ (withId db m).ShardMetadata = m.ShardMetadata := by
  unfold withId
  split <;> simp

/-- A new row below the current maximum, with an `id` no stored row has: the row is
appended, pointing at the maximum. -/
theorem put_below_max (db : DB) (m : ConnectorShardMetadata) (M : Int)
    (hnew : ∀ r ∈ db.rows, sameKey m.ConnectorTypeId m.Channel m.Revision r = false)
    (hmax : dbMaxRevision db.rows m.ConnectorTypeId m.Channel = some M)
    (hlt : m.Revision < M)
    (hid : ∀ r ∈ db.rows, r.ID ≠ (withId db m).ID) :
    PutConnectorShardMetadata Faults.none db m
      = { id := 0, err := Option.none,
          db := { rows := db.rows ++ [withId db { m with LatestRevision := some M }],
                  seq := if m.ID = 0 then db.seq + 1 else db.seq },
          arg := withId db { m with LatestRevision := some M } } := by
  have hfirst := (dbFirst_eq_none_iff db.rows m.ConnectorTypeId m.Channel m.Revision).mpr hnew
  have hsave := dbSave_of_not_found db { m with LatestRevision := some M } hnew
    (by rw [withId_id]; exact hid)
  have hlr : (withId db { m with LatestRevision := some M }).LatestRevision = some M :=
    (withId_fields db _).2.2.2.1
  unfold PutConnectorShardMetadata
  simp only [Faults.none, hfirst, hmax, if_pos hlt, hsave, hlr]
  simp

/-- A new row not below the current maximum, or the first row of its group, with an `id` no
stored row has: the row is appended as the current one and the update of the other rows
runs. -/
theorem put_at_top (db : DB) (m : ConnectorShardMetadata)
    (hnew : ∀ r ∈ db.rows, sameKey m.ConnectorTypeId m.Channel m.Revision r = false)
    (hmax : ∀ M, dbMaxRevision db.rows m.ConnectorTypeId m.Channel = some M →
      ¬ m.Revision < M)
    (hid : ∀ r ∈ db.rows, r.ID ≠ (withId db m).ID) :
    PutConnectorShardMetadata Faults.none db m
      = { id := 0, err := Option.none,
          db := { rows := dbUpdateLatestRevision
                    (db.rows ++ [withId db { m with LatestRevision := Option.none }])
                    m.ConnectorTypeId m.Channel m.Revision,
                  seq := if m.ID = 0 then db.seq + 1 else db.seq },
          arg := withId db { m with LatestRevision := Option.none } } := by
  have hfirst := (dbFirst_eq_none_iff db.rows m.ConnectorTypeId m.Channel m.Revision).mpr hnew
  have hsave := dbSave_of_not_found db { m with LatestRevision := Option.none } hnew
    (by rw [withId_id]; exact hid)
  obtain ⟨h1, h2, h3, h4, _⟩ := withId_fields db { m with LatestRevision := Option.none }
  unfold PutConnectorShardMetadata
  cases hm : dbMaxRevision db.rows m.ConnectorTypeId m.Channel with
  | none =>
    simp only [Faults.none, hfirst, hsave, h1, h2, h3, h4]
    simp
  | some M =>
    simp only [Faults.none, hfirst, if_neg (hmax M hm), hsave, h1, h2, h3, h4]
    simp

/-- A new row below the current maximum that carries the `id` of a stored row: that row is
overwritten with it. -/
theorem put_below_max_stored (db : DB) (m : ConnectorShardMetadata) (M : Int)
    (hnew : ∀ r ∈ db.rows, sameKey m.ConnectorTypeId m.Channel m.Revision r = false)
    (hmax : dbMaxRevision db.rows m.ConnectorTypeId m.Channel = some M)
    (hlt : m.Revision < M) (h0 : m.ID ≠ 0) (hex : ∃ r ∈ db.rows, r.ID = m.ID) :
    PutConnectorShardMetadata Faults.none db m
      = { id := 0, err := Option.none,
          db := { db with rows := dbReplaceById { m with LatestRevision := some M } db.rows },
          arg := { m with LatestRevision := some M } } := by
  have hfirst := (dbFirst_eq_none_iff db.rows m.ConnectorTypeId m.Channel m.Revision).mpr hnew
  have hsave := dbSave_of_stored_id db { m with LatestRevision := some M } hnew h0 hex
  unfold PutConnectorShardMetadata
  simp only [Faults.none, hfirst, hmax, if_pos hlt, hsave]
  simp

/-- A new row not below the current maximum that carries the `id` of a stored row: that row
is overwritten with it and the update of the other rows runs. -/
theorem put_at_top_stored (db : DB) (m : ConnectorShardMetadata)
    (hnew : ∀ r ∈ db.rows, sameKey m.ConnectorTypeId m.Channel m.Revision r = false)
    (hmax : ∀ M, dbMaxRevision db.rows m.ConnectorTypeId m.Channel = some M →
      ¬ m.Revision < M)
    (h0 : m.ID ≠ 0) (hex : ∃ r ∈ db.rows, r.ID = m.ID) :
    PutConnectorShardMetadata Faults.none db m
      = { id := 0, err := Option.none,
          db := { db with
                  rows := dbUpdateLatestRevision
                    (dbReplaceById { m with LatestRevision := Option.none } db.rows)
                    m.ConnectorTypeId m.Channel m.Revision },
          arg := { m with LatestRevision := Option.none } } := by
  have hfirst := (dbFirst_eq_none_iff db.rows m.ConnectorTypeId m.Channel m.Revision).mpr hnew
  have hsave := dbSave_of_stored_id db { m with LatestRevision := Option.none } hnew h0 hex
  unfold PutConnectorShardMetadata
  cases hm : dbMaxRevision db.rows m.ConnectorTypeId m.Channel with
  | none =>
    simp only [Faults.none, hfirst, hsave]
    simp
  | some M =>
    simp only [Faults.none, hfirst, if_neg (hmax M hm), hsave]
    simp

/-- A new row without `id` when the next value of the sequence is the `id` of a stored row:
`Save` is refused, the call returns an error and the table is as before. -/
theorem put_taken_id (db : DB) (m : ConnectorShardMetadata)
    (hnew : ∀ r ∈ db.rows, sameKey m.ConnectorTypeId m.Channel m.Revision r = false)
    (h0 : m.ID = 0) (hex : ∃ r ∈ db.rows, r.ID = (withId db m).ID) :
    (PutConnectorShardMetadata Faults.none db m).err ≠ Option.none
    ∧ (PutConnectorShardMetadata Faults.none db m).db = db := by
  have hfirst := (dbFirst_eq_none_iff db.rows m.ConnectorTypeId m.Channel m.Revision).mpr hnew
  have hsave : ∀ l : Option Int, ∃ e, dbSave db { m with LatestRevision := l }
      = Except.error e := by
    intro l
    apply dbSave_of_taken_id db { m with LatestRevision := l } h0
    rw [withId_id]
    exact hex
  unfold PutConnectorShardMetadata
  cases hm : dbMaxRevision db.rows m.ConnectorTypeId m.Channel with
  | none =>
    obtain ⟨e, he⟩ := hsave Option.none
    simp only [Faults.none, hfirst, he]
    simp
  | some M =>
    by_cases hlt : m.Revision < M
    · obtain ⟨e, he⟩ := hsave (some M)
      simp only [Faults.none, hfirst, if_pos hlt, he]
      simp
    · obtain ⟨e, he⟩ := hsave Option.none
      simp only [Faults.none, hfirst, if_neg hlt, he]
      simp

theorem sameKey_eq (typeId channel : String) (revision : Int) (r : ConnectorShardMetadata) :
    sameKey typeId channel revision r
      = (sameGroup typeId channel r && decide (r.Revision = revision)) := by
  by_cases h : r.Revision = revision <;> simp [sameKey, sameGroup, h]

/-- The update of the other rows leaves alone a row that is not below the revision. -/
theorem dbUpdateLatestRevision_append_new (rows : List ConnectorShardMetadata)
    (n : ConnectorShardMetadata) (typeId channel : String) :
    dbUpdateLatestRevision (rows ++ [n]) typeId channel n.Revision
      = dbUpdateLatestRevision rows typeId channel n.Revision ++ [n] := by
  simp [dbUpdateLatestRevision]

/-- A call that returns no error did what the call without failing statement does. -/
theorem put_success_eq (f : Faults) (db : DB) (m : ConnectorShardMetadata)
    (hok : (PutConnectorShardMetadata f db m).err = Option.none) :
    PutConnectorShardMetadata f db m = PutConnectorShardMetadata Faults.none db m := by
  rcases f with ⟨f1, f2, f3, f4⟩
  unfold PutConnectorShardMetadata at hok ⊢
  simp only [Faults.none]
  cases f1 with
  | some e => simp at hok
  | none =>
    try simp only at hok ⊢
    cases hfirst : dbFirst db.rows m.ConnectorTypeId m.Channel m.Revision with
    | some resource => simp
    | none =>
      rw [hfirst] at hok
      cases f2 with
      | some e => simp at hok
      | none =>
        try simp only at hok ⊢
        cases f3 with
        | some e => simp at hok
        | none =>
          try simp only at hok ⊢
          generalize (match dbMaxRevision db.rows m.ConnectorTypeId m.Channel with
            | some current =>
              if m.Revision < current then
                ({ m with LatestRevision := some current } : ConnectorShardMetadata)
              else { m with LatestRevision := Option.none }
            | Option.none => { m with LatestRevision := Option.none }) = w at hok ⊢
          cases hs : dbSave db w with
          | error e => simp [hs] at hok
          | ok p =>
            obtain ⟨db1, saved⟩ := p
            rw [hs] at hok
            simp only at hok ⊢
            by_cases hl : saved.LatestRevision = Option.none
            · rw [if_pos hl] at hok
              simp only [if_pos hl]
              cases f4 with
              | some e => simp at hok
              | none => rfl
            · simp only [if_neg hl]

/-- The call without failing statement, by cases: nothing changes (the row was there, or
`Save` was refused); or the new row lies below the maximum of its group and is appended, or
it becomes the current row and is appended; or it carries the `id` of a stored row and
overwrites it, below the maximum or as the current row. -/
theorem put_cases (db : DB) (m : ConnectorShardMetadata) :
    (PutConnectorShardMetadata Faults.none db m).db = db
    ∨ (∃ M, (PutConnectorShardMetadata Faults.none db m).db.rows
        = db.rows ++ [withId db { m with LatestRevision := some M }])
    ∨ ((∀ r ∈ db.rows, sameGroup m.ConnectorTypeId m.Channel r = true →
          r.Revision < m.Revision)
        ∧ (PutConnectorShardMetadata Faults.none db m).db.rows
          = dbUpdateLatestRevision db.rows m.ConnectorTypeId m.Channel m.Revision
            ++ [withId db { m with LatestRevision := Option.none }])
    ∨ (∃ M, (PutConnectorShardMetadata Faults.none db m).db.rows
        = dbReplaceById { m with LatestRevision := some M } db.rows)
    ∨ ((∀ r ∈ db.rows, sameGroup m.ConnectorTypeId m.Channel r = true →
          r.Revision < m.Revision)
        ∧ (PutConnectorShardMetadata Faults.none db m).db.rows
          = dbUpdateLatestRevision
              (dbReplaceById { m with LatestRevision := Option.none } db.rows)
              m.ConnectorTypeId m.Channel m.Revision) := by
  cases hfirst : dbFirst db.rows m.ConnectorTypeId m.Channel m.Revision with
  | some resource =>
    left
    simp [PutConnectorShardMetadata, Faults.none, hfirst]
  | none =>
    have hnew := (dbFirst_eq_none_iff _ _ _ _).mp hfirst
    by_cases hid : ∀ r ∈ db.rows, r.ID ≠ (withId db m).ID
    · right
      by_cases hlt : ∃ M, dbMaxRevision db.rows m.ConnectorTypeId m.Channel = some M
          ∧ m.Revision < M
      · obtain ⟨M, hM, hlt⟩ := hlt
        left
        exact ⟨M, by rw [put_below_max db m M hnew hM hlt hid]⟩
      · right
        left
        have hmax : ∀ M, dbMaxRevision db.rows m.ConnectorTypeId m.Channel = some M →
            ¬ m.Revision < M := fun M hM h => hlt ⟨M, hM, h⟩
        constructor
        · intro r hr hg
          have hkey := hnew r hr
          rw [sameKey_eq, hg] at hkey
          have hne : r.Revision ≠ m.Revision := by simpa using hkey
          cases hM : dbMaxRevision db.rows m.ConnectorTypeId m.Channel with
          | none =>
            have hnil := (maxOf_eq_none_iff _).mp hM
            have hmem : r.Revision ∈ (db.rows.filter
                (sameGroup m.ConnectorTypeId m.Channel)).map fun r => r.Revision := by
              simp only [List.mem_map, List.mem_filter]
              exact ⟨r, ⟨hr, hg⟩, rfl⟩
            rw [hnil] at hmem
            cases hmem
          | some M =>
            have hle := (dbMaxRevision_spec _ _ _ M hM).2 r hr hg
            have := hmax M hM
            omega
        · rw [put_at_top db m hnew hmax hid]
          have h3 : (withId db { m with LatestRevision := Option.none }).Revision = m.Revision :=
            (withId_fields db _).2.2.1
          have := dbUpdateLatestRevision_append_new db.rows
            (withId db { m with LatestRevision := Option.none }) m.ConnectorTypeId m.Channel
          rw [h3] at this
          exact this
    · have hex : ∃ r ∈ db.rows, r.ID = (withId db m).ID := by
        by_contra hcon
        apply hid
        intro r hr hrid
        exact hcon ⟨r, hr, hrid⟩
      by_cases h0 : m.ID = 0
      · left
        exact (put_taken_id db m hnew h0 hex).2
      · have hw : withId db m = m := by simp [withId, h0]
        rw [hw] at hex
        right
        right
        right
        by_cases hlt : ∃ M, dbMaxRevision db.rows m.ConnectorTypeId m.Channel = some M
            ∧ m.Revision < M
        · obtain ⟨M, hM, hlt⟩ := hlt
          left
          exact ⟨M, by rw [put_below_max_stored db m M hnew hM hlt h0 hex]⟩
        · right
          have hmax : ∀ M, dbMaxRevision db.rows m.ConnectorTypeId m.Channel = some M →
              ¬ m.Revision < M := fun M hM h => hlt ⟨M, hM, h⟩
          constructor
          · intro r hr hg
            have hkey := hnew r hr
            rw [sameKey_eq, hg] at hkey
            have hne : r.Revision ≠ m.Revision := by simpa using hkey
            cases hM : dbMaxRevision db.rows m.ConnectorTypeId m.Channel with
            | none =>
              have hnil := (maxOf_eq_none_iff _).mp hM
              have hmem : r.Revision ∈ (db.rows.filter
                  (sameGroup m.ConnectorTypeId m.Channel)).map fun r => r.Revision := by
                simp only [List.mem_map, List.mem_filter]
                exact ⟨r, ⟨hr, hg⟩, rfl⟩
              rw [hnil] at hmem
              cases hmem
            | some M =>
              have hle := (dbMaxRevision_spec _ _ _ M hM).2 r hr hg
              have := hmax M hM
              omega
          · rw [put_at_top_stored db m hnew hmax h0 hex]

/-! ## Lemmas on the invariant -/

theorem currentRows_append (a b : List ConnectorShardMetadata) (typeId channel : String) :
    currentRows (a ++ b) typeId channel
      = currentRows a typeId channel ++ currentRows b typeId channel := by
  simp [currentRows, List.filter_append]

/-- The update of the other rows makes no row current. -/
theorem currentRows_update_le (rows : List ConnectorShardMetadata)
    (typeId channel : String) (revision : Int) (t c : String) :
    (currentRows (dbUpdateLatestRevision rows typeId channel revision) t c).length
      ≤ (currentRows rows t c).length := by
  induction rows with
  | nil => simp [dbUpdateLatestRevision, currentRows]
  | cons r rows ih =>
    have hcons : dbUpdateLatestRevision (r :: rows) typeId channel revision
        = dbUpdateLatestRevision [r] typeId channel revision
          ++ dbUpdateLatestRevision rows typeId channel revision := by
      simp [dbUpdateLatestRevision]
    have hcons2 : r :: rows = [r] ++ rows := rfl
    rw [hcons, currentRows_append, hcons2, currentRows_append, List.length_append,
      List.length_append]
    apply Nat.add_le_add _ ih
    simp only [dbUpdateLatestRevision, List.map_cons, List.map_nil, currentRows]
    by_cases hu : (sameGroup typeId channel r && decide (r.Revision < revision)) = true
    · rw [if_pos hu]
      simp [List.filter_cons]
    · rw [if_neg hu]

/-- After the update of the other rows, a group whose rows all lie below the revision has no
current row. -/
theorem currentRows_update_eq_nil (rows : List ConnectorShardMetadata)
    (typeId channel : String) (revision : Int)
    (hlt : ∀ r ∈ rows, sameGroup typeId channel r = true → r.Revision < revision) :
    currentRows (dbUpdateLatestRevision rows typeId channel revision) typeId channel = [] := by
  unfold currentRows dbUpdateLatestRevision
  rw [List.filter_eq_nil_iff]
  intro r hr
  simp only [List.mem_map] at hr
  obtain ⟨r0, hr0, hr⟩ := hr
  by_cases hg : sameGroup typeId channel r0 = true
  · have h1 := hlt r0 hr0 hg
    simp only [hg, h1, decide_True, Bool.and_self, if_true] at hr
    rw [← hr]
    simp
  · simp only [hg, Bool.false_and, Bool.false_eq_true, if_false] at hr
    rw [← hr]
    simp [hg]

theorem currentRows_singleton_length_le (r : ConnectorShardMetadata) (t c : String) :
    (currentRows [r] t c).length ≤ 1 := by
  unfold currentRows
  exact le_trans (List.length_filter_le _ _) (by simp)

theorem currentRows_singleton_of_some (r : ConnectorShardMetadata) (M : Int) (t c : String)
    (h : r.LatestRevision = some M) : currentRows [r] t c = [] := by
  simp [currentRows, List.filter_cons, h]

theorem currentRows_singleton_other_group (r : ConnectorShardMetadata) (t c : String)
    (h : sameGroup t c r = false) : currentRows [r] t c = [] := by
  simp [currentRows, List.filter_cons, h]

/-- Overwriting a row adds at most the current rows of the new row. -/
theorem currentRows_replace_le (m : ConnectorShardMetadata)
    (rows : List ConnectorShardMetadata) (t c : String) :
    (currentRows (dbReplaceById m rows) t c).length
      ≤ (currentRows rows t c).length + (currentRows [m] t c).length := by
  induction rows with
  | nil => simp [dbReplaceById, currentRows]
  | cons r rows ih =>
    have hr : r :: rows = [r] ++ rows := rfl
    by_cases hid : r.ID = m.ID
    · have hrep : dbReplaceById m (r :: rows) = [m] ++ rows := by
        simp [dbReplaceById, hid]
      rw [hrep, hr, currentRows_append, currentRows_append, List.length_append,
        List.length_append]
      omega
    · have hrep : dbReplaceById m (r :: rows) = [r] ++ dbReplaceById m rows := by
        simp [dbReplaceById, hid]
      rw [hrep, hr, currentRows_append, currentRows_append, List.length_append,
        List.length_append]
      omega

theorem dbUpdateLatestRevision_cons (r : ConnectorShardMetadata)
    (rows : List ConnectorShardMetadata) (typeId channel : String) (revision : Int) :
    dbUpdateLatestRevision (r :: rows) typeId channel revision
      = dbUpdateLatestRevision [r] typeId channel revision
        ++ dbUpdateLatestRevision rows typeId channel revision := by
  simp [dbUpdateLatestRevision]

/-- After a row of a group was overwritten with a row above all rows of the group, and the
other rows were updated, the group has at most one current row. -/
theorem currentRows_update_replace_le_one (m : ConnectorShardMetadata)
    (rows : List ConnectorShardMetadata) (typeId channel : String) (revision : Int)
    (hlt : ∀ r ∈ rows, sameGroup typeId channel r = true → r.Revision < revision) :
    (currentRows (dbUpdateLatestRevision (dbReplaceById m rows) typeId channel revision)
      typeId channel).length ≤ 1 := by
  induction rows with
  | nil => simp [dbReplaceById, dbUpdateLatestRevision, currentRows]
  | cons r rows ih =>
    have hlt2 : ∀ r1 ∈ rows, sameGroup typeId channel r1 = true → r1.Revision < revision :=
      fun r1 hr1 => hlt r1 (List.mem_cons_of_mem _ hr1)
    by_cases hid : r.ID = m.ID
    · have hrep : dbReplaceById m (r :: rows) = m :: rows := by
        simp [dbReplaceById, hid]
      rw [hrep, dbUpdateLatestRevision_cons, currentRows_append, List.length_append,
        currentRows_update_eq_nil rows typeId channel revision hlt2]
      have hone : (currentRows (dbUpdateLatestRevision [m] typeId channel revision)
          typeId channel).length ≤ ([m] : List ConnectorShardMetadata).length := by
        refine le_trans (currentRows_update_le [m] typeId channel revision typeId channel) ?_
        unfold currentRows
        exact List.length_filter_le _ _
      simpa using hone
    · have hrep : dbReplaceById m (r :: rows) = r :: dbReplaceById m rows := by
        simp [dbReplaceById, hid]
      rw [hrep, dbUpdateLatestRevision_cons, currentRows_append, List.length_append,
        currentRows_update_eq_nil [r] typeId channel revision
          (fun r1 hr1 hg => by
            rw [List.mem_singleton.mp hr1] at hg ⊢
            exact hlt r (List.mem_cons_self _ _) hg)]
      simpa using ih hlt2

/-- A successful call without failing statement keeps the invariant. -/
theorem put_preserves_invariant (db : DB) (m : ConnectorShardMetadata)
    (hinv : AtMostOneCurrent db.rows) :
    AtMostOneCurrent (PutConnectorShardMetadata Faults.none db m).db.rows := by
  rcases put_cases db m with h | ⟨M, h⟩ | ⟨hlt, h⟩ | ⟨M, h⟩ | ⟨hlt, h⟩
  · rw [h]
    exact hinv
  · rw [h]
    intro t c
    rw [currentRows_append, currentRows_singleton_of_some _ M t c
      ((withId_fields db _).2.2.2.1), List.append_nil]
    exact hinv t c
  · rw [h]
    intro t c
    rw [currentRows_append, List.length_append]
    by_cases hg : sameGroup t c (withId db { m with LatestRevision := Option.none }) = true
    · have h1 := (withId_fields db { m with LatestRevision := Option.none }).1
      have h2 := (withId_fields db { m with LatestRevision := Option.none }).2.1
      have ht : t = m.ConnectorTypeId ∧ c = m.Channel := by
        simp only [sameGroup, h1, h2, Bool.and_eq_true, beq_iff_eq] at hg
        exact ⟨hg.1.symm, hg.2.symm⟩
      obtain ⟨ht, hc⟩ := ht
      subst ht hc
      rw [currentRows_update_eq_nil db.rows _ _ m.Revision hlt]
      simpa using currentRows_singleton_length_le _ _ _
    · have hg2 : sameGroup t c (withId db { m with LatestRevision := Option.none }) = false := by
        simpa using hg
      rw [currentRows_singleton_other_group _ t c hg2]
      simp only [List.length_nil, Nat.add_zero]
      exact le_trans (currentRows_update_le _ _ _ _ t c) (hinv t c)
  · rw [h]
    intro t c
    have := currentRows_replace_le { m with LatestRevision := some M } db.rows t c
    rw [currentRows_singleton_of_some _ M t c rfl] at this
    exact le_trans this (by simpa using hinv t c)
  · rw [h]
    intro t c
    by_cases hg : sameGroup t c { m with LatestRevision := Option.none } = true
    · have ht : t = m.ConnectorTypeId ∧ c = m.Channel := by
        simp only [sameGroup, Bool.and_eq_true, beq_iff_eq] at hg
        exact ⟨hg.1.symm, hg.2.symm⟩
      obtain ⟨ht, hc⟩ := ht
      subst ht hc
      exact currentRows_update_replace_le_one _ db.rows _ _ m.Revision hlt
    · have hg2 : sameGroup t c { m with LatestRevision := Option.none } = false := by
        simpa using hg
      have := currentRows_replace_le { m with LatestRevision := Option.none } db.rows t c
      rw [currentRows_singleton_other_group _ t c hg2] at this
      exact le_trans (currentRows_update_le _ _ _ _ t c)
        (le_trans this (by simpa using hinv t c))

/-- The statements of a call, run one after the other with nothing in between, are the
call. -/
theorem putRun_eq (f : Faults) (m : ConnectorShardMetadata) (db : DB) :
    putRun f m db
      = ((PutConnectorShardMetadata f db m).db,
          PutPhase.done (PutConnectorShardMetadata f db m).id
            (PutConnectorShardMetadata f db m).err (PutConnectorShardMetadata f db m).arg) := by
  rcases f with ⟨f1, f2, f3, f4⟩
  unfold putRun PutConnectorShardMetadata
  cases f1 with
  | some e => simp [putStep]
  | none =>
    cases hfirst : dbFirst db.rows m.ConnectorTypeId m.Channel m.Revision with
    | some resource => simp [putStep, hfirst]
    | none =>
      cases f2 with
      | some e => simp [putStep, hfirst]
      | none =>
        cases hmax : dbMaxRevision db.rows m.ConnectorTypeId m.Channel with
        | none =>
          cases f3 with
          | some e => simp [putStep, hfirst, hmax]
          | none =>
            cases hs : dbSave db { m with LatestRevision := Option.none } with
            | error e => simp [putStep, hfirst, hmax, hs]
            | ok p =>
              obtain ⟨db1, saved⟩ := p
              by_cases hl : saved.LatestRevision = Option.none
              · cases f4 <;> simp [putStep, hfirst, hmax, hs, hl]
              · simp [putStep, hfirst, hmax, hs, hl]
        | some M =>
          by_cases hlt : m.Revision < M
          · cases f3 with
            | some e => simp [putStep, hfirst, hmax, hlt]
            | none =>
              cases hs : dbSave db { m with LatestRevision := some M } with
              | error e => simp [putStep, hfirst, hmax, hlt, hs]
              | ok p =>
                obtain ⟨db1, saved⟩ := p
                by_cases hl : saved.LatestRevision = Option.none
                · cases f4 <;> simp [putStep, hfirst, hmax, hlt, hs, hl]
                · simp [putStep, hfirst, hmax, hlt, hs, hl]
          · cases f3 with
            | some e => simp [putStep, hfirst, hmax, hlt]
            | none =>
              cases hs : dbSave db { m with LatestRevision := Option.none } with
              | error e => simp [putStep, hfirst, hmax, hlt, hs]
              | ok p =>
                obtain ⟨db1, saved⟩ := p
                by_cases hl : saved.LatestRevision = Option.none
                · cases f4 <;> simp [putStep, hfirst, hmax, hlt, hs, hl]
                · simp [putStep, hfirst, hmax, hlt, hs, hl]

/-- Under the schedule that runs the first call to its end and then the second call, the two
calls are two calls of `PutConnectorShardMetadata`, one after the other. -/
theorem interleave_sequential (fa fb : Faults) (ma mb : ConnectorShardMetadata) (db : DB) :
    interleave fa fb ma mb [true, true, true, true, false, false, false, false]
        (db, PutPhase.first, PutPhase.first)
      = ((PutConnectorShardMetadata fb (PutConnectorShardMetadata fa db ma).db mb).db,
          PutPhase.done (PutConnectorShardMetadata fa db ma).id
            (PutConnectorShardMetadata fa db ma).err (PutConnectorShardMetadata fa db ma).arg,
          PutPhase.done
            (PutConnectorShardMetadata fb (PutConnectorShardMetadata fa db ma).db mb).id
            (PutConnectorShardMetadata fb (PutConnectorShardMetadata fa db ma).db mb).err
            (PutConnectorShardMetadata fb (PutConnectorShardMetadata fa db ma).db mb).arg) := by
  have ha : interleave fa fb ma mb [true, true, true, true, false, false, false, false]
        (db, PutPhase.first, PutPhase.first)
      = interleave fa fb ma mb [false, false, false, false]
          ((putRun fa ma db).1, (putRun fa ma db).2, PutPhase.first) := rfl
  have hb : ∀ (d : DB) (pa : PutPhase),
      interleave fa fb ma mb [false, false, false, false] (d, pa, PutPhase.first)
        = ((putRun fb mb d).1, pa, (putRun fb mb d).2) := fun _ _ => rfl
  rw [ha, putRun_eq, hb, putRun_eq]

/-! ## The shard-metadata table: properties -/

/-- C8. At most one row per (type, channel) has `LatestRevision == nil`: a successful
`PutConnectorShardMetadata` on a table with that property gives a table with that property,
and every table reachable from the empty table by successful calls has it. -/
theorem at_most_one_current_invariant :
    (∀ (f : Faults) (db : DB) (m : ConnectorShardMetadata),
        AtMostOneCurrent db.rows → (PutConnectorShardMetadata f db m).err = Option.none →
        AtMostOneCurrent (PutConnectorShardMetadata f db m).db.rows)
    ∧ (∀ db : DB, Reachable db → AtMostOneCurrent db.rows) := by
  have hstep : ∀ (f : Faults) (db : DB) (m : ConnectorShardMetadata),
      AtMostOneCurrent db.rows → (PutConnectorShardMetadata f db m).err = Option.none →
      AtMostOneCurrent (PutConnectorShardMetadata f db m).db.rows := by
    intro f db m hinv hok
    rw [put_success_eq f db m hok]
    exact put_preserves_invariant db m hinv
  refine ⟨hstep, ?_⟩
  intro db hreach
  induction hreach with
  | empty =>
    intro t c
    simp [DB.empty, currentRows]
  | put f db m _ hok ih => exact hstep f db m ih hok

/-- The invariant holds on the one-row store and after revision 2 is put into it. -/
theorem at_most_one_current_invariant_witness :
    AtMostOneCurrent demoDB.rows
    ∧ AtMostOneCurrent (PutConnectorShardMetadata Faults.none demoDB (demoRow 2)).db.rows :=
  ⟨at_most_one_current_invariant.2 demoDB
      (Reachable.put Faults.none DB.empty (demoRow 1) Reachable.empty (by decide)),
    at_most_one_current_invariant.1 Faults.none demoDB (demoRow 2)
      (at_most_one_current_invariant.2 demoDB
        (Reachable.put Faults.none DB.empty (demoRow 1) Reachable.empty (by decide)))
      (by decide)⟩

/-- C9, evaluated: revision 2 is put on top of revision 1 and the update of the other rows
fails.  The call returns an error, yet the new row stays in the table, next to the row of
revision 1 that still has `LatestRevision == nil`: two current rows in one group. -/
theorem put_update_failure_leaves_partial_write :
    (PutConnectorShardMetadata { Faults.none with update := some "connection reset" }
        demoDB (demoRow 2)).err
      = some (GeneralError
          ("failed to update other connectors shard metadata with the latest " ++
            "revision from: %v"))
    ∧ (PutConnectorShardMetadata { Faults.none with update := some "connection reset" }
        demoDB (demoRow 2)).db.rows
      = [{ ID := 1, ConnectorTypeId := "t", Channel := "stable", Revision := 1,
           LatestRevision := Option.none, ShardMetadata := "" },
         { ID := 2, ConnectorTypeId := "t", Channel := "stable", Revision := 2,
           LatestRevision := Option.none, ShardMetadata := "" }]
    ∧ (PutConnectorShardMetadata { Faults.none with update := some "connection reset" }
        demoDB (demoRow 2)).db ≠ demoDB
    ∧ ¬ AtMostOneCurrent
        (PutConnectorShardMetadata { Faults.none with update := some "connection reset" }
          demoDB (demoRow 2)).db.rows := by
  refine ⟨by decide, by decide, by decide, ?_⟩
  intro h
  exact absurd (h "t" "stable") (by decide)

/-- C10, evaluated: two calls on the empty table, for revisions 1 and 2 of one group.  The
first call runs its `First` and `max(revision)` queries, then the second call runs to its
end, then the first call saves its row and updates the other rows.  Both calls return no
error and the table holds two rows with `LatestRevision == nil` in the group. -/
theorem interleaved_puts_leave_two_current :
    interleave Faults.none Faults.none (demoRow 1) (demoRow 2)
        [true, true, false, false, false, false, true, true]
        (DB.empty, PutPhase.first, PutPhase.first)
      = ({ rows :=
            [{ ID := 1, ConnectorTypeId := "t", Channel := "stable", Revision := 2,
               LatestRevision := Option.none, ShardMetadata := "" },
             { ID := 2, ConnectorTypeId := "t", Channel := "stable", Revision := 1,
               LatestRevision := Option.none, ShardMetadata := "" }],
           seq := 2 },
         PutPhase.done 0 Option.none
           { ID := 2, ConnectorTypeId := "t", Channel := "stable", Revision := 1,
             LatestRevision := Option.none, ShardMetadata := "" },
         PutPhase.done 0 Option.none
           { ID := 1, ConnectorTypeId := "t", Channel := "stable", Revision := 2,
             LatestRevision := Option.none, ShardMetadata := "" })
    ∧ ¬ AtMostOneCurrent
        (interleave Faults.none Faults.none (demoRow 1) (demoRow 2)
          [true, true, false, false, false, false, true, true]
          (DB.empty, PutPhase.first, PutPhase.first)).1.rows := by
  refine ⟨by decide, ?_⟩
  intro h
  exact absurd (h "t" "stable") (by decide)

/-! ## Lemmas on the connector types -/

theorem foldl_append_singleton {α β : Type} (g : α → β) (l : List α) (init : List β) :
    l.foldl (fun acc x => acc ++ [g x]) init = init ++ l.map g := by
  induction l generalizing init with
  | nil => simp
  | cons x l ih => simp [ih]

theorem foldl_append_unless {α : Type} (p : α → Prop) [DecidablePred p] (l : List α)
    (init : List α) :
    l.foldl (fun acc x => if p x then acc else acc ++ [x]) init
      = init ++ l.filter fun x => decide (¬ p x) := by
  induction l generalizing init with
  | nil => simp
  | cons x l ih =>
    rw [List.foldl_cons, ih]
    by_cases hx : p x <;> simp [hx, List.filter_cons]

theorem mem_foldl_insert (l acc : List String) (k : String) :
    k ∈ l.foldl (fun latestIds x => if x ∈ latestIds then latestIds else x :: latestIds) acc
      ↔ k ∈ acc ∨ k ∈ l := by
  induction l generalizing acc with
  | nil => simp
  | cons x l ih =>
    rw [List.foldl_cons, ih]
    by_cases hx : x ∈ acc
    · rw [if_pos hx]
      constructor
      · rintro (h | h)
        · exact Or.inl h
        · exact Or.inr (List.mem_cons_of_mem _ h)
      · rintro (h | h)
        · exact Or.inl h
        · rcases List.mem_cons.mp h with h | h
          · subst h
            exact Or.inl hx
          · exact Or.inr h
    · rw [if_neg hx]
      simp only [List.mem_cons]
      tauto

/-- The list built by lines 467-470: as many empty strings as there are catalog entries, then
the ids of the catalog entries. -/
theorem catalogNotToBeDeletedIDs_eq (cfg : ConnectorsConfig) :
    catalogNotToBeDeletedIDs cfg
      = List.replicate cfg.CatalogEntries.length "" ++ catalogIds cfg := by
  unfold catalogNotToBeDeletedIDs catalogIds
  exact foldl_append_singleton (fun entry : ConnectorCatalogEntry => entry.ConnectorType.Id) _ _

theorem mem_catalogNotToBeDeletedIDs (cfg : ConnectorsConfig) (id : String) :
    id ∈ catalogNotToBeDeletedIDs cfg
      ↔ id ∈ catalogIds cfg ∨ (id = "" ∧ cfg.CatalogEntries ≠ []) := by
  rw [catalogNotToBeDeletedIDs_eq, List.mem_append, List.mem_replicate]
  constructor
  · rintro (⟨h1, h2⟩ | h)
    · right
      refine ⟨h2, ?_⟩
      intro h0
      rw [h0] at h1
      exact h1 rfl
    · exact Or.inl h
  · rintro (h | ⟨h1, h2⟩)
    · exact Or.inr h
    · left
      refine ⟨?_, h1⟩
      intro h0
      exact h2 (List.length_eq_zero.mp h0)

theorem mapKeys_eq (m : List (String × String)) : mapKeys m = m.map Prod.fst := by
  unfold mapKeys
  simpa using foldl_append_singleton (fun kv : String × String => kv.1) m []

/-- The ids returned by `getDeprecatedTypes`: the used ids that are not in the other list, in
the order of the used ids. -/
theorem getDeprecatedTypes_eq (used notToBeDeleted : List String) :
    getDeprecatedTypes used notToBeDeleted
      = used.filter fun k => decide (k ∉ notToBeDeleted) := by
  unfold getDeprecatedTypes
  simp only
  rw [foldl_append_unless]
  simp only [List.nil_append]
  apply List.filter_congr
  intro k _
  simp [mem_foldl_insert]

theorem mem_dbDistinctConnectorTypeIds (connectors : List Connector) (id : String) :
    id ∈ dbDistinctConnectorTypeIds connectors
      ↔ ∃ c ∈ connectors, c.Deleted = false ∧ c.ConnectorTypeId = id := by
  simp [dbDistinctConnectorTypeIds, List.mem_dedup, List.mem_filter, and_assoc]

theorem dbDeprecate_nil (types : List ConnectorType) : dbDeprecate types [] = types := by
  simp [dbDeprecate]

/-- The tables after a call that returns no error. -/
theorem deleteOrDeprecate_success (cfg : ConnectorsConfig) (f : TypeFaults) (db : CatalogDB)
    (hok : (DeleteOrDeprecateRemovedTypes cfg f db).1 = Option.none) :
    (DeleteOrDeprecateRemovedTypes cfg f db).2
      = { types := dbDeleteNotIn
            (dbDeprecate db.types
              (getDeprecatedTypes (dbDistinctConnectorTypeIds db.connectors)
                (catalogNotToBeDeletedIDs cfg)))
            (catalogNotToBeDeletedIDs cfg ++ dbDistinctConnectorTypeIds db.connectors),
          connectors := db.connectors } := by
  rcases f with ⟨f1, f2, f3⟩
  unfold DeleteOrDeprecateRemovedTypes at hok ⊢
  cases f1 with
  | some e => simp at hok
  | none =>
    simp only at hok ⊢
    by_cases hlen : (getDeprecatedTypes (dbDistinctConnectorTypeIds db.connectors)
        (catalogNotToBeDeletedIDs cfg)).length > 0
    · simp only [if_pos hlen] at hok ⊢
      cases f2 with
      | some e => simp at hok
      | none =>
        simp only at hok ⊢
        cases f3 with
        | some e => simp at hok
        | none => rfl
    · simp only [if_neg hlen] at hok ⊢
      have hnil : getDeprecatedTypes (dbDistinctConnectorTypeIds db.connectors)
          (catalogNotToBeDeletedIDs cfg) = [] := by
        apply List.eq_nil_of_length_eq_zero
        omega
      rw [hnil, dbDeprecate_nil]
      cases f3 with
      | some e => simp at hok
      | none => rfl

/-- The tables after any call: untouched, or after the deprecation only, or after the
deprecation and the delete. -/
theorem deleteOrDeprecate_cases (cfg : ConnectorsConfig) (f : TypeFaults) (db : CatalogDB) :
    (DeleteOrDeprecateRemovedTypes cfg f db).2.connectors = db.connectors
    ∧ ((DeleteOrDeprecateRemovedTypes cfg f db).2.types = db.types
      ∨ (DeleteOrDeprecateRemovedTypes cfg f db).2.types
          = dbDeprecate db.types
              (getDeprecatedTypes (dbDistinctConnectorTypeIds db.connectors)
                (catalogNotToBeDeletedIDs cfg))
      ∨ (DeleteOrDeprecateRemovedTypes cfg f db).2.types
          = dbDeleteNotIn
              (dbDeprecate db.types
                (getDeprecatedTypes (dbDistinctConnectorTypeIds db.connectors)
                  (catalogNotToBeDeletedIDs cfg)))
              (catalogNotToBeDeletedIDs cfg ++ dbDistinctConnectorTypeIds db.connectors)) := by
  rcases f with ⟨f1, f2, f3⟩
  unfold DeleteOrDeprecateRemovedTypes
  cases f1 with
  | some e => simp
  | none =>
    simp only
    by_cases hlen : (getDeprecatedTypes (dbDistinctConnectorTypeIds db.connectors)
        (catalogNotToBeDeletedIDs cfg)).length > 0
    · simp only [if_pos hlen]
      cases f2 with
      | some e => simp
      | none =>
        cases f3 with
        | some e => simp
        | none => simp
    · simp only [if_neg hlen]
      have hnil : getDeprecatedTypes (dbDistinctConnectorTypeIds db.connectors)
          (catalogNotToBeDeletedIDs cfg) = [] := by
        apply List.eq_nil_of_length_eq_zero
        omega
      rw [hnil, dbDeprecate_nil]
      cases f3 with
      | some e => simp
      | none => simp

theorem contains_eq_true_iff (l : List String) (a : String) :
    l.contains a = true ↔ a ∈ l := by
  simp

/-- A relation between the rows of a table and the rows after `dbDeprecate` then
`dbDeleteNotIn` holds as soon as it holds row by row. -/
theorem forall₂_delete_deprecate (R : ConnectorType → ConnectorType → Prop)
    (types : List ConnectorType) (dep ntbd : List String)
    (h : ∀ r ∈ types,
      R r
        { ID := r.ID, Checksum := r.Checksum,
          Deprecated := r.Deprecated || (!r.Deleted && dep.contains r.ID),
          Deleted := r.Deleted || (!ntbd.isEmpty && !ntbd.contains r.ID) }) :
    List.Forall₂ R types (dbDeleteNotIn (dbDeprecate types dep) ntbd) := by
  unfold dbDeleteNotIn dbDeprecate
  rw [List.map_map, List.forall₂_map_right_iff, List.forall₂_same]
  intro r hr
  have := h r hr
  rcases r with ⟨id, sum, depr, del⟩
  cases he : ntbd.isEmpty <;> rw [he] at this <;>
    by_cases hd : id ∈ dep <;> by_cases hn : id ∈ ntbd <;> cases del <;> cases depr <;>
    simpa [hd, hn] using this

theorem forall₂_deprecate (R : ConnectorType → ConnectorType → Prop)
    (types : List ConnectorType) (dep : List String)
    (h : ∀ r ∈ types,
      R r
        { ID := r.ID, Checksum := r.Checksum,
          Deprecated := r.Deprecated || (!r.Deleted && dep.contains r.ID),
          Deleted := r.Deleted }) :
    List.Forall₂ R types (dbDeprecate types dep) := by
  unfold dbDeprecate
  rw [List.forall₂_map_right_iff, List.forall₂_same]
  intro r hr
  have := h r hr
  rcases r with ⟨id, sum, depr, del⟩
  by_cases hd : id ∈ dep <;> cases del <;> cases depr <;> simpa [hd] using this

theorem checksumsMatch_iff (m : List (String × String)) (l : List ConnectorType) :
    checksumsMatch m l = true ↔ ∀ ct ∈ l, ct.Checksum = some (mapIndex m ct.ID) := by
  induction l with
  | nil => simp [checksumsMatch]
  | cons ct l ih =>
    simp only [checksumsMatch, List.mem_cons, forall_eq_or_imp]
    by_cases h : ct.Checksum = some (mapIndex m ct.ID)
    · have hne : ct.Checksum ≠ Option.none := by
        rw [h]
        simp
      simp [h, ih]
    · cases hc : ct.Checksum with
      | none => simp
      | some v =>
        rw [hc] at h
        simp [h]

/-- In a map, given by entries with distinct keys, the index expression returns the value of
the entry. -/
theorem mapIndex_of_mem (m : List (String × String)) (hkeys : (m.map Prod.fst).Nodup)
    (k v : String) (hmem : (k, v) ∈ m) : mapIndex m k = v := by
  induction m with
  | nil => simp at hmem
  | cons kv m ih =>
    rw [List.map_cons, List.nodup_cons] at hkeys
    rcases List.mem_cons.mp hmem with h | h
    · subst h
      simp [mapIndex, List.find?_cons]
    · have hne : kv.1 ≠ k := by
        intro heq
        apply hkeys.1
        rw [heq]
        exact List.mem_map.mpr ⟨(k, v), h, rfl⟩
      have := ih hkeys.2 h
      unfold mapIndex at this ⊢
      rw [List.find?_cons]
      have hb : (kv.1 == k) = false := by simpa using hne
      rw [hb]
      exact this

theorem mem_dbFindTypesIn (types : List ConnectorType) (m : List (String × String))
    (ct : ConnectorType) :
    ct ∈ dbFindTypesIn types (mapKeys m)
      ↔ ct ∈ types ∧ ct.Deleted = false ∧ ∃ kv ∈ m, kv.1 = ct.ID := by
  unfold dbFindTypesIn
  rw [List.mem_filter, mapKeys_eq, Bool.and_eq_true, contains_eq_true_iff, List.mem_map]
  simp

/-- When a key of the map has no row among the rows found, fewer rows are found than the
map has entries. -/
theorem dbFindTypesIn_length_lt (types : List ConnectorType) (m : List (String × String))
    (hids : (types.map fun r => r.ID).Nodup) (k : String) (hk : k ∈ m.map Prod.fst)
    (hmiss : ∀ r ∈ types, r.Deleted = false → r.ID ≠ k) :
    (dbFindTypesIn types (mapKeys m)).length < m.length := by
  have hsub : ((dbFindTypesIn types (mapKeys m)).map fun r => r.ID)
      ⊆ (m.map Prod.fst).filter fun x => decide (x ≠ k) := by
    intro id hid
    rw [List.mem_map] at hid
    obtain ⟨r, hr, rfl⟩ := hid
    obtain ⟨h1, h2, kv, hkv, h3⟩ := (mem_dbFindTypesIn types m r).mp hr
    rw [List.mem_filter]
    refine ⟨List.mem_map.mpr ⟨kv, hkv, h3⟩, ?_⟩
    simpa using hmiss r h1 h2
  have hnd : ((dbFindTypesIn types (mapKeys m)).map fun r => r.ID).Nodup := by
    apply List.Nodup.sublist _ hids
    exact List.Sublist.map _ (List.filter_sublist _)
  have h1 := (List.subperm_of_subset hnd hsub).length_le
  have h2 : ((m.map Prod.fst).filter fun x => decide (x ≠ k)).length
      < (m.map Prod.fst).length := by
    rw [List.length_filter_lt_length_iff_exists]
    exact ⟨k, hk, by simp⟩
  rw [List.length_map] at h1 h2
  omega

/-! ## The connector types: properties -/

/-- C11. `DeleteOrDeprecateRemovedTypes` never deletes a connector type referenced by a
connector that is not deleted: whatever the tables, the configuration and the failing
statements, the table of types afterwards has the same rows with the same ids, and the
deletion mark of every row whose id is returned by the distinct query is as before; the ids
returned by that query are those of the connectors that are not deleted, and all of them are
in the list handed to `id NOT IN`. -/
theorem used_connector_types_never_deleted (cfg : ConnectorsConfig) (f : TypeFaults)
    (db : CatalogDB) :
    List.Forall₂
        (fun r r1 => r1.ID = r.ID ∧
          ((∃ c ∈ db.connectors, c.Deleted = false ∧ c.ConnectorTypeId = r.ID) →
            r1.Deleted = r.Deleted))
        db.types (DeleteOrDeprecateRemovedTypes cfg f db).2.types
    ∧ (∀ id, id ∈ dbDistinctConnectorTypeIds db.connectors
        ↔ ∃ c ∈ db.connectors, c.Deleted = false ∧ c.ConnectorTypeId = id)
    ∧ (∀ id ∈ dbDistinctConnectorTypeIds db.connectors,
        id ∈ catalogNotToBeDeletedIDs cfg ++ dbDistinctConnectorTypeIds db.connectors) := by
  refine ⟨?_, mem_dbDistinctConnectorTypeIds db.connectors, ?_⟩
  · rcases (deleteOrDeprecate_cases cfg f db).2 with h | h | h
    · rw [h, List.forall₂_same]
      intro r _
      exact ⟨rfl, fun _ => rfl⟩
    · rw [h]
      apply forall₂_deprecate
      intro r _
      exact ⟨rfl, fun _ => rfl⟩
    · rw [h]
      apply forall₂_delete_deprecate
      intro r _
      refine ⟨rfl, ?_⟩
      intro hused
      have hmem : r.ID ∈ catalogNotToBeDeletedIDs cfg
          ++ dbDistinctConnectorTypeIds db.connectors :=
        List.mem_append_right _ ((mem_dbDistinctConnectorTypeIds _ _).mpr hused)
      have hc : (catalogNotToBeDeletedIDs cfg
          ++ dbDistinctConnectorTypeIds db.connectors).contains r.ID = true :=
        (contains_eq_true_iff _ _).mpr hmem
      show (r.Deleted || (!(catalogNotToBeDeletedIDs cfg
          ++ dbDistinctConnectorTypeIds db.connectors).isEmpty
        && !(catalogNotToBeDeletedIDs cfg
          ++ dbDistinctConnectorTypeIds db.connectors).contains r.ID)) = r.Deleted
      rw [hc]
      simp
  · intro id hid
    exact List.mem_append_right _ hid

/-- C12. `getDeprecatedTypes(used, latest)` returns, in the order of `used`, the elements of
`used` that do not occur in `latest`.  In `DeleteOrDeprecateRemovedTypes` no id of the latest
catalog is among the ids flagged, a non-empty id is among them exactly when it is used by a
connector that is not deleted and is absent from the latest catalog, and after a call that
returns no error the `deprecated` flag of a row whose id is in the catalog is as before,
while a type with a non-empty id is deprecated exactly when it was before or it is not
deleted, used and absent from the catalog. -/
theorem deprecated_types_exact (cfg : ConnectorsConfig) (db : CatalogDB) :
    (∀ used latest : List String,
        getDeprecatedTypes used latest = used.filter fun k => decide (k ∉ latest))
    ∧ (∀ id ∈ catalogIds cfg,
        id ∉ getDeprecatedTypes (dbDistinctConnectorTypeIds db.connectors)
          (catalogNotToBeDeletedIDs cfg))
    ∧ (∀ id, id ≠ "" →
        (id ∈ getDeprecatedTypes (dbDistinctConnectorTypeIds db.connectors)
            (catalogNotToBeDeletedIDs cfg)
          ↔ (∃ c ∈ db.connectors, c.Deleted = false ∧ c.ConnectorTypeId = id)
            ∧ id ∉ catalogIds cfg))
    ∧ (∀ f : TypeFaults, (DeleteOrDeprecateRemovedTypes cfg f db).1 = Option.none →
        List.Forall₂
          (fun r r1 => r1.ID = r.ID
            ∧ (r.ID ∈ catalogIds cfg → r1.Deprecated = r.Deprecated)
            ∧ (r.ID ≠ "" →
                (r1.Deprecated = true ↔
                  r.Deprecated = true ∨
                    (r.Deleted = false
                      ∧ (∃ c ∈ db.connectors, c.Deleted = false ∧ c.ConnectorTypeId = r.ID)
                      ∧ r.ID ∉ catalogIds cfg))))
          db.types (DeleteOrDeprecateRemovedTypes cfg f db).2.types) := by
  have hcat : ∀ id ∈ catalogIds cfg,
      id ∉ getDeprecatedTypes (dbDistinctConnectorTypeIds db.connectors)
        (catalogNotToBeDeletedIDs cfg) := by
    intro id hid hmem
    rw [getDeprecatedTypes_eq, List.mem_filter] at hmem
    have := hmem.2
    simp only [decide_eq_true_eq] at this
    exact this ((mem_catalogNotToBeDeletedIDs cfg id).mpr (Or.inl hid))
  have hne : ∀ id, id ≠ "" →
      (id ∈ getDeprecatedTypes (dbDistinctConnectorTypeIds db.connectors)
          (catalogNotToBeDeletedIDs cfg)
        ↔ (∃ c ∈ db.connectors, c.Deleted = false ∧ c.ConnectorTypeId = id)
          ∧ id ∉ catalogIds cfg) := by
    intro id hid
    rw [getDeprecatedTypes_eq, List.mem_filter, mem_dbDistinctConnectorTypeIds,
      decide_eq_true_eq, mem_catalogNotToBeDeletedIDs]
    constructor
    · rintro ⟨h1, h2⟩
      exact ⟨h1, fun h => h2 (Or.inl h)⟩
    · rintro ⟨h1, h2⟩
      refine ⟨h1, ?_⟩
      rintro (h | ⟨h, _⟩)
      · exact h2 h
      · exact hid h
  refine ⟨getDeprecatedTypes_eq, hcat, hne, ?_⟩
  intro f hok
  rw [deleteOrDeprecate_success cfg f db hok]
  apply forall₂_delete_deprecate
  intro r _
  refine ⟨rfl, ?_, ?_⟩
  · intro hin
    have hnot := hcat r.ID hin
    have hc : (getDeprecatedTypes (dbDistinctConnectorTypeIds db.connectors)
        (catalogNotToBeDeletedIDs cfg)).contains r.ID = false := by
      rw [← Bool.not_eq_true, contains_eq_true_iff]
      exact hnot
    show (r.Deprecated || (!r.Deleted && (getDeprecatedTypes
        (dbDistinctConnectorTypeIds db.connectors)
        (catalogNotToBeDeletedIDs cfg)).contains r.ID)) = r.Deprecated
    rw [hc]
    simp
  · intro hid
    have := hne r.ID hid
    show (r.Deprecated || (!r.Deleted && (getDeprecatedTypes
        (dbDistinctConnectorTypeIds db.connectors)
        (catalogNotToBeDeletedIDs cfg)).contains r.ID)) = true ↔ _
    rw [Bool.or_eq_true, Bool.and_eq_true, Bool.not_eq_true', contains_eq_true_iff, this]

/-- After the call on the concrete tables, type `b`, used and absent from the catalog, is
deprecated. -/
theorem deprecated_types_exact_witness :
    (DeleteOrDeprecateRemovedTypes demoConfig TypeFaults.none demoCatalogDB).1 = Option.none
    ∧ getDeprecatedTypes (dbDistinctConnectorTypeIds demoCatalogDB.connectors)
        (catalogNotToBeDeletedIDs demoConfig) = ["b"]
    ∧ List.Forall₂
        (fun r r1 => r1.ID = r.ID
          ∧ (r.ID ∈ catalogIds demoConfig → r1.Deprecated = r.Deprecated)
          ∧ (r.ID ≠ "" →
              (r1.Deprecated = true ↔
                r.Deprecated = true ∨
                  (r.Deleted = false
                    ∧ (∃ c ∈ demoCatalogDB.connectors,
                        c.Deleted = false ∧ c.ConnectorTypeId = r.ID)
                    ∧ r.ID ∉ catalogIds demoConfig))))
        demoCatalogDB.types
        (DeleteOrDeprecateRemovedTypes demoConfig TypeFaults.none demoCatalogDB).2.types :=
  ⟨by decide, by decide,
    (deprecated_types_exact demoConfig demoCatalogDB).2.2.2 TypeFaults.none (by decide)⟩

/-- C14. `CatalogEntriesReconciled`, its query succeeding, returns no error, and returns
true exactly when the number of types that are not deleted and whose id is a key of the
checksum map equals the size of the map and each of them has a non-nil checksum equal to the
configured checksum for its id.  Keys and type ids being distinct, it returns false when a
configured type is missing, has a nil checksum, or has a checksum other than the configured
one. -/
theorem catalogEntriesReconciled_exact (cfg : ConnectorsConfig) (db : CatalogDB)
    (hkeys : (cfg.CatalogChecksums.map Prod.fst).Nodup)
    (hids : (db.types.map fun r => r.ID).Nodup) :
    (CatalogEntriesReconciled cfg Option.none db).2 = Option.none
    ∧ (∀ ct, ct ∈ dbFindTypesIn db.types (mapKeys cfg.CatalogChecksums)
        ↔ ct ∈ db.types ∧ ct.Deleted = false ∧ ∃ kv ∈ cfg.CatalogChecksums, kv.1 = ct.ID)
    ∧ ((CatalogEntriesReconciled cfg Option.none db).1 = true ↔
        (dbFindTypesIn db.types (mapKeys cfg.CatalogChecksums)).length
            = cfg.CatalogChecksums.length
          ∧ ∀ ct ∈ dbFindTypesIn db.types (mapKeys cfg.CatalogChecksums),
              ct.Checksum = some (mapIndex cfg.CatalogChecksums ct.ID))
    ∧ (∀ kv ∈ cfg.CatalogChecksums, mapIndex cfg.CatalogChecksums kv.1 = kv.2)
    ∧ (∀ kv ∈ cfg.CatalogChecksums,
        ((∀ r ∈ db.types, r.Deleted = false → r.ID ≠ kv.1)
          ∨ ∃ r ∈ db.types, r.Deleted = false ∧ r.ID = kv.1
              ∧ (r.Checksum = Option.none ∨ r.Checksum ≠ some kv.2)) →
        CatalogEntriesReconciled cfg Option.none db = (false, Option.none)) := by
  have hiff : (CatalogEntriesReconciled cfg Option.none db).1 = true ↔
      (dbFindTypesIn db.types (mapKeys cfg.CatalogChecksums)).length
          = cfg.CatalogChecksums.length
        ∧ ∀ ct ∈ dbFindTypesIn db.types (mapKeys cfg.CatalogChecksums),
            ct.Checksum = some (mapIndex cfg.CatalogChecksums ct.ID) := by
    unfold CatalogEntriesReconciled
    simp only
    by_cases hlen : cfg.CatalogChecksums.length
        = (dbFindTypesIn db.types (mapKeys cfg.CatalogChecksums)).length
    · have hb : (cfg.CatalogChecksums.length
          != (dbFindTypesIn db.types (mapKeys cfg.CatalogChecksums)).length) = false := by
        simpa using hlen
      rw [hb]
      simp only [Bool.false_eq_true, if_false]
      rw [← checksumsMatch_iff]
      by_cases hm : checksumsMatch cfg.CatalogChecksums
          (dbFindTypesIn db.types (mapKeys cfg.CatalogChecksums)) = true
      · simp [hm, hlen]
      · simp [hm]
    · have hb : (cfg.CatalogChecksums.length
          != (dbFindTypesIn db.types (mapKeys cfg.CatalogChecksums)).length) = true := by
        simpa using hlen
      rw [hb]
      simp only [if_true]
      constructor
      · intro h
        cases h
      · rintro ⟨h, _⟩
        exact absurd h.symm hlen
  have herr : (CatalogEntriesReconciled cfg Option.none db).2 = Option.none := by
    unfold CatalogEntriesReconciled
    simp only
    split
    · rfl
    · split <;> rfl
  have hidx : ∀ kv ∈ cfg.CatalogChecksums, mapIndex cfg.CatalogChecksums kv.1 = kv.2 :=
    fun kv hkv => mapIndex_of_mem cfg.CatalogChecksums hkeys kv.1 kv.2 hkv
  refine ⟨herr, mem_dbFindTypesIn db.types cfg.CatalogChecksums, hiff, hidx, ?_⟩
  intro kv hkv hbad
  have hfalse : (CatalogEntriesReconciled cfg Option.none db).1 = false := by
    rw [← Bool.not_eq_true, hiff]
    rintro ⟨hlen, hall⟩
    rcases hbad with hmiss | ⟨r, hr, hdel, hid, hsum⟩
    · have := dbFindTypesIn_length_lt db.types cfg.CatalogChecksums hids kv.1
        (List.mem_map.mpr ⟨kv, hkv, rfl⟩) hmiss
      omega
    · have hfound : r ∈ dbFindTypesIn db.types (mapKeys cfg.CatalogChecksums) :=
        (mem_dbFindTypesIn _ _ _).mpr ⟨hr, hdel, kv, hkv, hid.symm⟩
      have h1 := hall r hfound
      rw [hid, hidx kv hkv] at h1
      rcases hsum with h | h
      · rw [h] at h1
        cases h1
      · exact h h1
  exact Prod.ext hfalse herr

/-- On the concrete tables the catalog is reconciled; it is not once the checksum of type
`a` differs. -/
theorem catalogEntriesReconciled_exact_witness :
    CatalogEntriesReconciled demoConfig Option.none demoCatalogDB = (true, Option.none)
    ∧ CatalogEntriesReconciled { demoConfig with CatalogChecksums := [("a", "other")] }
        Option.none demoCatalogDB = (false, Option.none) :=
  ⟨by decide,
    (catalogEntriesReconciled_exact { demoConfig with CatalogChecksums := [("a", "other")] }
      demoCatalogDB (by decide) (by decide)).2.2.2.2 ("a", "other") (by decide)
      (Or.inr ⟨{ ID := "a", Checksum := some "sum-a", Deprecated := false, Deleted := false },
        by decide, rfl, rfl, Or.inr (by decide)⟩)⟩

/-! ## Putting an entry twice -/

theorem sameKey_withId (db : DB) (m : ConnectorShardMetadata) (l : Option Int) :
    sameKey m.ConnectorTypeId m.Channel m.Revision (withId db { m with LatestRevision := l })
      = true := by
  obtain ⟨h1, h2, h3, _⟩ := withId_fields db { m with LatestRevision := l }
  simp [sameKey, h1, h2, h3]

/-- A call found its row: nothing changes, and the id of that row is returned. -/
theorem put_of_found (f : Faults) (db : DB) (m resource : ConnectorShardMetadata)
    (hf : f.first = Option.none)
    (hfound : dbFirst db.rows m.ConnectorTypeId m.Channel m.Revision = some resource) :
    PutConnectorShardMetadata f db m
      = { id := resource.ID, err := Option.none, db := db, arg := m } := by
  unfold PutConnectorShardMetadata
  simp only [hf, hfound]

theorem mem_dbReplaceById (w : ConnectorShardMetadata) (rows : List ConnectorShardMetadata)
    (hex : ∃ r ∈ rows, r.ID = w.ID) : w ∈ dbReplaceById w rows := by
  induction rows with
  | nil =>
    obtain ⟨r, hr, _⟩ := hex
    cases hr
  | cons r rows ih =>
    by_cases hid : r.ID = w.ID
    · simp [dbReplaceById, hid]
    · have hrep : dbReplaceById w (r :: rows) = r :: dbReplaceById w rows := by
        simp [dbReplaceById, hid]
      rw [hrep]
      apply List.mem_cons_of_mem
      apply ih
      obtain ⟨r1, hr1, h1⟩ := hex
      rcases List.mem_cons.mp hr1 with h | h
      · rw [h] at h1
        exact absurd h1 hid
      · exact ⟨r1, h, h1⟩

/-- The update of the group changes no key. -/
theorem sameKey_dbUpdateLatestRevision (rows : List ConnectorShardMetadata) (t0 c0 : String)
    (N : Int) (t c : String) (n : Int)
    (h : ∃ r ∈ rows, sameKey t c n r = true) :
    ∃ r ∈ dbUpdateLatestRevision rows t0 c0 N, sameKey t c n r = true := by
  obtain ⟨r, hr, hk⟩ := h
  by_cases hu : (sameGroup t0 c0 r && decide (r.Revision < N)) = true
  · refine ⟨{ r with LatestRevision := some N }, ?_, ?_⟩
    · unfold dbUpdateLatestRevision
      rw [List.mem_map]
      exact ⟨r, hr, by rw [if_pos hu]⟩
    · simpa [sameKey] using hk
  · refine ⟨r, ?_, hk⟩
    unfold dbUpdateLatestRevision
    rw [List.mem_map]
    exact ⟨r, hr, by rw [if_neg hu]⟩

/-- After a call without failing statement that returns no error the table holds a row with
the key of the argument. -/
theorem put_success_has_key (db : DB) (m : ConnectorShardMetadata)
    (hok : (PutConnectorShardMetadata Faults.none db m).err = Option.none) :
    ∃ r ∈ (PutConnectorShardMetadata Faults.none db m).db.rows,
      sameKey m.ConnectorTypeId m.Channel m.Revision r = true := by
  cases hfirst : dbFirst db.rows m.ConnectorTypeId m.Channel m.Revision with
  | some resource =>
    rw [put_of_found Faults.none db m resource rfl hfirst]
    exact ⟨resource, List.mem_of_find?_eq_some hfirst, by
      simpa using List.find?_some hfirst⟩
  | none =>
    have hnew := (dbFirst_eq_none_iff _ _ _ _).mp hfirst
    by_cases hid : ∀ r ∈ db.rows, r.ID ≠ (withId db m).ID
    · by_cases hlt : ∃ M, dbMaxRevision db.rows m.ConnectorTypeId m.Channel = some M
          ∧ m.Revision < M
      · obtain ⟨M, hM, hlt⟩ := hlt
        rw [put_below_max db m M hnew hM hlt hid]
        exact ⟨_, List.mem_append_right _ (List.mem_singleton.mpr rfl), sameKey_withId db m _⟩
      · have hmax : ∀ M, dbMaxRevision db.rows m.ConnectorTypeId m.Channel = some M →
            ¬ m.Revision < M := fun M hM h => hlt ⟨M, hM, h⟩
        rw [put_at_top db m hnew hmax hid]
        exact sameKey_dbUpdateLatestRevision _ _ _ _ _ _ _
          ⟨_, List.mem_append_right _ (List.mem_singleton.mpr rfl), sameKey_withId db m _⟩
    · have hex : ∃ r ∈ db.rows, r.ID = (withId db m).ID := by
        by_contra hcon
        apply hid
        intro r hr hrid
        exact hcon ⟨r, hr, hrid⟩
      by_cases h0 : m.ID = 0
      · exact absurd hok (put_taken_id db m hnew h0 hex).1
      · have hw : withId db m = m := by simp [withId, h0]
        rw [hw] at hex
        by_cases hlt : ∃ M, dbMaxRevision db.rows m.ConnectorTypeId m.Channel = some M
            ∧ m.Revision < M
        · obtain ⟨M, hM, hlt⟩ := hlt
          rw [put_below_max_stored db m M hnew hM hlt h0 hex]
          exact ⟨_, mem_dbReplaceById { m with LatestRevision := some M } db.rows hex,
            by simp [sameKey]⟩
        · have hmax : ∀ M, dbMaxRevision db.rows m.ConnectorTypeId m.Channel = some M →
              ¬ m.Revision < M := fun M hM h => hlt ⟨M, hM, h⟩
          rw [put_at_top_stored db m hnew hmax h0 hex]
          exact sameKey_dbUpdateLatestRevision _ _ _ _ _ _ _
            ⟨_, mem_dbReplaceById { m with LatestRevision := Option.none } db.rows hex,
              by simp [sameKey]⟩

/-- C26. `PutConnectorShardMetadata` is idempotent per key.  When the table holds a row with
the type, channel and revision of the argument, the call changes no row, whichever statement
fails, and with its query succeeding it returns the id of that row, the first with the key,
and no error.  So after a call that returned no error, a second call for an entry with the
same key, the same entry among them, returns no error and leaves the table as the first call
left it. -/
theorem put_is_idempotent_per_key (db : DB) (m : ConnectorShardMetadata) :
    (∀ f : Faults,
        (∃ r ∈ db.rows, sameKey m.ConnectorTypeId m.Channel m.Revision r = true) →
        (PutConnectorShardMetadata f db m).db = db
        ∧ (f.first = Option.none →
            ∃ resource ∈ db.rows,
              sameKey m.ConnectorTypeId m.Channel m.Revision resource = true
              ∧ dbFirst db.rows m.ConnectorTypeId m.Channel m.Revision = some resource
              ∧ PutConnectorShardMetadata f db m
                = { id := resource.ID, err := Option.none, db := db, arg := m }))
    ∧ (∀ (f : Faults) (m2 : ConnectorShardMetadata),
        (PutConnectorShardMetadata f db m).err = Option.none →
        m2.ConnectorTypeId = m.ConnectorTypeId → m2.Channel = m.Channel →
        m2.Revision = m.Revision →
        (PutConnectorShardMetadata Faults.none (PutConnectorShardMetadata f db m).db m2).db
            = (PutConnectorShardMetadata f db m).db
        ∧ (PutConnectorShardMetadata Faults.none (PutConnectorShardMetadata f db m).db m2).err
            = Option.none) := by
  have hfound : ∀ (db0 : DB) (m0 : ConnectorShardMetadata),
      (∃ r ∈ db0.rows, sameKey m0.ConnectorTypeId m0.Channel m0.Revision r = true) →
      ∃ resource ∈ db0.rows,
        sameKey m0.ConnectorTypeId m0.Channel m0.Revision resource = true
        ∧ dbFirst db0.rows m0.ConnectorTypeId m0.Channel m0.Revision = some resource := by
    intro db0 m0 hex
    cases hfirst : dbFirst db0.rows m0.ConnectorTypeId m0.Channel m0.Revision with
    | none =>
      obtain ⟨r, hr, hk⟩ := hex
      have := (dbFirst_eq_none_iff _ _ _ _).mp hfirst r hr
      rw [hk] at this
      cases this
    | some resource =>
      exact ⟨resource, List.mem_of_find?_eq_some hfirst, by
        simpa using List.find?_some hfirst, rfl⟩
  constructor
  · intro f hex
    obtain ⟨resource, hmem, hkey, hfirst⟩ := hfound db m hex
    constructor
    · cases hf : f.first with
      | some e =>
        unfold PutConnectorShardMetadata
        simp only [hf]
      | none => rw [put_of_found f db m resource hf hfirst]
    · intro hf
      exact ⟨resource, hmem, hkey, hfirst, put_of_found f db m resource hf hfirst⟩
  · intro f m2 hok h1 h2 h3
    have hok2 := hok
    rw [put_success_eq f db m hok] at hok2 ⊢
    obtain ⟨r, hr, hk⟩ := put_success_has_key db m hok2
    rw [← h1, ← h2, ← h3] at hk
    obtain ⟨resource, _, _, hfirst⟩ := hfound _ m2 ⟨r, hr, hk⟩
    rw [put_of_found Faults.none _ m2 resource rfl hfirst]
    exact ⟨rfl, rfl⟩

/-- Revision 1 of the concrete group is put into the empty table, then once more: the table
is the one-row table after the first call and after the second. -/
theorem put_is_idempotent_per_key_witness :
    (PutConnectorShardMetadata Faults.none DB.empty (demoRow 1)).db = demoDB
    ∧ (PutConnectorShardMetadata Faults.none
        (PutConnectorShardMetadata Faults.none DB.empty (demoRow 1)).db (demoRow 1)).db
      = (PutConnectorShardMetadata Faults.none DB.empty (demoRow 1)).db
    ∧ (PutConnectorShardMetadata Faults.none demoDB (demoRow 1)).db = demoDB :=
  ⟨by decide,
    ((put_is_idempotent_per_key DB.empty (demoRow 1)).2 Faults.none (demoRow 1) (by decide)
      rfl rfl rfl).1,
    ((put_is_idempotent_per_key demoDB (demoRow 1)).1 Faults.none
      ⟨_, List.mem_singleton.mpr rfl, by decide⟩).1⟩

/-! ## The id returned -/

/-- C27, evaluated: `PutConnectorShardMetadata` returns `resource.ID`, and on the path that
inserts the row `resource` is the variable the failed `First` query left at its zero value.
Whenever the row is not there yet the call returns id 0; putting revision 1 into the empty
table stores the row with id 1 and returns 0, and the second call for the same entry returns
1, the id of the stored row. -/
theorem put_fresh_insert_returns_zero :
    (∀ (f : Faults) (db : DB) (m : ConnectorShardMetadata),
        dbFirst db.rows m.ConnectorTypeId m.Channel m.Revision = Option.none →
        (PutConnectorShardMetadata f db m).id = 0)
    ∧ (PutConnectorShardMetadata Faults.none DB.empty (demoRow 1)).err = Option.none
    ∧ (PutConnectorShardMetadata Faults.none DB.empty (demoRow 1)).id = 0
    ∧ (PutConnectorShardMetadata Faults.none DB.empty (demoRow 1)).db.rows
      = [{ ID := 1, ConnectorTypeId := "t", Channel := "stable", Revision := 1,
           LatestRevision := Option.none, ShardMetadata := "" }]
    ∧ (PutConnectorShardMetadata Faults.none
        (PutConnectorShardMetadata Faults.none DB.empty (demoRow 1)).db (demoRow 1)).err
      = Option.none
    ∧ (PutConnectorShardMetadata Faults.none
        (PutConnectorShardMetadata Faults.none DB.empty (demoRow 1)).db (demoRow 1)).id = 1 := by
  refine ⟨?_, by decide, by decide, by decide, by decide, by decide⟩
  intro f db m hfirst
  rcases f with ⟨f1, f2, f3, f4⟩
  unfold PutConnectorShardMetadata
  simp only [hfirst]
  cases f1 with
  | some e => rfl
  | none =>
    cases f2 with
    | some e => rfl
    | none =>
      simp only
      generalize (match dbMaxRevision db.rows m.ConnectorTypeId m.Channel with
        | some current =>
          if m.Revision < current then
            ({ m with LatestRevision := some current } : ConnectorShardMetadata)
          else { m with LatestRevision := Option.none }
        | Option.none => { m with LatestRevision := Option.none }) = w
      cases f3 with
      | some e => rfl
      | none =>
        cases hs : dbSave db w with
        | error e => rfl
        | ok p =>
          obtain ⟨db1, saved⟩ := p
          simp only
          by_cases hl : saved.LatestRevision = Option.none
          · simp only [if_pos hl]
            cases f4 <;> rfl
          · simp only [if_neg hl]

/-! ## The list of ids not to be deleted -/

/-- C30, evaluated: the list of lines 467-470 is made with the length of the catalog and then
appended to, so it starts with one empty string per catalog entry and has two elements per
entry.  For the catalog with the single type `a` it is `["", "a"]`: the empty string is in
the list, is the id of no catalog entry, and a used type with that id counts as in the latest
catalog for `getDeprecatedTypes`. -/
theorem not_to_be_deleted_list_is_padded :
    (∀ cfg : ConnectorsConfig,
        catalogNotToBeDeletedIDs cfg
            = List.replicate cfg.CatalogEntries.length "" ++ catalogIds cfg
        ∧ (catalogNotToBeDeletedIDs cfg).length = 2 * cfg.CatalogEntries.length)
    ∧ catalogNotToBeDeletedIDs demoConfig = ["", "a"]
    ∧ "" ∈ catalogNotToBeDeletedIDs demoConfig
    ∧ "" ∉ catalogIds demoConfig
    ∧ getDeprecatedTypes ["", "b"] (catalogNotToBeDeletedIDs demoConfig) = ["b"] := by
  refine ⟨?_, by decide, by decide, by decide, by decide⟩
  intro cfg
  refine ⟨catalogNotToBeDeletedIDs_eq cfg, ?_⟩
  rw [catalogNotToBeDeletedIDs_eq]
  simp [catalogIds]
  omega

/-! ## The latest-revision pointers -/

theorem sameKey_symm (a b : ConnectorShardMetadata) :
    sameKey a.ConnectorTypeId a.Channel a.Revision b
      = sameKey b.ConnectorTypeId b.Channel b.Revision a := by
  simp only [sameKey]
  rw [Bool.eq_iff_iff]
  simp only [Bool.and_eq_true, beq_iff_eq]
  constructor <;> rintro ⟨⟨h1, h2⟩, h3⟩ <;> exact ⟨⟨h1.symm, h2.symm⟩, h3.symm⟩

/-- In a table with unique keys two rows with the same key are the same row. -/
theorem eq_of_sameKey (rows : List ConnectorShardMetadata) (hu : UniqueKeys rows)
    (a b : ConnectorShardMetadata) (ha : a ∈ rows) (hb : b ∈ rows)
    (hk : sameKey a.ConnectorTypeId a.Channel a.Revision b = true) : a = b := by
  induction rows with
  | nil => cases ha
  | cons x l ih =>
    unfold UniqueKeys at hu
    rw [List.pairwise_cons] at hu
    obtain ⟨hx, hl⟩ := hu
    rcases List.mem_cons.mp ha with ha1 | ha1
    · rcases List.mem_cons.mp hb with hb1 | hb1
      · rw [ha1, hb1]
      · rw [ha1, hx b hb1] at hk
        cases hk
    · rcases List.mem_cons.mp hb with hb1 | hb1
      · rw [sameKey_symm, hb1, hx a ha1] at hk
        cases hk
      · exact ih hl ha1 hb1

theorem dbMaxRevision_iff (rows : List ConnectorShardMetadata) (typeId channel : String)
    (M : Int) :
    dbMaxRevision rows typeId channel = some M ↔
      (∃ r ∈ rows, sameGroup typeId channel r = true ∧ r.Revision = M)
        ∧ ∀ r ∈ rows, sameGroup typeId channel r = true → r.Revision ≤ M :=
  ⟨dbMaxRevision_spec rows typeId channel M,
    fun h => dbMaxRevision_eq_some rows typeId channel M h.1 h.2⟩

theorem dbMaxRevision_append_other (rows : List ConnectorShardMetadata)
    (n : ConnectorShardMetadata) (typeId channel : String)
    (h : sameGroup typeId channel n = false) :
    dbMaxRevision (rows ++ [n]) typeId channel = dbMaxRevision rows typeId channel := by
  simp [dbMaxRevision, List.filter_append, List.filter_cons, h]

theorem dbMaxRevision_update (rows : List ConnectorShardMetadata) (t0 c0 : String) (N : Int)
    (typeId channel : String) :
    dbMaxRevision (dbUpdateLatestRevision rows t0 c0 N) typeId channel
      = dbMaxRevision rows typeId channel := by
  unfold dbMaxRevision
  congr 1
  induction rows with
  | nil => simp [dbUpdateLatestRevision]
  | cons r l ih =>
    have hcons : dbUpdateLatestRevision (r :: l) t0 c0 N
        = (if sameGroup t0 c0 r && decide (r.Revision < N) then
            { r with LatestRevision := some N } else r)
          :: dbUpdateLatestRevision l t0 c0 N := by
      simp [dbUpdateLatestRevision]
    rw [hcons]
    by_cases hu : (sameGroup t0 c0 r && decide (r.Revision < N)) = true
    · rw [if_pos hu]
      have hg : sameGroup typeId channel { r with LatestRevision := some N }
          = sameGroup typeId channel r := rfl
      by_cases hr : sameGroup typeId channel r = true
      · rw [List.filter_cons_of_pos (by rw [hg]; exact hr), List.filter_cons_of_pos hr,
          List.map_cons, List.map_cons, ih]
      · rw [List.filter_cons_of_neg (by rw [hg]; exact hr), List.filter_cons_of_neg hr, ih]
    · rw [if_neg hu]
      by_cases hr : sameGroup typeId channel r = true
      · rw [List.filter_cons_of_pos hr, List.filter_cons_of_pos hr,
          List.map_cons, List.map_cons, ih]
      · rw [List.filter_cons_of_neg hr, List.filter_cons_of_neg hr, ih]

theorem dbMaxRevision_append_below (rows : List ConnectorShardMetadata)
    (n : ConnectorShardMetadata) (typeId channel : String) (M : Int)
    (hM : dbMaxRevision rows typeId channel = some M) (hle : n.Revision ≤ M) :
    dbMaxRevision (rows ++ [n]) typeId channel = some M := by
  obtain ⟨⟨r, hr, hg, hrev⟩, hall⟩ := dbMaxRevision_spec rows typeId channel M hM
  apply dbMaxRevision_eq_some
  · exact ⟨r, List.mem_append_left _ hr, hg, hrev⟩
  · intro r1 hr1 hg1
    rcases List.mem_append.mp hr1 with h | h
    · exact hall r1 h hg1
    · rw [List.mem_singleton.mp h]
      exact hle

theorem dbMaxRevision_append_top (rows : List ConnectorShardMetadata)
    (n : ConnectorShardMetadata) (typeId channel : String)
    (hg : sameGroup typeId channel n = true)
    (hlt : ∀ r ∈ rows, sameGroup typeId channel r = true → r.Revision < n.Revision) :
    dbMaxRevision (rows ++ [n]) typeId channel = some n.Revision := by
  apply dbMaxRevision_eq_some
  · exact ⟨n, List.mem_append_right _ (List.mem_singleton.mpr rfl), hg, rfl⟩
  · intro r1 hr1 hg1
    rcases List.mem_append.mp hr1 with h | h
    · exact le_of_lt (hlt r1 h hg1)
    · rw [List.mem_singleton.mp h]

/-- A call without failing statement that returns no error, for a key that is not in the
table and an entry that carries no `id` or an `id` no stored row has: the id the row is
stored under is the id of no stored row. -/
theorem put_insert_fresh_id (db : DB) (m : ConnectorShardMetadata)
    (hnew : ∀ r ∈ db.rows, sameKey m.ConnectorTypeId m.Channel m.Revision r = false)
    (hok : (PutConnectorShardMetadata Faults.none db m).err = Option.none)
    (hins : m.ID = 0 ∨ ∀ r ∈ db.rows, r.ID ≠ m.ID) :
    ∀ r ∈ db.rows, r.ID ≠ (withId db m).ID := by
  by_cases h0 : m.ID = 0
  · by_contra hcon
    have hex : ∃ r ∈ db.rows, r.ID = (withId db m).ID := by
      by_contra hno
      apply hcon
      intro r hr hrid
      exact hno ⟨r, hr, hrid⟩
    exact (put_taken_id db m hnew h0 hex).1 hok
  · have hw : withId db m = m := by simp [withId, h0]
    rw [hw]
    rcases hins with h | h
    · exact absurd h h0
    · exact h

/-- The call without failing statement that inserts a row, by cases: the new row lies below
the maximum of its group and points at it, or it lies above every row of its group and
becomes the current row. -/
theorem put_new_cases (db : DB) (m : ConnectorShardMetadata)
    (hnew : ∀ r ∈ db.rows, sameKey m.ConnectorTypeId m.Channel m.Revision r = false)
    (hid : ∀ r ∈ db.rows, r.ID ≠ (withId db m).ID) :
    (∃ M, dbMaxRevision db.rows m.ConnectorTypeId m.Channel = some M ∧ m.Revision < M
        ∧ (PutConnectorShardMetadata Faults.none db m).db.rows
          = db.rows ++ [withId db { m with LatestRevision := some M }])
    ∨ ((∀ r ∈ db.rows, sameGroup m.ConnectorTypeId m.Channel r = true →
          r.Revision < m.Revision)
        ∧ (PutConnectorShardMetadata Faults.none db m).db.rows
          = dbUpdateLatestRevision db.rows m.ConnectorTypeId m.Channel m.Revision
            ++ [withId db { m with LatestRevision := Option.none }]) := by
  by_cases hlt : ∃ M, dbMaxRevision db.rows m.ConnectorTypeId m.Channel = some M
      ∧ m.Revision < M
  · obtain ⟨M, hM, hlt⟩ := hlt
    left
    exact ⟨M, hM, hlt, by rw [put_below_max db m M hnew hM hlt hid]⟩
  · right
    have hmax : ∀ M, dbMaxRevision db.rows m.ConnectorTypeId m.Channel = some M →
        ¬ m.Revision < M := fun M hM h => hlt ⟨M, hM, h⟩
    constructor
    · intro r hr hg
      have hkey := hnew r hr
      rw [sameKey_eq, hg] at hkey
      have hne : r.Revision ≠ m.Revision := by simpa using hkey
      cases hM : dbMaxRevision db.rows m.ConnectorTypeId m.Channel with
      | none =>
        have hnil := (maxOf_eq_none_iff _).mp hM
        have hmem : r.Revision ∈ (db.rows.filter
            (sameGroup m.ConnectorTypeId m.Channel)).map fun r => r.Revision := by
          simp only [List.mem_map, List.mem_filter]
          exact ⟨r, ⟨hr, hg⟩, rfl⟩
        rw [hnil] at hmem
        cases hmem
      | some M =>
        have hle := (dbMaxRevision_spec _ _ _ M hM).2 r hr hg
        have := hmax M hM
        omega
    · rw [put_at_top db m hnew hmax hid]
      have h3 : (withId db { m with LatestRevision := Option.none }).Revision = m.Revision :=
        (withId_fields db _).2.2.1
      have := dbUpdateLatestRevision_append_new db.rows
        (withId db { m with LatestRevision := Option.none }) m.ConnectorTypeId m.Channel
      rw [h3] at this
      exact this

theorem mem_dbUpdateLatestRevision (rows : List ConnectorShardMetadata) (t0 c0 : String)
    (N : Int) (r1 : ConnectorShardMetadata)
    (h : r1 ∈ dbUpdateLatestRevision rows t0 c0 N) :
    ∃ r ∈ rows, r1.ConnectorTypeId = r.ConnectorTypeId ∧ r1.Channel = r.Channel
      ∧ r1.Revision = r.Revision
      ∧ ((sameGroup t0 c0 r = true ∧ r.Revision < N ∧ r1.LatestRevision = some N)
          ∨ (¬ (sameGroup t0 c0 r = true ∧ r.Revision < N) ∧ r1 = r)) := by
  unfold dbUpdateLatestRevision at h
  rw [List.mem_map] at h
  obtain ⟨r, hr, hr1⟩ := h
  refine ⟨r, hr, ?_⟩
  by_cases hu : (sameGroup t0 c0 r && decide (r.Revision < N)) = true
  · rw [if_pos hu] at hr1
    simp only [Bool.and_eq_true, decide_eq_true_eq] at hu
    rw [← hr1]
    exact ⟨rfl, rfl, rfl, Or.inl ⟨hu.1, hu.2, rfl⟩⟩
  · rw [if_neg hu] at hr1
    simp only [Bool.and_eq_true, decide_eq_true_eq] at hu
    rw [← hr1]
    exact ⟨rfl, rfl, rfl, Or.inr ⟨hu, rfl⟩⟩

/-- A successful call without failing statement that inserts keeps the keys unique. -/
theorem uniqueKeys_put (db : DB) (m : ConnectorShardMetadata) (hu : UniqueKeys db.rows)
    (hok : (PutConnectorShardMetadata Faults.none db m).err = Option.none)
    (hins : m.ID = 0 ∨ ∀ r ∈ db.rows, r.ID ≠ m.ID) :
    UniqueKeys (PutConnectorShardMetadata Faults.none db m).db.rows := by
  cases hfirst : dbFirst db.rows m.ConnectorTypeId m.Channel m.Revision with
  | some resource =>
    rw [put_of_found Faults.none db m resource rfl hfirst]
    exact hu
  | none =>
    have hnew := (dbFirst_eq_none_iff _ _ _ _).mp hfirst
    have hlast : ∀ (l : Option Int) (a : ConnectorShardMetadata),
        sameKey m.ConnectorTypeId m.Channel m.Revision a = false →
        sameKey a.ConnectorTypeId a.Channel a.Revision
          (withId db { m with LatestRevision := l }) = false := by
      intro l a ha
      obtain ⟨h1, h2, h3, _⟩ := withId_fields db { m with LatestRevision := l }
      rw [sameKey_symm, h1, h2, h3]
      exact ha
    rcases put_new_cases db m hnew (put_insert_fresh_id db m hnew hok hins)
      with ⟨M, _, _, h⟩ | ⟨_, h⟩
    · rw [h]
      unfold UniqueKeys
      rw [List.pairwise_append]
      refine ⟨hu, List.pairwise_singleton _ _, ?_⟩
      intro a ha b hb
      rw [List.mem_singleton.mp hb]
      exact hlast _ a (hnew a ha)
    · rw [h]
      unfold UniqueKeys
      rw [List.pairwise_append]
      refine ⟨?_, List.pairwise_singleton _ _, ?_⟩
      · unfold dbUpdateLatestRevision
        rw [List.pairwise_map]
        refine List.Pairwise.imp ?_ hu
        intro a b hab
        have hk : ∀ x : ConnectorShardMetadata,
            ((if sameGroup m.ConnectorTypeId m.Channel x && decide (x.Revision < m.Revision)
                then { x with LatestRevision := some m.Revision } else x).ConnectorTypeId
              = x.ConnectorTypeId)
            ∧ ((if sameGroup m.ConnectorTypeId m.Channel x && decide (x.Revision < m.Revision)
                then { x with LatestRevision := some m.Revision } else x).Channel = x.Channel)
            ∧ ((if sameGroup m.ConnectorTypeId m.Channel x && decide (x.Revision < m.Revision)
                then { x with LatestRevision := some m.Revision } else x).Revision
              = x.Revision) := by
          intro x
          split <;> exact ⟨rfl, rfl, rfl⟩
        simp only [sameKey, (hk a).1, (hk a).2.1, (hk a).2.2, (hk b).1, (hk b).2.1,
          (hk b).2.2]
        exact hab
      · intro a ha b hb
        rw [List.mem_singleton.mp hb]
        obtain ⟨r, hr, h1, h2, h3, _⟩ := mem_dbUpdateLatestRevision _ _ _ _ a ha
        have := hlast Option.none r (hnew r hr)
        simp only [sameKey, h1, h2, h3]
        exact this

theorem sameGroup_iff (typeId channel : String) (r : ConnectorShardMetadata) :
    sameGroup typeId channel r = true ↔ r.ConnectorTypeId = typeId ∧ r.Channel = channel := by
  simp [sameGroup]

/-- A successful call without failing statement that inserts keeps the latest-revision
pointers right. -/
theorem pointsAtLatest_put (db : DB) (m : ConnectorShardMetadata)
    (hinv : PointsAtLatest db.rows)
    (hok : (PutConnectorShardMetadata Faults.none db m).err = Option.none)
    (hins : m.ID = 0 ∨ ∀ r ∈ db.rows, r.ID ≠ m.ID) :
    PointsAtLatest (PutConnectorShardMetadata Faults.none db m).db.rows := by
  cases hfirst : dbFirst db.rows m.ConnectorTypeId m.Channel m.Revision with
  | some resource =>
    rw [put_of_found Faults.none db m resource rfl hfirst]
    exact hinv
  | none =>
    have hnew := (dbFirst_eq_none_iff _ _ _ _).mp hfirst
    rcases put_new_cases db m hnew (put_insert_fresh_id db m hnew hok hins)
      with ⟨M, hM, hlt, h⟩ | ⟨hall, h⟩
    · rw [h]
      have h1 : (withId db { m with LatestRevision := some M }).ConnectorTypeId
          = m.ConnectorTypeId := (withId_fields db _).1
      have h2 : (withId db { m with LatestRevision := some M }).Channel = m.Channel :=
        (withId_fields db _).2.1
      have h3 : (withId db { m with LatestRevision := some M }).Revision = m.Revision :=
        (withId_fields db _).2.2.1
      have h4 : (withId db { m with LatestRevision := some M }).LatestRevision = some M :=
        (withId_fields db _).2.2.2.1
      have hmax : dbMaxRevision (db.rows ++ [withId db { m with LatestRevision := some M }])
          m.ConnectorTypeId m.Channel = some M :=
        dbMaxRevision_append_below _ _ _ _ M hM (by rw [h3]; exact le_of_lt hlt)
      intro r hr M1 hM1
      rcases List.mem_append.mp hr with hr | hr
      · by_cases hg : sameGroup r.ConnectorTypeId r.Channel
            (withId db { m with LatestRevision := some M }) = true
        · rw [sameGroup_iff, h1, h2] at hg
          rw [← hg.1, ← hg.2, hmax] at hM1
          rw [hg.1, hg.2] at hM
          cases hM1
          exact hinv r hr M hM
        · rw [dbMaxRevision_append_other _ _ _ _ (by simpa using hg)] at hM1
          exact hinv r hr M1 hM1
      · rw [List.mem_singleton] at hr
        rw [hr, h1, h2, hmax] at hM1
        cases hM1
        rw [hr, h3, h4]
        constructor
        · intro heq
          omega
        · intro _
          rfl
    · rw [h]
      have h1 : (withId db { m with LatestRevision := Option.none }).ConnectorTypeId
          = m.ConnectorTypeId := (withId_fields db _).1
      have h2 : (withId db { m with LatestRevision := Option.none }).Channel = m.Channel :=
        (withId_fields db _).2.1
      have h3 : (withId db { m with LatestRevision := Option.none }).Revision = m.Revision :=
        (withId_fields db _).2.2.1
      have h4 : (withId db { m with LatestRevision := Option.none }).LatestRevision
          = Option.none := (withId_fields db _).2.2.2.1
      have hbelow : ∀ r1 ∈ dbUpdateLatestRevision db.rows m.ConnectorTypeId m.Channel
          m.Revision, sameGroup m.ConnectorTypeId m.Channel r1 = true →
          r1.Revision < (withId db { m with LatestRevision := Option.none }).Revision := by
        intro r1 hr1 hg1
        obtain ⟨r, hr, e1, e2, e3, _⟩ := mem_dbUpdateLatestRevision _ _ _ _ r1 hr1
        rw [h3, e3]
        apply hall r hr
        rw [sameGroup_iff] at hg1 ⊢
        rw [← e1, ← e2]
        exact hg1
      have hmax : dbMaxRevision
          (dbUpdateLatestRevision db.rows m.ConnectorTypeId m.Channel m.Revision
            ++ [withId db { m with LatestRevision := Option.none }])
          m.ConnectorTypeId m.Channel = some m.Revision := by
        have htop := dbMaxRevision_append_top _ _ _ _ ((sameGroup_iff _ _ _).mpr ⟨h1, h2⟩)
          hbelow
        rw [h3] at htop
        exact htop
      intro r1 hr1 M1 hM1
      rcases List.mem_append.mp hr1 with hr1 | hr1
      · obtain ⟨r, hr, e1, e2, e3, hupd⟩ := mem_dbUpdateLatestRevision _ _ _ _ r1 hr1
        by_cases hg : sameGroup m.ConnectorTypeId m.Channel r = true
        · have hg2 := (sameGroup_iff _ _ _).mp hg
          rw [e1, e2, hg2.1, hg2.2, hmax] at hM1
          cases hM1
          have hrlt := hall r hr hg
          rcases hupd with ⟨_, _, hl⟩ | ⟨hno, _⟩
          · rw [e3, hl]
            constructor
            · intro heq
              omega
            · intro _
              rfl
          · exact absurd ⟨hg, hrlt⟩ hno
        · have hother : sameGroup r1.ConnectorTypeId r1.Channel
              (withId db { m with LatestRevision := Option.none }) = false := by
            rw [Bool.eq_false_iff]
            intro hc
            apply hg
            rw [sameGroup_iff] at hc ⊢
            rw [h1, h2, e1, e2] at hc
            exact ⟨hc.1.symm, hc.2.symm⟩
          rw [dbMaxRevision_append_other _ _ _ _ hother, dbMaxRevision_update] at hM1
          rcases hupd with ⟨hg1, _, _⟩ | ⟨_, heq⟩
          · exact absurd hg1 hg
          · rw [heq] at hM1 ⊢
            exact hinv r hr M1 hM1
      · rw [List.mem_singleton] at hr1
        rw [hr1, h1, h2, hmax] at hM1
        cases hM1
        rw [hr1, h3, h4]
        constructor
        · intro _
          rfl
        · intro hne
          exact absurd rfl hne

theorem comesBefore_le (r b : ConnectorShardMetadata) (h : comesBefore r b = true) :
    b.Revision ≤ r.Revision := by
  simp only [comesBefore, Bool.or_eq_true, Bool.and_eq_true, decide_eq_true_eq,
    beq_iff_eq] at h
  rcases h with h | ⟨h, _⟩
  · exact le_of_lt h
  · exact le_of_eq h

theorem not_comesBefore_le (r b : ConnectorShardMetadata) (h : ¬ comesBefore r b = true) :
    r.Revision ≤ b.Revision := by
  simp only [comesBefore, Bool.or_eq_true, Bool.and_eq_true, decide_eq_true_eq,
    beq_iff_eq, not_or] at h
  exact not_lt.mp h.1

/-- The fold of `dbFirstByRevisionDesc`: the result is a row of greatest revision. -/
theorem foldl_best_spec (l : List ConnectorShardMetadata)
    (best : Option ConnectorShardMetadata) :
    (∀ x, l.foldl
          (fun best r =>
            match best with
            | Option.none => some r
            | some b => if comesBefore r b then some r else some b) best = some x →
        (x ∈ l ∨ best = some x) ∧ (∀ y ∈ l, y.Revision ≤ x.Revision)
          ∧ ∀ b, best = some b → b.Revision ≤ x.Revision)
    ∧ (l.foldl
          (fun best r =>
            match best with
            | Option.none => some r
            | some b => if comesBefore r b then some r else some b) best = Option.none →
        best = Option.none ∧ l = []) := by
  induction l generalizing best with
  | nil =>
    constructor
    · intro x hx
      simp only [List.foldl_nil] at hx
      refine ⟨Or.inr hx, by simp, ?_⟩
      intro b hb
      rw [hx] at hb
      cases hb
      exact le_refl _
    · intro hx
      exact ⟨hx, rfl⟩
  | cons r l ih =>
    simp only [List.foldl_cons]
    cases best with
    | none =>
      obtain ⟨ih1, ih2⟩ := ih (some r)
      constructor
      · intro x hx
        obtain ⟨hmem, hle, hb⟩ := ih1 x hx
        refine ⟨Or.inl ?_, ?_, by simp⟩
        · rcases hmem with h | h
          · exact List.mem_cons_of_mem _ h
          · cases h
            exact List.mem_cons_self _ _
        · intro y hy
          rcases List.mem_cons.mp hy with h | h
          · rw [h]
            exact hb r rfl
          · exact hle y h
      · intro hx
        have := (ih2 hx).1
        cases this
    | some b =>
      by_cases hlt : comesBefore r b = true
      · simp only [if_pos hlt]
        have hbr := comesBefore_le r b hlt
        obtain ⟨ih1, ih2⟩ := ih (some r)
        constructor
        · intro x hx
          obtain ⟨hmem, hle, hb⟩ := ih1 x hx
          have hrx := hb r rfl
          refine ⟨Or.inl ?_, ?_, ?_⟩
          · rcases hmem with h | h
            · exact List.mem_cons_of_mem _ h
            · cases h
              exact List.mem_cons_self _ _
          · intro y hy
            rcases List.mem_cons.mp hy with h | h
            · rw [h]
              exact hrx
            · exact hle y h
          · intro b1 hb1
            cases hb1
            omega
        · intro hx
          have := (ih2 hx).1
          cases this
      · simp only [if_neg hlt]
        have hrb := not_comesBefore_le r b hlt
        obtain ⟨ih1, ih2⟩ := ih (some b)
        constructor
        · intro x hx
          obtain ⟨hmem, hle, hb⟩ := ih1 x hx
          have hbx := hb b rfl
          refine ⟨?_, ?_, ?_⟩
          · rcases hmem with h | h
            · exact Or.inl (List.mem_cons_of_mem _ h)
            · exact Or.inr h
          · intro y hy
            rcases List.mem_cons.mp hy with h | h
            · rw [h]
              omega
            · exact hle y h
          · intro b1 hb1
            cases hb1
            exact hbx
        · intro hx
          have := (ih2 hx).1
          cases this

/-- With a type id and a channel that are not empty the struct condition is the condition
on both columns. -/
theorem structCondition_eq_sameGroup (typeId channel : String) (r : ConnectorShardMetadata)
    (ht : typeId ≠ "") (hc : channel ≠ "") :
    structCondition typeId channel r = sameGroup typeId channel r := by
  have h1 : (typeId == "") = false := by simpa using ht
  have h2 : (channel == "") = false := by simpa using hc
  simp [structCondition, sameGroup, h1, h2]

/-- What the query of `GetLatestConnectorShardMetadata` returns: nothing when no row meets
the condition, otherwise a row that meets it, with the greatest revision of those that
do. -/
theorem dbFirstByRevisionDesc_spec (rows : List ConnectorShardMetadata)
    (typeId channel : String) :
    (∀ x, dbFirstByRevisionDesc rows typeId channel = some x →
        x ∈ rows ∧ structCondition typeId channel x = true
          ∧ ∀ y ∈ rows, structCondition typeId channel y = true → y.Revision ≤ x.Revision)
    ∧ (dbFirstByRevisionDesc rows typeId channel = Option.none →
        ∀ y ∈ rows, structCondition typeId channel y = false) := by
  obtain ⟨h1, h2⟩ := foldl_best_spec (rows.filter (structCondition typeId channel)) Option.none
  constructor
  · intro x hx
    obtain ⟨hmem, hle, _⟩ := h1 x hx
    rcases hmem with hmem | hmem
    · rw [List.mem_filter] at hmem
      refine ⟨hmem.1, hmem.2, ?_⟩
      intro y hy hg
      exact hle y (List.mem_filter.mpr ⟨hy, hg⟩)
    · cases hmem
  · intro hx y hy
    have hnil := (h2 hx).2
    rw [List.filter_eq_nil_iff] at hnil
    simpa using hnil y hy

/-- The tables reachable from the empty table by calls that insert have unique keys and
right pointers. -/
theorem reachable_invariants (db : DB) (hreach : ReachableByInserts db) :
    UniqueKeys db.rows ∧ PointsAtLatest db.rows := by
  induction hreach with
  | empty =>
    constructor
    · exact List.Pairwise.nil
    · intro r hr
      cases hr
  | put f db m _ hok hins ih =>
    have hok2 := hok
    rw [put_success_eq f db m hok] at hok2 ⊢
    exact ⟨uniqueKeys_put db m ih.1 hok2 hins, pointsAtLatest_put db m ih.2 hok2 hins⟩

/-- C25 fails as stated, twice.  An entry that carries the `id` of a stored row is not
inserted: `Save` overwrites the stored row.  Revision 0 put with the id of the one row of
the table, of revision 1, leaves the one row of revision 0 pointing at revision 1, the
maximum of its group being 0.  And `GetLatestConnectorShardMetadata` with an empty channel
puts no condition on the channel: with a row of channel "stable", revision 5, and a row of
channel "", revision 1, both of type "t", the group ("t", "") has a row, and the call
returns the row of channel "stable". -/
theorem reachable_points_at_latest_fails :
    (Reachable (PutConnectorShardMetadata Faults.none demoDB { demoRow 0 with ID := 1 }).db
      ∧ (PutConnectorShardMetadata Faults.none demoDB { demoRow 0 with ID := 1 }).db.rows
          = [{ ID := 1, ConnectorTypeId := "t", Channel := "stable", Revision := 0,
               LatestRevision := some 1, ShardMetadata := "" }]
      ∧ ¬ PointsAtLatest
          (PutConnectorShardMetadata Faults.none demoDB { demoRow 0 with ID := 1 }).db.rows)
    ∧ (ReachableByInserts
          (PutConnectorShardMetadata Faults.none
            (PutConnectorShardMetadata Faults.none DB.empty (demoRow 5)).db
            { demoRow 1 with Channel := "" }).db
      ∧ (PutConnectorShardMetadata Faults.none
            (PutConnectorShardMetadata Faults.none DB.empty (demoRow 5)).db
            { demoRow 1 with Channel := "" }).db.rows
          = [{ ID := 1, ConnectorTypeId := "t", Channel := "stable", Revision := 5,
               LatestRevision := Option.none, ShardMetadata := "" },
             { ID := 2, ConnectorTypeId := "t", Channel := "", Revision := 1,
               LatestRevision := Option.none, ShardMetadata := "" }]
      ∧ (∃ r ∈ (PutConnectorShardMetadata Faults.none
            (PutConnectorShardMetadata Faults.none DB.empty (demoRow 5)).db
            { demoRow 1 with Channel := "" }).db.rows,
          sameGroup "t" "" r = true)
      ∧ GetLatestConnectorShardMetadata Option.none
          (PutConnectorShardMetadata Faults.none
            (PutConnectorShardMetadata Faults.none DB.empty (demoRow 5)).db
            { demoRow 1 with Channel := "" }).db "t" ""
        = Except.ok { ID := 1, ConnectorTypeId := "t", Channel := "stable", Revision := 5,
                      LatestRevision := Option.none, ShardMetadata := "" }) := by
  refine ⟨⟨?_, by decide, ?_⟩, ?_, by decide, ?_, rfl⟩
  · exact Reachable.put Faults.none demoDB { demoRow 0 with ID := 1 }
      (Reachable.put Faults.none DB.empty (demoRow 1) Reachable.empty (by decide))
      (by decide)
  · intro h
    have hrows : (PutConnectorShardMetadata Faults.none demoDB
        { demoRow 0 with ID := 1 }).db.rows
        = [{ ID := 1, ConnectorTypeId := "t", Channel := "stable", Revision := 0,
             LatestRevision := some 1, ShardMetadata := "" }] := by decide
    rw [hrows] at h
    have h2 := (h _ (List.mem_singleton.mpr rfl) 0 (by decide)).1 rfl
    cases h2
  · exact ReachableByInserts.put Faults.none _ { demoRow 1 with Channel := "" }
      (ReachableByInserts.put Faults.none DB.empty (demoRow 5) ReachableByInserts.empty
        (by decide) (Or.inl rfl))
      (by decide) (Or.inl rfl)
  · exact ⟨{ demoRow 1 with ID := 2, Channel := "" }, by decide, by decide⟩

/-- C25, amended.  In every table reachable from the empty table by successful calls of
`PutConnectorShardMetadata`, one after the other, for entries that carry no `id` or an `id`
no stored row has: no two rows have the same type, channel and revision; in every group the
row with the maximum revision has `LatestRevision == nil` and every other row of the group
has `LatestRevision` equal to that maximum.  So for a group that has a row and whose type id
and channel are not empty, `GetLatestConnectorShardMetadata`, its query succeeding, returns
a row of the group, the one with the maximum revision, whose `LatestRevision` is nil, and it
is the only row of the group whose `LatestRevision` is nil. -/
theorem reachable_points_at_latest (db : DB) (hreach : ReachableByInserts db) :
    (List.Pairwise (fun a b => sameKey a.ConnectorTypeId a.Channel a.Revision b = false)
        db.rows)
    ∧ (∀ typeId channel M, dbMaxRevision db.rows typeId channel = some M ↔
        (∃ r ∈ db.rows, sameGroup typeId channel r = true ∧ r.Revision = M)
          ∧ ∀ r ∈ db.rows, sameGroup typeId channel r = true → r.Revision ≤ M)
    ∧ (∀ r ∈ db.rows, ∀ M, dbMaxRevision db.rows r.ConnectorTypeId r.Channel = some M →
        (r.Revision = M → r.LatestRevision = Option.none)
        ∧ (r.Revision ≠ M → r.LatestRevision = some M))
    ∧ (∀ typeId channel, typeId ≠ "" → channel ≠ "" →
        (∃ r ∈ db.rows, sameGroup typeId channel r = true) →
        ∃ latest,
          GetLatestConnectorShardMetadata Option.none db typeId channel = Except.ok latest
          ∧ latest ∈ db.rows ∧ sameGroup typeId channel latest = true
          ∧ dbMaxRevision db.rows typeId channel = some latest.Revision
          ∧ latest.LatestRevision = Option.none
          ∧ ∀ r ∈ db.rows, sameGroup typeId channel r = true →
              r.LatestRevision = Option.none → r = latest) := by
  obtain ⟨hu, hinv⟩ := reachable_invariants db hreach
  refine ⟨hu, fun t c M => dbMaxRevision_iff db.rows t c M, hinv, ?_⟩
  intro typeId channel ht hc hex
  obtain ⟨hsome, hnone⟩ := dbFirstByRevisionDesc_spec db.rows typeId channel
  cases hq : dbFirstByRevisionDesc db.rows typeId channel with
  | none =>
    obtain ⟨r, hr, hg⟩ := hex
    have := hnone hq r hr
    rw [structCondition_eq_sameGroup typeId channel r ht hc, hg] at this
    cases this
  | some x =>
    obtain ⟨hx, hgx, hle⟩ := hsome x hq
    rw [structCondition_eq_sameGroup typeId channel x ht hc] at hgx
    have hle2 : ∀ y ∈ db.rows, sameGroup typeId channel y = true →
        y.Revision ≤ x.Revision := by
      intro y hy hg
      apply hle y hy
      rw [structCondition_eq_sameGroup typeId channel y ht hc]
      exact hg
    have hmax : dbMaxRevision db.rows typeId channel = some x.Revision :=
      dbMaxRevision_eq_some db.rows typeId channel x.Revision ⟨x, hx, hgx, rfl⟩ hle2
    have hgx2 := (sameGroup_iff _ _ _).mp hgx
    have hxl : x.LatestRevision = Option.none := by
      have hm := hmax
      rw [← hgx2.1, ← hgx2.2] at hm
      exact (hinv x hx x.Revision hm).1 rfl
    refine ⟨x, ?_, hx, hgx, hmax, hxl, ?_⟩
    · unfold GetLatestConnectorShardMetadata
      simp only [hq]
    · intro r hr hg hl
      have hg2 := (sameGroup_iff _ _ _).mp hg
      have hm := hmax
      rw [← hg2.1, ← hg2.2] at hm
      have hrev : r.Revision = x.Revision := by
        by_contra hne
        have := (hinv r hr x.Revision hm).2 hne
        rw [hl] at this
        cases this
      apply eq_of_sameKey db.rows hu r x hr hx
      simp [sameKey, hgx2.1, hgx2.2, hg2.1, hg2.2, hrev]

/-- Revisions 1, 3 and 2 of the concrete group are put into the empty table, in that order:
the latest entry is the row of revision 3, and the rows of revisions 1 and 2 point at 3. -/
theorem reachable_points_at_latest_witness :
    GetLatestConnectorShardMetadata Option.none
        (PutConnectorShardMetadata Faults.none
          (PutConnectorShardMetadata Faults.none demoDB (demoRow 3)).db (demoRow 2)).db
        "t" "stable"
      = Except.ok { ID := 2, ConnectorTypeId := "t", Channel := "stable", Revision := 3,
                    LatestRevision := Option.none, ShardMetadata := "" }
    ∧ (PutConnectorShardMetadata Faults.none
          (PutConnectorShardMetadata Faults.none demoDB (demoRow 3)).db (demoRow 2)).db.rows
      = [{ ID := 1, ConnectorTypeId := "t", Channel := "stable", Revision := 1,
           LatestRevision := some 3, ShardMetadata := "" },
         { ID := 2, ConnectorTypeId := "t", Channel := "stable", Revision := 3,
           LatestRevision := Option.none, ShardMetadata := "" },
         { ID := 3, ConnectorTypeId := "t", Channel := "stable", Revision := 2,
           LatestRevision := some 3, ShardMetadata := "" }]
    ∧ List.Pairwise (fun a b => sameKey a.ConnectorTypeId a.Channel a.Revision b = false)
        (PutConnectorShardMetadata Faults.none
          (PutConnectorShardMetadata Faults.none demoDB (demoRow 3)).db (demoRow 2)).db.rows :=
  ⟨rfl, by decide,
    (reachable_points_at_latest _
      (ReachableByInserts.put Faults.none _ (demoRow 2)
        (ReachableByInserts.put Faults.none demoDB (demoRow 3)
          (ReachableByInserts.put Faults.none DB.empty (demoRow 1) ReachableByInserts.empty
            (by decide) (Or.inl rfl))
          (by decide) (Or.inl rfl))
        (by decide) (Or.inl rfl))).1⟩

end Services

namespace KafkaHandlers

/-! ## The admin update of a Kafka request: properties -/

theorem update_of_status_rejected (env : UpdateEnv) (stored : KafkaRequest)
    (req : KafkaUpdateRequest)
    (h : nextStatus env stored req.Suspended = Except.error ErrorKind.validation) :
    Update env stored req = rejected ErrorKind.validation stored := by
  unfold Update
  split
  · rfl
  · rw [h]

theorem update_of_accepted (env : UpdateEnv) (stored : KafkaRequest)
    (req : KafkaUpdateRequest) (status : KafkaStatus)
    (hk : req.KafkaVersion = "") (hs : req.StrimziVersion = "") (hi : req.KafkaIbpVersion = "")
    (hn : nextStatus env stored req.Suspended = Except.ok status)
    (hv : env.otherValidation stored req = Option.none)
    (hp : ∀ k, env.persist k = Option.none) :
    Update env stored req
      = { status := 200, err := Option.none, stored := { stored with Status := status } } := by
  unfold Update
  simp [versionRejected, hk, hs, hi, hn, hv, hp]

/-- C16. A suspend request on a request in status `ready` that sets nothing else, passes the
other validations and is persisted, succeeds and yields status `suspending`; on a request in
any other status, `deprovision`, `deleting`, `suspending` and `suspended` among them, it fails
with a validation error, HTTP 400, and the stored request is as before. -/
theorem suspend_only_from_ready (env : UpdateEnv) (stored : KafkaRequest)
    (req : KafkaUpdateRequest) (hsusp : req.Suspended = some true) :
    (stored.Status = KafkaStatus.ready →
        req.KafkaVersion = "" → req.StrimziVersion = "" → req.KafkaIbpVersion = "" →
        env.otherValidation stored req = Option.none → (∀ k, env.persist k = Option.none) →
        (Update env stored req).status = 200 ∧ (Update env stored req).err = Option.none
          ∧ (Update env stored req).stored
              = { stored with Status := KafkaStatus.suspending })
    ∧ (stored.Status ≠ KafkaStatus.ready →
        (Update env stored req).status = 400
          ∧ (Update env stored req).err = some ErrorKind.validation
          ∧ (Update env stored req).stored = stored)
    ∧ ((stored.Status = KafkaStatus.deprovision ∨ stored.Status = KafkaStatus.deleting
          ∨ stored.Status = KafkaStatus.suspending ∨ stored.Status = KafkaStatus.suspended) →
        (Update env stored req).status = 400
          ∧ (Update env stored req).err = some ErrorKind.validation
          ∧ (Update env stored req).stored.Status = stored.Status) := by
  have hfail : stored.Status ≠ KafkaStatus.ready →
      (Update env stored req).status = 400
        ∧ (Update env stored req).err = some ErrorKind.validation
        ∧ (Update env stored req).stored = stored := by
    intro hne
    have hn : nextStatus env stored req.Suspended = Except.error ErrorKind.validation := by
      rw [hsusp]
      simp [nextStatus, hne]
    rw [update_of_status_rejected env stored req hn]
    exact ⟨rfl, rfl, rfl⟩
  refine ⟨?_, hfail, ?_⟩
  · intro hready hk hs hi hv hp
    have hn : nextStatus env stored req.Suspended = Except.ok KafkaStatus.suspending := by
      rw [hsusp]
      simp [nextStatus, hready]
    rw [update_of_accepted env stored req _ hk hs hi hn hv hp]
    exact ⟨rfl, rfl, rfl⟩
  · intro hst
    have hne : stored.Status ≠ KafkaStatus.ready := by
      rcases hst with h | h | h | h <;> rw [h] <;> decide
    obtain ⟨h1, h2, h3⟩ := hfail hne
    exact ⟨h1, h2, by rw [h3]⟩

/-- The cases of the test of the handler: `ready` is suspended, `deprovision` is not. -/
theorem suspend_only_from_ready_witness :
    ((Update (demoEnv 0 0) (demoKafka KafkaStatus.ready Option.none)
        (suspendedBody true)).status = 200
      ∧ (Update (demoEnv 0 0) (demoKafka KafkaStatus.ready Option.none)
        (suspendedBody true)).err = Option.none
      ∧ (Update (demoEnv 0 0) (demoKafka KafkaStatus.ready Option.none)
        (suspendedBody true)).stored
          = { demoKafka KafkaStatus.ready Option.none with Status := KafkaStatus.suspending })
    ∧ ((Update (demoEnv 0 0) (demoKafka KafkaStatus.deprovision Option.none)
        (suspendedBody true)).status = 400
      ∧ (Update (demoEnv 0 0) (demoKafka KafkaStatus.deprovision Option.none)
        (suspendedBody true)).err = some ErrorKind.validation
      ∧ (Update (demoEnv 0 0) (demoKafka KafkaStatus.deprovision Option.none)
        (suspendedBody true)).stored.Status = KafkaStatus.deprovision) :=
  ⟨(suspend_only_from_ready (demoEnv 0 0) (demoKafka KafkaStatus.ready Option.none)
      (suspendedBody true) rfl).1 rfl rfl rfl rfl rfl (fun _ => rfl),
    (suspend_only_from_ready (demoEnv 0 0) (demoKafka KafkaStatus.deprovision Option.none)
      (suspendedBody true) rfl).2.2 (Or.inl rfl)⟩

/-- C17. A resume request on a `suspended` request that sets nothing else, passes the other
validations and is persisted, succeeds and yields status `resuming`, not `ready`, when no
expiry is set, whatever the grace period, or when the current time is before the expiry minus
the grace period of the instance type and billing model of the request.  When an expiry is
set and the current time is within the grace period before it, the request fails with a
validation error, HTTP 400, and the stored request, still `suspended`, is as before. -/
theorem resume_respects_grace_period (env : UpdateEnv) (stored : KafkaRequest)
    (req : KafkaUpdateRequest) (hres : req.Suspended = some false)
    (hst : stored.Status = KafkaStatus.suspended) :
    ((stored.ExpiresAt = Option.none
          ∨ ∃ expiresAt, stored.ExpiresAt = some expiresAt ∧
              env.now < expiresAt
                - (env.gracePeriodDays stored.InstanceType stored.ActualKafkaBillingModel : Int)
                  * 86400) →
        req.KafkaVersion = "" → req.StrimziVersion = "" → req.KafkaIbpVersion = "" →
        env.otherValidation stored req = Option.none → (∀ k, env.persist k = Option.none) →
        (Update env stored req).status = 200 ∧ (Update env stored req).err = Option.none
          ∧ (Update env stored req).stored = { stored with Status := KafkaStatus.resuming }
          ∧ (Update env stored req).stored.Status ≠ KafkaStatus.ready)
    ∧ (∀ expiresAt, stored.ExpiresAt = some expiresAt →
        expiresAt
            - (env.gracePeriodDays stored.InstanceType stored.ActualKafkaBillingModel : Int)
              * 86400 ≤ env.now →
        env.now ≤ expiresAt →
        (Update env stored req).status = 400
          ∧ (Update env stored req).err = some ErrorKind.validation
          ∧ (Update env stored req).stored = stored
          ∧ (Update env stored req).stored.Status = KafkaStatus.suspended) := by
  constructor
  · intro hexp hk hs hi hv hp
    have hn : nextStatus env stored req.Suspended = Except.ok KafkaStatus.resuming := by
      rw [hres]
      rcases hexp with h | ⟨e, h, hlt⟩
      · simp [nextStatus, hst, h]
      · have hw : withinGracePeriod env.now e
            (env.gracePeriodDays stored.InstanceType stored.ActualKafkaBillingModel)
            = false := by
          unfold withinGracePeriod
          have : ¬ (e - (env.gracePeriodDays stored.InstanceType
              stored.ActualKafkaBillingModel : Int) * 86400 ≤ env.now) := by omega
          simp [this]
        simp [nextStatus, hst, h, hw]
    rw [update_of_accepted env stored req _ hk hs hi hn hv hp]
    exact ⟨rfl, rfl, rfl, by simp⟩
  · intro e he h1 h2
    have hw : withinGracePeriod env.now e
        (env.gracePeriodDays stored.InstanceType stored.ActualKafkaBillingModel) = true := by
      unfold withinGracePeriod
      simp [h1, h2]
    have hn : nextStatus env stored req.Suspended = Except.error ErrorKind.validation := by
      rw [hres]
      simp [nextStatus, hst, he, hw]
    rw [update_of_status_rejected env stored req hn]
    exact ⟨rfl, rfl, rfl, hst⟩

/-- The cases of the test of the handler, at time 1000000: with an expiry 48 hours ahead and
a grace period of 10 days the resume fails; with an expiry 240 hours ahead and a grace period
of 2 days, and with no expiry and a grace period of 10 days, it succeeds. -/
theorem resume_respects_grace_period_witness :
    ((Update (demoEnv 1000000 10)
        (demoKafka KafkaStatus.suspended (some (1000000 + 48 * 3600)))
        (suspendedBody false)).status = 400
      ∧ (Update (demoEnv 1000000 10)
        (demoKafka KafkaStatus.suspended (some (1000000 + 48 * 3600)))
        (suspendedBody false)).stored.Status = KafkaStatus.suspended)
    ∧ ((Update (demoEnv 1000000 2)
        (demoKafka KafkaStatus.suspended (some (1000000 + 240 * 3600)))
        (suspendedBody false)).status = 200
      ∧ (Update (demoEnv 1000000 2)
        (demoKafka KafkaStatus.suspended (some (1000000 + 240 * 3600)))
        (suspendedBody false)).stored.Status = KafkaStatus.resuming)
    ∧ ((Update (demoEnv 1000000 10) (demoKafka KafkaStatus.suspended Option.none)
        (suspendedBody false)).status = 200
      ∧ (Update (demoEnv 1000000 10) (demoKafka KafkaStatus.suspended Option.none)
        (suspendedBody false)).stored.Status = KafkaStatus.resuming) :=
  ⟨⟨((resume_respects_grace_period (demoEnv 1000000 10)
          (demoKafka KafkaStatus.suspended (some (1000000 + 48 * 3600))) (suspendedBody false)
          rfl rfl).2 (1000000 + 48 * 3600) rfl (by decide) (by decide)).1,
      ((resume_respects_grace_period (demoEnv 1000000 10)
          (demoKafka KafkaStatus.suspended (some (1000000 + 48 * 3600))) (suspendedBody false)
          rfl rfl).2 (1000000 + 48 * 3600) rfl (by decide) (by decide)).2.2.2⟩,
    ⟨by decide, by decide⟩,
    ⟨((resume_respects_grace_period (demoEnv 1000000 10)
          (demoKafka KafkaStatus.suspended Option.none) (suspendedBody false)
          rfl rfl).1 (Or.inl rfl) rfl rfl rfl rfl (fun _ => rfl)).1,
      by decide⟩⟩

/-- C18. A resume request is legal only from status `suspended`: on a request in any other
status, `ready` and `suspending` among them, it fails with a validation error, HTTP 400, and
the stored request is as before. -/
theorem resume_only_from_suspended (env : UpdateEnv) (stored : KafkaRequest)
    (req : KafkaUpdateRequest) (hres : req.Suspended = some false)
    (hst : stored.Status ≠ KafkaStatus.suspended) :
    (Update env stored req).status = 400
    ∧ (Update env stored req).err = some ErrorKind.validation
    ∧ (Update env stored req).stored = stored
    ∧ ((stored.Status = KafkaStatus.ready ∨ stored.Status = KafkaStatus.suspending) →
        (Update env stored req).stored.Status = stored.Status) := by
  have hn : nextStatus env stored req.Suspended = Except.error ErrorKind.validation := by
    rw [hres]
    simp [nextStatus, hst]
  rw [update_of_status_rejected env stored req hn]
  exact ⟨rfl, rfl, rfl, fun _ => rfl⟩

/-- The cases of the test of the handler: a `ready` and a `suspending` request are not
resumed. -/
theorem resume_only_from_suspended_witness :
    ((Update (demoEnv 0 0) (demoKafka KafkaStatus.ready Option.none)
        (suspendedBody false)).status = 400
      ∧ (Update (demoEnv 0 0) (demoKafka KafkaStatus.ready Option.none)
        (suspendedBody false)).stored = demoKafka KafkaStatus.ready Option.none)
    ∧ (Update (demoEnv 0 0) (demoKafka KafkaStatus.suspending Option.none)
        (suspendedBody false)).status = 400 :=
  ⟨⟨(resume_only_from_suspended (demoEnv 0 0) (demoKafka KafkaStatus.ready Option.none)
        (suspendedBody false) rfl (by decide)).1,
      (resume_only_from_suspended (demoEnv 0 0) (demoKafka KafkaStatus.ready Option.none)
        (suspendedBody false) rfl (by decide)).2.2.1⟩,
    (resume_only_from_suspended (demoEnv 0 0) (demoKafka KafkaStatus.suspending Option.none)
      (suspendedBody false) rfl (by decide)).1⟩

end KafkaHandlers

namespace ConnectorHandlers

/-! ## Lemmas on the store of connectors -/

theorem find_after_replace (store : List Connector) (c c1 : Connector)
    (hfind : store.find? (fun c0 => c0.ID == c.ID) = some c) (hid : c1.ID = c.ID) :
    (store.map fun c0 => if c0.ID == c1.ID then c1 else c0).find? (fun c0 => c0.ID == c.ID)
      = some c1 := by
  induction store with
  | nil => simp at hfind
  | cons x store ih =>
    rw [List.find?_cons] at hfind
    rw [List.map_cons, List.find?_cons]
    by_cases hx : x.ID = c.ID
    · have h1 : (x.ID == c1.ID) = true := by simp [hx, hid]
      have h2 : (c1.ID == c.ID) = true := by simp [hid]
      simp [h1, h2]
    · have h1 : (x.ID == c1.ID) = false := by simp [hx, hid]
      have h2 : (x.ID == c.ID) = false := by simp [hx]
      rw [h2] at hfind
      simp only [h1, Bool.false_eq_true, if_false, h2]
      exact ih hfind

/-! ## Lemmas on `StringListSubtract` -/

theorem mem_foldl_insert_end (l acc : List String) (x : String) :
    x ∈ l.foldl (fun m y => if y ∈ m then m else m ++ [y]) acc ↔ x ∈ acc ∨ x ∈ l := by
  induction l generalizing acc with
  | nil => simp
  | cons y l ih =>
    rw [List.foldl_cons, ih]
    by_cases hy : y ∈ acc
    · rw [if_pos hy]
      constructor
      · rintro (h | h)
        · exact Or.inl h
        · exact Or.inr (List.mem_cons_of_mem _ h)
      · rintro (h | h)
        · exact Or.inl h
        · rcases List.mem_cons.mp h with h | h
          · subst h
            exact Or.inl hy
          · exact Or.inr h
    · rw [if_neg hy]
      simp only [List.mem_append, List.mem_singleton, List.mem_cons]
      tauto

theorem nodup_foldl_insert_end (l acc : List String) (hacc : acc.Nodup) :
    (l.foldl (fun m y => if y ∈ m then m else m ++ [y]) acc).Nodup := by
  induction l generalizing acc with
  | nil => simpa using hacc
  | cons y l ih =>
    rw [List.foldl_cons]
    apply ih
    by_cases hy : y ∈ acc
    · rw [if_pos hy]
      exact hacc
    · rw [if_neg hy]
      rw [List.nodup_append]
      refine ⟨hacc, List.nodup_singleton y, ?_⟩
      intro a ha hb
      rw [List.mem_singleton] at hb
      subst hb
      exact hy ha

theorem mem_foldl_delete (items m : List String) (x : String) :
    x ∈ items.foldl (fun m item => m.filter fun k => k != item) m ↔ x ∈ m ∧ x ∉ items := by
  induction items generalizing m with
  | nil => simp
  | cons item items ih =>
    rw [List.foldl_cons, ih, List.mem_filter]
    simp only [bne_iff_ne, ne_eq, List.mem_cons, not_or]
    tauto

theorem nodup_foldl_delete (items m : List String) (hm : m.Nodup) :
    (items.foldl (fun m item => m.filter fun k => k != item) m).Nodup := by
  induction items generalizing m with
  | nil => simpa using hm
  | cons item items ih =>
    rw [List.foldl_cons]
    exact ih _ (hm.filter _)

theorem StringListSubtract_eq (l items : List String) :
    StringListSubtract l items
      = items.foldl (fun m item => m.filter fun k => k != item)
          (l.foldl (fun m x => if x ∈ m then m else m ++ [x]) []) := by
  unfold StringListSubtract
  simp only
  have := Services.foldl_append_singleton (fun x : String => x)
    (items.foldl (fun m item => m.filter fun k => k != item)
      (l.foldl (fun m x => if x ∈ m then m else m ++ [x]) [])) []
  simpa using this

/-- The result of `StringListSubtract` holds the elements of `l` that are not among
`items`. -/
theorem mem_StringListSubtract (l items : List String) (x : String) :
    x ∈ StringListSubtract l items ↔ x ∈ l ∧ x ∉ items := by
  rw [StringListSubtract_eq, mem_foldl_delete, mem_foldl_insert_end]
  simp

/-- The result of `StringListSubtract` holds no element twice. -/
theorem nodup_StringListSubtract (l items : List String) :
    (StringListSubtract l items).Nodup := by
  rw [StringListSubtract_eq]
  exact nodup_foldl_delete _ _ (nodup_foldl_insert_end _ _ List.nodup_nil)

/-! ## Lemmas on the calls of `Patch` -/

theorem registrations_append (a b : List HandlerCall) :
    registrations (a ++ b) = registrations a ++ registrations b := by
  simp [registrations, List.filterMap_append]

theorem registrations_of_no_secret_call (log : List HandlerCall)
    (h : ∀ c ∈ log, isSecretCall c = false) : registrations log = [] := by
  unfold registrations
  rw [List.filterMap_eq_nil_iff]
  intro c hc
  have := h c hc
  cases c <;> simp_all [isSecretCall]

theorem staleScheduled_of_no_secret_call {σ J : Type} (d : Deps σ J) (ct : ConnectorType)
    (originalSecrets : List String) (log : List HandlerCall)
    (h : ∀ c ∈ log, isSecretCall c = false) : StaleScheduled d ct originalSecrets log := by
  refine ⟨?_, ?_, ?_⟩
  · intro secret hmem
    have := h _ hmem
    simp [isSecretCall] at this
  · rw [registrations_of_no_secret_call log h]
    simp
  · intro a hmem
    have := h _ hmem
    simp [isSecretCall] at this

theorem staleScheduled_prefix {σ J : Type} (d : Deps σ J) (ct : ConnectorType)
    (originalSecrets : List String) (pre ext : List HandlerCall)
    (hpre : ∀ c ∈ pre, isSecretCall c = false)
    (hext : StaleScheduled d ct originalSecrets ext) :
    StaleScheduled d ct originalSecrets (pre ++ ext) := by
  obtain ⟨h1, h2, h3⟩ := hext
  refine ⟨?_, ?_, ?_⟩
  · intro secret hmem
    rcases List.mem_append.mp hmem with h | h
    · have := hpre _ h
      simp [isSecretCall] at this
    · exact h1 secret h
  · rw [registrations_append, registrations_of_no_secret_call pre hpre]
    simpa using h2
  · intro a hmem
    rcases List.mem_append.mp hmem with h | h
    · have := hpre _ h
      simp [isSecretCall] at this
    · obtain ⟨p0, p1, p, newSecrets, hu, hp, hs, ha, hne⟩ := h3 a h
      exact ⟨p0, p1, p, newSecrets, List.mem_append_right _ hu, hp, hs, ha, hne⟩

/-- Lines 231-252 under recording: the result and the state are those of the plain run, and
the calls of `secretsCalls` are appended to the log. -/
theorem recording_patchSecrets {σ J : Type} (d : Deps σ J) (ct : ConnectorType)
    (originalSecrets : List String) (p : Connector) (s : σ) (log : List HandlerCall) :
    patchSecrets (recordingDeps d) ct originalSecrets p (s, log)
      = ((patchSecrets d ct originalSecrets p s).1,
          ((patchSecrets d ct originalSecrets p s).2,
            log ++ secretsCalls d ct originalSecrets p)) := by
  unfold patchSecrets secretsCalls
  have hg : (recordingDeps d).getSecretRefs p ct = d.getSecretRefs p ct := rfl
  have hs : (recordingDeps d).stripSecretReferences p ct = d.stripSecretReferences p ct := rfl
  rw [hg, hs]
  rcases hgs : d.getSecretRefs p ct with e | newSecrets
  · simp
  · simp only
    rcases hst : d.stripSecretReferences p ct with ⟨_ | err, p1⟩
    · by_cases hlen : (StringListSubtract originalSecrets newSecrets).length > 0
      · simp only [if_pos hlen]
        exact Prod.ext rfl (Prod.ext rfl rfl)
      · simp only [if_neg hlen, List.append_nil]
        exact Prod.ext rfl (Prod.ext rfl rfl)
    · by_cases hlen : (StringListSubtract originalSecrets newSecrets).length > 0
      · simp only [if_pos hlen]
        exact Prod.ext rfl (Prod.ext rfl rfl)
      · simp only [if_neg hlen, List.append_nil]

theorem secretsCalls_spec {σ J : Type} (d : Deps σ J) (ct : ConnectorType)
    (originalSecrets : List String) (p : Connector) :
    (registrations (secretsCalls d ct originalSecrets p)).length ≤ 1
    ∧ (∀ secret, HandlerCall.DeleteSecretString secret ∉ secretsCalls d ct originalSecrets p)
    ∧ (∀ c ∈ secretsCalls d ct originalSecrets p, ∃ a, c = HandlerCall.AddPostCommitAction a)
    ∧ ∀ a, HandlerCall.AddPostCommitAction a ∈ secretsCalls d ct originalSecrets p →
        ∃ newSecrets, d.getSecretRefs p ct = Except.ok newSecrets
          ∧ a.staleSecrets = StringListSubtract originalSecrets newSecrets
          ∧ a.staleSecrets ≠ [] := by
  unfold secretsCalls
  rcases hgs : d.getSecretRefs p ct with e | newSecrets
  · simp [registrations]
  · by_cases hlen : (StringListSubtract originalSecrets newSecrets).length > 0
    · simp only [if_pos hlen]
      refine ⟨by simp [registrations], by simp, by simp, ?_⟩
      intro a ha
      simp only [List.mem_singleton, HandlerCall.AddPostCommitAction.injEq] at ha
      subst ha
      refine ⟨newSecrets, rfl, rfl, ?_⟩
      intro hnil
      simp only at hnil
      rw [hnil] at hlen
      simp at hlen
    · simp only [if_neg hlen]
      simp [registrations]

theorem staleScheduled_after_update {σ J : Type} (d : Deps σ J) (ct : ConnectorType)
    (originalSecrets : List String) (pre : List HandlerCall) (p0 p1 p : Connector)
    (hpre : ∀ c ∈ pre, isSecretCall c = false)
    (hu : HandlerCall.ConnectorsUpdate p0 Option.none p1 ∈ pre)
    (hp : p = p1 ∨ p = { p1 with
      Status := { p1.Status with Phase := d.ConnectorStatusPhaseUpdating } }) :
    StaleScheduled d ct originalSecrets (pre ++ secretsCalls d ct originalSecrets p) := by
  obtain ⟨h1, h2, h3, h4⟩ := secretsCalls_spec d ct originalSecrets p
  refine ⟨?_, ?_, ?_⟩
  · intro secret hmem
    rcases List.mem_append.mp hmem with h | h
    · have := hpre _ h
      simp [isSecretCall] at this
    · exact h2 secret h
  · rw [registrations_append, registrations_of_no_secret_call pre hpre]
    simpa using h1
  · intro a hmem
    rcases List.mem_append.mp hmem with h | h
    · have := hpre _ h
      simp [isSecretCall] at this
    · obtain ⟨newSecrets, hs, ha, hne⟩ := h4 a h
      exact ⟨p0, p1, p, newSecrets, List.mem_append_left _ hu, hp, hs, ha, hne⟩

/-- The calls of lines 217-252 of `Patch`. -/
theorem patchStore_calls {σ J : Type} (h : ConnectorsHandler σ) (d : Deps σ J)
    (dbresource : Connector) (ct : ConnectorType) (originalSecrets : List String)
    (originalResource : PresentedConnector J) (p : Connector) (s : σ)
    (log : List HandlerCall) :
    ∃ ext,
      (patchStore (recordingHandler h) (recordingDeps d) dbresource ct originalSecrets
          originalResource p (s, log)).2.2 = log ++ ext
      ∧ StaleScheduled d ct originalSecrets ext := by
  unfold patchStore
  have hupd : (recordingHandler h).connectorsService.Update p (s, log)
      = ((h.connectorsService.Update p s).1,
          ((h.connectorsService.Update p s).2,
            log ++ [HandlerCall.ConnectorsUpdate p (h.connectorsService.Update p s).1.1
              (h.connectorsService.Update p s).1.2])) := rfl
  rw [hupd]
  rcases hu : h.connectorsService.Update p s with ⟨⟨_ | e, p1⟩, s1⟩
  · simp only
    have hassign : (recordingDeps d).ConnectorStatusPhaseAssigning
        = d.ConnectorStatusPhaseAssigning := rfl
    have hupdating : (recordingDeps d).ConnectorStatusPhaseUpdating
        = d.ConnectorStatusPhaseUpdating := rfl
    rw [hassign, hupdating]
    by_cases hst : (originalResource.Status != d.ConnectorStatusPhaseAssigning) = true
    · simp only [hst, if_true]
      have hsave : ∀ st (l : List HandlerCall),
          (recordingHandler h).connectorsService.SaveStatus st (s1, l)
            = ((h.connectorsService.SaveStatus st s1).1,
                ((h.connectorsService.SaveStatus st s1).2,
                  l ++ [HandlerCall.ConnectorsSaveStatus st
                    (h.connectorsService.SaveStatus st s1).1])) := fun _ _ => rfl
      rw [hsave]
      rcases hsv : h.connectorsService.SaveStatus
          { dbresource.Status with Phase := d.ConnectorStatusPhaseUpdating } s1
        with ⟨_ | e, s2⟩
      · simp only
        rw [recording_patchSecrets]
        refine ⟨[HandlerCall.ConnectorsUpdate p Option.none p1,
            HandlerCall.ConnectorsSaveStatus
              { dbresource.Status with Phase := d.ConnectorStatusPhaseUpdating } Option.none]
            ++ secretsCalls d ct originalSecrets
              { p1 with Status := { p1.Status with Phase := d.ConnectorStatusPhaseUpdating } },
          by simp, ?_⟩
        apply staleScheduled_after_update d ct originalSecrets _ p p1
        · intro c hc
          simp only [List.mem_cons, List.mem_singleton, List.not_mem_nil, or_false] at hc
          rcases hc with hc | hc <;> rw [hc] <;> rfl
        · simp
        · exact Or.inr rfl
      · simp only
        refine ⟨[HandlerCall.ConnectorsUpdate p Option.none p1,
            HandlerCall.ConnectorsSaveStatus
              { dbresource.Status with Phase := d.ConnectorStatusPhaseUpdating } (some e)],
          by simp, ?_⟩
        apply staleScheduled_of_no_secret_call
        intro c hc
        simp only [List.mem_cons, List.mem_singleton, List.not_mem_nil, or_false] at hc
        rcases hc with hc | hc <;> rw [hc] <;> rfl
    · simp only [hst, Bool.false_eq_true, if_false]
      rw [recording_patchSecrets]
      refine ⟨[HandlerCall.ConnectorsUpdate p Option.none p1]
          ++ secretsCalls d ct originalSecrets p1, by simp, ?_⟩
      apply staleScheduled_after_update d ct originalSecrets _ p p1
      · intro c hc
        simp only [List.mem_singleton] at hc
        rw [hc]
        rfl
      · simp
      · exact Or.inl rfl
  · simp only
    refine ⟨[HandlerCall.ConnectorsUpdate p (some e) p1], rfl, ?_⟩
    apply staleScheduled_of_no_secret_call
    intro c hc
    simp only [List.mem_singleton] at hc
    rw [hc]
    rfl

/-- The calls of lines 207-252 of `Patch`. -/
theorem patchConvert_calls {σ J : Type} (h : ConnectorsHandler σ) (d : Deps σ J)
    (dbresource : Connector) (ct : ConnectorType) (originalSecrets : List String)
    (originalResource resource : PresentedConnector J) (s : σ) (log : List HandlerCall) :
    ∃ ext,
      (patchConvert (recordingHandler h) (recordingDeps d) dbresource ct originalSecrets
          originalResource resource (s, log)).2.2 = log ++ ext
      ∧ StaleScheduled d ct originalSecrets ext := by
  unfold patchConvert
  have hconv : ConvertConnector (recordingDeps d) resource = ConvertConnector d resource :=
    rfl
  rw [hconv]
  rcases hc : ConvertConnector d resource with e | p
  · exact ⟨[], by simp, staleScheduled_of_no_secret_call d ct originalSecrets [] (by simp)⟩
  · simp only
    have hmove : (recordingDeps d).moveSecretsToVault p ct false (s, log)
        = ((d.moveSecretsToVault p ct false s).1,
            ((d.moveSecretsToVault p ct false s).2,
              log ++ [HandlerCall.MoveSecretsToVault p
                (d.moveSecretsToVault p ct false s).1.1
                (d.moveSecretsToVault p ct false s).1.2])) := rfl
    rw [hmove]
    rcases hm : d.moveSecretsToVault p ct false s with ⟨⟨_ | e, p1⟩, s2⟩
    · simp only
      obtain ⟨ext, hext, hst⟩ := patchStore_calls h d dbresource ct originalSecrets
        originalResource p1 s2 (log ++ [HandlerCall.MoveSecretsToVault p Option.none p1])
      refine ⟨[HandlerCall.MoveSecretsToVault p Option.none p1] ++ ext,
        by rw [hext]; simp, ?_⟩
      apply staleScheduled_prefix _ _ _ _ _ _ hst
      intro c hc
      simp only [List.mem_singleton] at hc
      rw [hc]
      rfl
    · simp only
      refine ⟨[HandlerCall.MoveSecretsToVault p (some e) p1], rfl, ?_⟩
      apply staleScheduled_of_no_secret_call
      intro c hc
      simp only [List.mem_singleton] at hc
      rw [hc]
      rfl

/-- The calls of lines 199-252 of `Patch`. -/
theorem patchUpdate_calls {σ J : Type} (h : ConnectorsHandler σ) (d : Deps σ J)
    (dbresource : Connector) (ct : ConnectorType) (originalSecrets : List String)
    (originalResource resource : PresentedConnector J) (s : σ) (log : List HandlerCall) :
    ∃ ext,
      (patchUpdate (recordingHandler h) (recordingDeps d) dbresource ct originalSecrets
          originalResource resource (s, log)).2.2 = log ++ ext
      ∧ StaleScheduled d ct originalSecrets ext := by
  unfold patchUpdate
  by_cases hk : (resource.Metadata.KafkaId != originalResource.Metadata.KafkaId) = true
  · simp only [hk, if_true]
    have hget : (recordingHandler h).kafkaService.Get resource.Metadata.KafkaId (s, log)
        = ((h.kafkaService.Get resource.Metadata.KafkaId s).1,
            ((h.kafkaService.Get resource.Metadata.KafkaId s).2,
              log ++ [HandlerCall.KafkaGet resource.Metadata.KafkaId
                (h.kafkaService.Get resource.Metadata.KafkaId s).1])) := rfl
    rw [hget]
    rcases hg : h.kafkaService.Get resource.Metadata.KafkaId s with ⟨_ | e, s1⟩
    · simp only
      obtain ⟨ext, hext, hst⟩ := patchConvert_calls h d dbresource ct originalSecrets
        originalResource resource s1
        (log ++ [HandlerCall.KafkaGet resource.Metadata.KafkaId Option.none])
      refine ⟨[HandlerCall.KafkaGet resource.Metadata.KafkaId Option.none] ++ ext,
        by rw [hext]; simp, ?_⟩
      apply staleScheduled_prefix _ _ _ _ _ _ hst
      intro c hc
      simp only [List.mem_singleton] at hc
      rw [hc]
      rfl
    · simp only
      refine ⟨[HandlerCall.KafkaGet resource.Metadata.KafkaId (some e)], rfl, ?_⟩
      apply staleScheduled_of_no_secret_call
      intro c hc
      simp only [List.mem_singleton] at hc
      rw [hc]
      rfl
  · simp only [hk, Bool.false_eq_true, if_false]
    exact patchConvert_calls h d dbresource ct originalSecrets originalResource resource s log

/-- The calls of lines 183-252 of `Patch`. -/
theorem patchRevalidate_calls {σ J : Type} (h : ConnectorsHandler σ) (d : Deps σ J)
    (connectorTypeId : String) (dbresource : Connector) (ct : ConnectorType)
    (originalSecrets : List String) (originalResource resource : PresentedConnector J)
    (s : σ) (log : List HandlerCall) :
    ∃ ext,
      (patchRevalidate (recordingHandler h) (recordingDeps d) connectorTypeId dbresource ct
          originalSecrets originalResource resource (s, log)).2.2 = log ++ ext
      ∧ StaleScheduled d ct originalSecrets ext := by
  have hnone : StaleScheduled d ct originalSecrets [] :=
    staleScheduled_of_no_secret_call d ct originalSecrets [] (by simp)
  have hval : ∀ a b c, (recordingDeps d).Validation a b c = d.Validation a b c :=
    fun _ _ _ => rfl
  unfold patchRevalidate
  simp only [hval]
  rcases d.Validation "name" resource.Metadata.Name
      [ValidateOption.MinLen 1, ValidateOption.MaxLen 100] with _ | e
  · rcases d.Validation "connector_type_id" resource.ConnectorTypeId
        [ValidateOption.MinLen 1, ValidateOption.MaxLen maxKafkaNameLength] with _ | e
    · rcases d.Validation "kafka_id" resource.Metadata.KafkaId
          [ValidateOption.MinLen 1, ValidateOption.MaxLen maxKafkaNameLength] with _ | e
      · rcases d.Validation "Kafka client_id" resource.Kafka.ClientId
            [ValidateOption.MinLen 1] with _ | e
        · simp only
          have hvs : (recordingDeps d).validateConnectorSpec resource connectorTypeId (s, log)
              = ((d.validateConnectorSpec resource connectorTypeId s).1,
                  ((d.validateConnectorSpec resource connectorTypeId s).2, log)) := rfl
          rw [hvs]
          rcases d.validateConnectorSpec resource connectorTypeId s with ⟨_ | e, s1⟩
          · simp only
            exact patchUpdate_calls h d dbresource ct originalSecrets originalResource
              resource s1 log
          · exact ⟨[], by simp, hnone⟩
        · exact ⟨[], by simp, hnone⟩
      · exact ⟨[], by simp, hnone⟩
    · exact ⟨[], by simp, hnone⟩
  · exact ⟨[], by simp, hnone⟩

theorem secretsScheduled_of_no_secret_call {σ J : Type} (d : Deps σ J) (r : PatchRequest)
    (log : List HandlerCall) (h : ∀ c ∈ log, isSecretCall c = false) :
    SecretsScheduled d r log := by
  refine ⟨?_, ?_, ?_⟩
  · intro secret hmem
    have := h _ hmem
    simp [isSecretCall] at this
  · rw [registrations_of_no_secret_call log h]
    simp
  · intro a hmem
    have := h _ hmem
    simp [isSecretCall] at this

theorem secretsScheduled_of_staleScheduled {σ J : Type} (d : Deps σ J) (r : PatchRequest)
    (dbresource : Connector) (ct : ConnectorType) (originalSecrets : List String)
    (ext : List HandlerCall) (hrefs : d.getSecretRefs dbresource ct = Except.ok originalSecrets)
    (hext : StaleScheduled d ct originalSecrets ext) :
    SecretsScheduled d r
      ([HandlerCall.ConnectorsGet r.connectorId r.connectorTypeId (some dbresource) Option.none,
        HandlerCall.ConnectorTypesGet dbresource.ConnectorTypeId (some ct)] ++ ext) := by
  have hpre : ∀ c ∈
      [HandlerCall.ConnectorsGet r.connectorId r.connectorTypeId (some dbresource) Option.none,
        HandlerCall.ConnectorTypesGet dbresource.ConnectorTypeId (some ct)],
      isSecretCall c = false := by
    intro c hc
    simp only [List.mem_cons, List.mem_singleton, List.not_mem_nil, or_false] at hc
    rcases hc with hc | hc <;> rw [hc] <;> rfl
  obtain ⟨h1, h2, h3⟩ := staleScheduled_prefix d ct originalSecrets _ ext hpre hext
  refine ⟨h1, h2, ?_⟩
  intro a hmem
  obtain ⟨p0, p1, p, newSecrets, hu, hp, hs, ha, hne⟩ := h3 a hmem
  exact ⟨dbresource, ct, originalSecrets, p0, p1, p, newSecrets,
    List.mem_append_left _ (List.mem_cons_self _ _),
    List.mem_append_left _ (List.mem_cons_of_mem _ (List.mem_singleton.mpr rfl)),
    hrefs, hu, hp, hs, ha, hne⟩

/-- The calls of the action of `Patch`. -/
theorem patchAction_calls {σ J : Type} [DecidableEq J] (h : ConnectorsHandler σ)
    (d : Deps σ J) (r : PatchRequest) (s : σ) :
    SecretsScheduled d r
      (patchAction (recordingHandler h) (recordingDeps d) r (s, [])).2.2 := by
  unfold patchAction
  have hget : (recordingHandler h).connectorsService.Get r.connectorId r.connectorTypeId (s, [])
      = ((h.connectorsService.Get r.connectorId r.connectorTypeId s).1,
          ((h.connectorsService.Get r.connectorId r.connectorTypeId s).2,
            [HandlerCall.ConnectorsGet r.connectorId r.connectorTypeId
              (okValue (h.connectorsService.Get r.connectorId r.connectorTypeId s).1)
              (errValue (h.connectorsService.Get r.connectorId r.connectorTypeId s).1)])) := rfl
  have hpresent : ∀ c, PresentConnector (recordingDeps d) c = PresentConnector d c :=
    fun _ => rfl
  have hrefs : ∀ c ct, (recordingDeps d).getSecretRefs c ct = d.getSecretRefs c ct :=
    fun _ _ => rfl
  have hvalid : ∀ b ct, validateConnectorPatch (recordingDeps d) b ct
      = validateConnectorPatch d b ct := fun _ _ => rfl
  have hpatch : ∀ res t b, PatchResource (recordingDeps d) res t b = PatchResource d res t b :=
    fun _ _ _ => rfl
  have hzero : zeroConnector (recordingDeps d) = zeroConnector d := rfl
  rw [hget]
  simp only [hpresent, hrefs, hvalid, hpatch, hzero]
  rcases hg : h.connectorsService.Get r.connectorId r.connectorTypeId s
    with ⟨e | dbresource, s1⟩
  · apply secretsScheduled_of_no_secret_call
    intro c hc
    simp only [List.mem_singleton] at hc
    rw [hc]
    rfl
  · simp only [okValue, errValue]
    have hone : ∀ c ∈ [HandlerCall.ConnectorsGet r.connectorId r.connectorTypeId
        (some dbresource) Option.none], isSecretCall c = false := by
      intro c hc
      simp only [List.mem_singleton] at hc
      rw [hc]
      rfl
    rcases hp : PresentConnector d dbresource with e | resource
    · exact secretsScheduled_of_no_secret_call d r _ hone
    · simp only
      have htget : ∀ l : List HandlerCall,
          (recordingHandler h).connectorTypesService.Get dbresource.ConnectorTypeId (s1, l)
            = ((h.connectorTypesService.Get dbresource.ConnectorTypeId s1).1,
                ((h.connectorTypesService.Get dbresource.ConnectorTypeId s1).2,
                  l ++ [HandlerCall.ConnectorTypesGet dbresource.ConnectorTypeId
                    (okValue (h.connectorTypesService.Get dbresource.ConnectorTypeId s1).1)])) :=
        fun _ => rfl
      rw [htget]
      rcases ht : h.connectorTypesService.Get dbresource.ConnectorTypeId s1 with ⟨e | ct, s2⟩
      · apply secretsScheduled_of_no_secret_call
        intro c hc
        simp only [List.cons_append, List.nil_append, List.mem_cons, List.mem_singleton,
          List.not_mem_nil, or_false] at hc
        rcases hc with hc | hc <;> rw [hc] <;> rfl
      · simp only [okValue, List.cons_append, List.nil_append]
        have htwo : ∀ c ∈ [HandlerCall.ConnectorsGet r.connectorId r.connectorTypeId
            (some dbresource) Option.none,
            HandlerCall.ConnectorTypesGet dbresource.ConnectorTypeId (some ct)],
            isSecretCall c = false := by
          intro c hc
          simp only [List.mem_cons, List.mem_singleton, List.not_mem_nil, or_false] at hc
          rcases hc with hc | hc <;> rw [hc] <;> rfl
        rcases hsr : d.getSecretRefs dbresource ct with e | originalSecrets
        · exact secretsScheduled_of_no_secret_call d r _ htwo
        · simp only
          rcases r.body with e | patchBytes
          · exact secretsScheduled_of_no_secret_call d r _ htwo
          · simp only
            rcases validateConnectorPatch d patchBytes ct with _ | e
            · simp only
              rcases PatchResource d resource r.contentType patchBytes with e | patch
              · exact secretsScheduled_of_no_secret_call d r _ htwo
              · simp only
                split
                · exact secretsScheduled_of_no_secret_call d r _ htwo
                · obtain ⟨ext, hext, hst⟩ := patchRevalidate_calls h d r.connectorTypeId
                    dbresource ct originalSecrets resource
                    { resource with
                      Metadata :=
                        { resource.Metadata with
                          Name := patch.Metadata.Name
                          KafkaId := patch.Metadata.KafkaId
                          ResourceVersion := patch.Metadata.ResourceVersion }
                      ConnectorSpec := patch.ConnectorSpec
                      DesiredState := patch.DesiredState
                      Kafka := patch.Kafka } s2
                    [HandlerCall.ConnectorsGet r.connectorId r.connectorTypeId
                      (some dbresource) Option.none,
                      HandlerCall.ConnectorTypesGet dbresource.ConnectorTypeId (some ct)]
                  rw [hext]
                  exact secretsScheduled_of_staleScheduled d r dbresource ct originalSecrets
                    ext hsr hst
            · exact secretsScheduled_of_no_secret_call d r _ htwo

/-- The calls of `Patch`. -/
theorem patchCalls_scheduled {σ J : Type} [DecidableEq J] (h : ConnectorsHandler σ)
    (d : Deps σ J) (r : PatchRequest) (s : σ) :
    SecretsScheduled d r (patchCalls h d r s) := by
  have hnil : SecretsScheduled d r [] :=
    secretsScheduled_of_no_secret_call d r [] (by simp)
  have hval : ∀ a b c, (recordingDeps d).Validation a b c = d.Validation a b c :=
    fun _ _ _ => rfl
  have hmax : (recordingDeps d).maxConnectorTypeIdLength = d.maxConnectorTypeIdLength := rfl
  unfold patchCalls Patch
  simp only [hval, hmax]
  rcases d.Validation "connector_id" r.connectorId
      [ValidateOption.MinLen 1, ValidateOption.MaxLen maxConnectorIdLength] with _ | e
  · rcases d.Validation "connector_type_id" r.connectorTypeId
        [ValidateOption.MaxLen d.maxConnectorTypeIdLength] with _ | e
    · rcases d.Validation "Content-Type header" r.contentType
          [ValidateOption.IsOneOf
            ["application/json-patch+json", "application/merge-patch+json"]] with _ | e
      · exact patchAction_calls h d r s
      · exact hnil
    · exact hnil
  · exact hnil

/-! ## Lemmas on the registration of the stale secrets -/

theorem staleRegistered_of_no_update {σ J : Type} (d : Deps σ J) (ct : ConnectorType)
    (originalSecrets : List String) (log : List HandlerCall)
    (h : ∀ p0 p1, HandlerCall.ConnectorsUpdate p0 Option.none p1 ∉ log) :
    StaleRegistered d ct originalSecrets log :=
  fun p0 p1 hmem _ => absurd hmem (h p0 p1)

theorem staleRegistered_prefix {σ J : Type} (d : Deps σ J) (ct : ConnectorType)
    (originalSecrets : List String) (pre ext : List HandlerCall)
    (hw : ∀ c ∈ pre, isWriteCall c = false) (hs : ∀ c ∈ pre, isSecretCall c = false)
    (hext : StaleRegistered d ct originalSecrets ext) :
    StaleRegistered d ct originalSecrets (pre ++ ext) := by
  intro p0 p1 hmem hnofail
  have hu : HandlerCall.ConnectorsUpdate p0 Option.none p1 ∈ ext := by
    rcases List.mem_append.mp hmem with h | h
    · have := hw _ h
      simp [isWriteCall] at this
    · exact h
  obtain ⟨p, hp, hreg⟩ := hext p0 p1 hu
    (fun st e hm => hnofail st e (List.mem_append_right _ hm))
  refine ⟨p, ?_, ?_⟩
  · rcases hp with ⟨h1, h2⟩ | ⟨h1, st, h2⟩
    · left
      refine ⟨h1, ?_⟩
      intro st hm
      rcases List.mem_append.mp hm with h | h
      · have := hw _ h
        simp [isWriteCall] at this
      · exact h2 st h
    · right
      exact ⟨h1, st, List.mem_append_right _ h2⟩
  · rw [registrations_append, registrations_of_no_secret_call pre hs, List.nil_append]
    exact hreg

theorem update_not_mem_secretsCalls {σ J : Type} (d : Deps σ J) (ct : ConnectorType)
    (originalSecrets : List String) (p : Connector) (c : HandlerCall)
    (hc : c ∈ secretsCalls d ct originalSecrets p) : isWriteCall c = false := by
  obtain ⟨a, ha⟩ := (secretsCalls_spec d ct originalSecrets p).2.2.1 c hc
  rw [ha]
  rfl

/-- The calls of lines 217-252 of `Patch`: what is registered. -/
theorem patchStore_registered {σ J : Type} (h : ConnectorsHandler σ) (d : Deps σ J)
    (dbresource : Connector) (ct : ConnectorType) (originalSecrets : List String)
    (originalResource : PresentedConnector J) (p : Connector) (s : σ)
    (log : List HandlerCall) :
    ∃ ext,
      (patchStore (recordingHandler h) (recordingDeps d) dbresource ct originalSecrets
          originalResource p (s, log)).2.2 = log ++ ext
      ∧ StaleRegistered d ct originalSecrets ext := by
  unfold patchStore
  have hupd : (recordingHandler h).connectorsService.Update p (s, log)
      = ((h.connectorsService.Update p s).1,
          ((h.connectorsService.Update p s).2,
            log ++ [HandlerCall.ConnectorsUpdate p (h.connectorsService.Update p s).1.1
              (h.connectorsService.Update p s).1.2])) := rfl
  rw [hupd]
  rcases hu : h.connectorsService.Update p s with ⟨⟨_ | e, p1⟩, s1⟩
  · simp only
    have hassign : (recordingDeps d).ConnectorStatusPhaseAssigning
        = d.ConnectorStatusPhaseAssigning := rfl
    have hupdating : (recordingDeps d).ConnectorStatusPhaseUpdating
        = d.ConnectorStatusPhaseUpdating := rfl
    rw [hassign, hupdating]
    by_cases hst : (originalResource.Status != d.ConnectorStatusPhaseAssigning) = true
    · simp only [hst, if_true]
      have hsave : ∀ st (l : List HandlerCall),
          (recordingHandler h).connectorsService.SaveStatus st (s1, l)
            = ((h.connectorsService.SaveStatus st s1).1,
                ((h.connectorsService.SaveStatus st s1).2,
                  l ++ [HandlerCall.ConnectorsSaveStatus st
                    (h.connectorsService.SaveStatus st s1).1])) := fun _ _ => rfl
      rw [hsave]
      rcases hsv : h.connectorsService.SaveStatus
          { dbresource.Status with Phase := d.ConnectorStatusPhaseUpdating } s1
        with ⟨_ | e, s2⟩
      · simp only
        rw [recording_patchSecrets]
        refine ⟨[HandlerCall.ConnectorsUpdate p Option.none p1,
            HandlerCall.ConnectorsSaveStatus
              { dbresource.Status with Phase := d.ConnectorStatusPhaseUpdating } Option.none]
            ++ secretsCalls d ct originalSecrets
              { p1 with Status := { p1.Status with Phase := d.ConnectorStatusPhaseUpdating } },
          by simp, ?_⟩
        intro p0 p1x hmem _
        have hp1 : p1x = p1 := by
          rcases List.mem_append.mp hmem with hm | hm
          · simp only [List.mem_cons, List.mem_singleton, List.not_mem_nil, or_false,
              HandlerCall.ConnectorsUpdate.injEq, reduceCtorEq] at hm
            exact hm.2.2
          · have := update_not_mem_secretsCalls d ct originalSecrets _ _ hm
            simp [isWriteCall] at this
        rw [hp1]
        refine ⟨_, Or.inr ⟨rfl, _, List.mem_append_left _
          (List.mem_cons_of_mem _ (List.mem_singleton.mpr rfl))⟩, ?_⟩
        rw [registrations_append]
        rfl
      · simp only
        refine ⟨[HandlerCall.ConnectorsUpdate p Option.none p1,
            HandlerCall.ConnectorsSaveStatus
              { dbresource.Status with Phase := d.ConnectorStatusPhaseUpdating } (some e)],
          by simp, ?_⟩
        intro p0 p1x _ hnofail
        exact absurd (List.mem_cons_of_mem _ (List.mem_singleton.mpr rfl)) (hnofail _ e)
    · simp only [hst, Bool.false_eq_true, if_false]
      rw [recording_patchSecrets]
      refine ⟨[HandlerCall.ConnectorsUpdate p Option.none p1]
          ++ secretsCalls d ct originalSecrets p1, by simp, ?_⟩
      intro p0 p1x hmem _
      have hp1 : p1x = p1 := by
        rcases List.mem_append.mp hmem with hm | hm
        · simp only [List.mem_singleton, HandlerCall.ConnectorsUpdate.injEq] at hm
          exact hm.2.2
        · have := update_not_mem_secretsCalls d ct originalSecrets _ _ hm
          simp [isWriteCall] at this
      rw [hp1]
      refine ⟨p1, Or.inl ⟨rfl, ?_⟩, ?_⟩
      · intro st hm
        rcases List.mem_append.mp hm with hm | hm
        · simp at hm
        · have := update_not_mem_secretsCalls d ct originalSecrets _ _ hm
          simp [isWriteCall] at this
      · rw [registrations_append]
        rfl
  · simp only
    refine ⟨[HandlerCall.ConnectorsUpdate p (some e) p1], rfl, ?_⟩
    apply staleRegistered_of_no_update
    intro p0 p1x hm
    simp at hm

/-- The calls of lines 207-252 of `Patch`: what is registered. -/
theorem patchConvert_registered {σ J : Type} (h : ConnectorsHandler σ) (d : Deps σ J)
    (dbresource : Connector) (ct : ConnectorType) (originalSecrets : List String)
    (originalResource resource : PresentedConnector J) (s : σ) (log : List HandlerCall) :
    ∃ ext,
      (patchConvert (recordingHandler h) (recordingDeps d) dbresource ct originalSecrets
          originalResource resource (s, log)).2.2 = log ++ ext
      ∧ StaleRegistered d ct originalSecrets ext := by
  unfold patchConvert
  have hconv : ConvertConnector (recordingDeps d) resource = ConvertConnector d resource :=
    rfl
  rw [hconv]
  rcases hc : ConvertConnector d resource with e | p
  · exact ⟨[], by simp, staleRegistered_of_no_update d ct originalSecrets [] (by simp)⟩
  · simp only
    have hmove : (recordingDeps d).moveSecretsToVault p ct false (s, log)
        = ((d.moveSecretsToVault p ct false s).1,
            ((d.moveSecretsToVault p ct false s).2,
              log ++ [HandlerCall.MoveSecretsToVault p
                (d.moveSecretsToVault p ct false s).1.1
                (d.moveSecretsToVault p ct false s).1.2])) := rfl
    rw [hmove]
    rcases hm : d.moveSecretsToVault p ct false s with ⟨⟨_ | e, p1⟩, s2⟩
    · simp only
      obtain ⟨ext, hext, hst⟩ := patchStore_registered h d dbresource ct originalSecrets
        originalResource p1 s2 (log ++ [HandlerCall.MoveSecretsToVault p Option.none p1])
      refine ⟨[HandlerCall.MoveSecretsToVault p Option.none p1] ++ ext,
        by rw [hext]; simp, ?_⟩
      apply staleRegistered_prefix _ _ _ _ _ _ _ hst
      · intro c hc
        simp only [List.mem_singleton] at hc
        rw [hc]
        rfl
      · intro c hc
        simp only [List.mem_singleton] at hc
        rw [hc]
        rfl
    · simp only
      refine ⟨[HandlerCall.MoveSecretsToVault p (some e) p1], rfl, ?_⟩
      apply staleRegistered_of_no_update
      intro p0 p1x hm
      simp at hm

/-- The calls of lines 199-252 of `Patch`: what is registered. -/
theorem patchUpdate_registered {σ J : Type} (h : ConnectorsHandler σ) (d : Deps σ J)
    (dbresource : Connector) (ct : ConnectorType) (originalSecrets : List String)
    (originalResource resource : PresentedConnector J) (s : σ) (log : List HandlerCall) :
    ∃ ext,
      (patchUpdate (recordingHandler h) (recordingDeps d) dbresource ct originalSecrets
          originalResource resource (s, log)).2.2 = log ++ ext
      ∧ StaleRegistered d ct originalSecrets ext := by
  unfold patchUpdate
  by_cases hk : (resource.Metadata.KafkaId != originalResource.Metadata.KafkaId) = true
  · simp only [hk, if_true]
    have hget : (recordingHandler h).kafkaService.Get resource.Metadata.KafkaId (s, log)
        = ((h.kafkaService.Get resource.Metadata.KafkaId s).1,
            ((h.kafkaService.Get resource.Metadata.KafkaId s).2,
              log ++ [HandlerCall.KafkaGet resource.Metadata.KafkaId
                (h.kafkaService.Get resource.Metadata.KafkaId s).1])) := rfl
    rw [hget]
    rcases hg : h.kafkaService.Get resource.Metadata.KafkaId s with ⟨_ | e, s1⟩
    · simp only
      obtain ⟨ext, hext, hst⟩ := patchConvert_registered h d dbresource ct originalSecrets
        originalResource resource s1
        (log ++ [HandlerCall.KafkaGet resource.Metadata.KafkaId Option.none])
      refine ⟨[HandlerCall.KafkaGet resource.Metadata.KafkaId Option.none] ++ ext,
        by rw [hext]; simp, ?_⟩
      apply staleRegistered_prefix _ _ _ _ _ _ _ hst
      · intro c hc
        simp only [List.mem_singleton] at hc
        rw [hc]
        rfl
      · intro c hc
        simp only [List.mem_singleton] at hc
        rw [hc]
        rfl
    · simp only
      refine ⟨[HandlerCall.KafkaGet resource.Metadata.KafkaId (some e)], rfl, ?_⟩
      apply staleRegistered_of_no_update
      intro p0 p1x hm
      simp at hm
  · simp only [hk, Bool.false_eq_true, if_false]
    exact patchConvert_registered h d dbresource ct originalSecrets originalResource resource
      s log

/-- The calls of lines 183-252 of `Patch`: what is registered. -/
theorem patchRevalidate_registered {σ J : Type} (h : ConnectorsHandler σ) (d : Deps σ J)
    (connectorTypeId : String) (dbresource : Connector) (ct : ConnectorType)
    (originalSecrets : List String) (originalResource resource : PresentedConnector J)
    (s : σ) (log : List HandlerCall) :
    ∃ ext,
      (patchRevalidate (recordingHandler h) (recordingDeps d) connectorTypeId dbresource ct
          originalSecrets originalResource resource (s, log)).2.2 = log ++ ext
      ∧ StaleRegistered d ct originalSecrets ext := by
  have hnone : StaleRegistered d ct originalSecrets [] :=
    staleRegistered_of_no_update d ct originalSecrets [] (by simp)
  have hval : ∀ a b c, (recordingDeps d).Validation a b c = d.Validation a b c :=
    fun _ _ _ => rfl
  unfold patchRevalidate
  simp only [hval]
  rcases d.Validation "name" resource.Metadata.Name
      [ValidateOption.MinLen 1, ValidateOption.MaxLen 100] with _ | e
  · rcases d.Validation "connector_type_id" resource.ConnectorTypeId
        [ValidateOption.MinLen 1, ValidateOption.MaxLen maxKafkaNameLength] with _ | e
    · rcases d.Validation "kafka_id" resource.Metadata.KafkaId
          [ValidateOption.MinLen 1, ValidateOption.MaxLen maxKafkaNameLength] with _ | e
      · rcases d.Validation "Kafka client_id" resource.Kafka.ClientId
            [ValidateOption.MinLen 1] with _ | e
        · simp only
          have hvs : (recordingDeps d).validateConnectorSpec resource connectorTypeId (s, log)
              = ((d.validateConnectorSpec resource connectorTypeId s).1,
                  ((d.validateConnectorSpec resource connectorTypeId s).2, log)) := rfl
          rw [hvs]
          rcases d.validateConnectorSpec resource connectorTypeId s with ⟨_ | e, s1⟩
          · simp only
            exact patchUpdate_registered h d dbresource ct originalSecrets originalResource
              resource s1 log
          · exact ⟨[], by simp, hnone⟩
        · exact ⟨[], by simp, hnone⟩
      · exact ⟨[], by simp, hnone⟩
    · exact ⟨[], by simp, hnone⟩
  · exact ⟨[], by simp, hnone⟩

theorem secretsRegistered_of_no_update {σ J : Type} (d : Deps σ J) (r : PatchRequest)
    (log : List HandlerCall)
    (h : ∀ p0 p1, HandlerCall.ConnectorsUpdate p0 Option.none p1 ∉ log) :
    SecretsRegistered d r log :=
  fun p0 p1 hmem _ => absurd hmem (h p0 p1)

theorem secretsRegistered_of_staleRegistered {σ J : Type} (d : Deps σ J) (r : PatchRequest)
    (dbresource : Connector) (ct : ConnectorType) (originalSecrets : List String)
    (ext : List HandlerCall) (hrefs : d.getSecretRefs dbresource ct = Except.ok originalSecrets)
    (hext : StaleRegistered d ct originalSecrets ext) :
    SecretsRegistered d r
      ([HandlerCall.ConnectorsGet r.connectorId r.connectorTypeId (some dbresource) Option.none,
        HandlerCall.ConnectorTypesGet dbresource.ConnectorTypeId (some ct)] ++ ext) := by
  have hw : ∀ c ∈
      [HandlerCall.ConnectorsGet r.connectorId r.connectorTypeId (some dbresource) Option.none,
        HandlerCall.ConnectorTypesGet dbresource.ConnectorTypeId (some ct)],
      isWriteCall c = false := by
    intro c hc
    simp only [List.mem_cons, List.mem_singleton, List.not_mem_nil, or_false] at hc
    rcases hc with hc | hc <;> rw [hc] <;> rfl
  have hs : ∀ c ∈
      [HandlerCall.ConnectorsGet r.connectorId r.connectorTypeId (some dbresource) Option.none,
        HandlerCall.ConnectorTypesGet dbresource.ConnectorTypeId (some ct)],
      isSecretCall c = false := by
    intro c hc
    simp only [List.mem_cons, List.mem_singleton, List.not_mem_nil, or_false] at hc
    rcases hc with hc | hc <;> rw [hc] <;> rfl
  have hall := staleRegistered_prefix d ct originalSecrets _ ext hw hs hext
  intro p0 p1 hmem hnofail
  obtain ⟨p, hp, hreg⟩ := hall p0 p1 hmem hnofail
  exact ⟨dbresource, ct, originalSecrets, p,
    List.mem_append_left _ (List.mem_cons_self _ _),
    List.mem_append_left _ (List.mem_cons_of_mem _ (List.mem_singleton.mpr rfl)),
    hrefs, hp, hreg⟩

/-- The calls of the action of `Patch`: what is registered. -/
theorem patchAction_registered {σ J : Type} [DecidableEq J] (h : ConnectorsHandler σ)
    (d : Deps σ J) (r : PatchRequest) (s : σ) :
    SecretsRegistered d r
      (patchAction (recordingHandler h) (recordingDeps d) r (s, [])).2.2 := by
  unfold patchAction
  have hget : (recordingHandler h).connectorsService.Get r.connectorId r.connectorTypeId (s, [])
      = ((h.connectorsService.Get r.connectorId r.connectorTypeId s).1,
          ((h.connectorsService.Get r.connectorId r.connectorTypeId s).2,
            [HandlerCall.ConnectorsGet r.connectorId r.connectorTypeId
              (okValue (h.connectorsService.Get r.connectorId r.connectorTypeId s).1)
              (errValue (h.connectorsService.Get r.connectorId r.connectorTypeId s).1)])) := rfl
  have hpresent : ∀ c, PresentConnector (recordingDeps d) c = PresentConnector d c :=
    fun _ => rfl
  have hrefs : ∀ c ct, (recordingDeps d).getSecretRefs c ct = d.getSecretRefs c ct :=
    fun _ _ => rfl
  have hvalid : ∀ b ct, validateConnectorPatch (recordingDeps d) b ct
      = validateConnectorPatch d b ct := fun _ _ => rfl
  have hpatch : ∀ res t b, PatchResource (recordingDeps d) res t b = PatchResource d res t b :=
    fun _ _ _ => rfl
  have hzero : zeroConnector (recordingDeps d) = zeroConnector d := rfl
  rw [hget]
  simp only [hpresent, hrefs, hvalid, hpatch, hzero]
  rcases hg : h.connectorsService.Get r.connectorId r.connectorTypeId s
    with ⟨e | dbresource, s1⟩
  · apply secretsRegistered_of_no_update
    intro p0 p1 hm
    simp at hm
  · simp only [okValue, errValue]
    have hone : ∀ p0 p1, HandlerCall.ConnectorsUpdate p0 Option.none p1 ∉
        [HandlerCall.ConnectorsGet r.connectorId r.connectorTypeId
          (some dbresource) Option.none] := by
      intro p0 p1 hm
      simp at hm
    rcases hp : PresentConnector d dbresource with e | resource
    · exact secretsRegistered_of_no_update d r _ hone
    · simp only
      have htget : ∀ l : List HandlerCall,
          (recordingHandler h).connectorTypesService.Get dbresource.ConnectorTypeId (s1, l)
            = ((h.connectorTypesService.Get dbresource.ConnectorTypeId s1).1,
                ((h.connectorTypesService.Get dbresource.ConnectorTypeId s1).2,
                  l ++ [HandlerCall.ConnectorTypesGet dbresource.ConnectorTypeId
                    (okValue (h.connectorTypesService.Get dbresource.ConnectorTypeId s1).1)])) :=
        fun _ => rfl
      rw [htget]
      rcases ht : h.connectorTypesService.Get dbresource.ConnectorTypeId s1 with ⟨e | ct, s2⟩
      · apply secretsRegistered_of_no_update
        intro p0 p1 hm
        simp at hm
      · simp only [okValue, List.cons_append, List.nil_append]
        have htwo : ∀ p0 p1, HandlerCall.ConnectorsUpdate p0 Option.none p1 ∉
            [HandlerCall.ConnectorsGet r.connectorId r.connectorTypeId
              (some dbresource) Option.none,
              HandlerCall.ConnectorTypesGet dbresource.ConnectorTypeId (some ct)] := by
          intro p0 p1 hm
          simp at hm
        rcases hsr : d.getSecretRefs dbresource ct with e | originalSecrets
        · exact secretsRegistered_of_no_update d r _ htwo
        · simp only
          rcases r.body with e | patchBytes
          · exact secretsRegistered_of_no_update d r _ htwo
          · simp only
            rcases validateConnectorPatch d patchBytes ct with _ | e
            · simp only
              rcases PatchResource d resource r.contentType patchBytes with e | patch
              · exact secretsRegistered_of_no_update d r _ htwo
              · simp only
                split
                · exact secretsRegistered_of_no_update d r _ htwo
                · obtain ⟨ext, hext, hst⟩ := patchRevalidate_registered h d r.connectorTypeId
                    dbresource ct originalSecrets resource
                    { resource with
                      Metadata :=
                        { resource.Metadata with
                          Name := patch.Metadata.Name
                          KafkaId := patch.Metadata.KafkaId
                          ResourceVersion := patch.Metadata.ResourceVersion }
                      ConnectorSpec := patch.ConnectorSpec
                      DesiredState := patch.DesiredState
                      Kafka := patch.Kafka } s2
                    [HandlerCall.ConnectorsGet r.connectorId r.connectorTypeId
                      (some dbresource) Option.none,
                      HandlerCall.ConnectorTypesGet dbresource.ConnectorTypeId (some ct)]
                  rw [hext]
                  exact secretsRegistered_of_staleRegistered d r dbresource ct originalSecrets
                    ext hsr hst
            · exact secretsRegistered_of_no_update d r _ htwo

/-- The calls of `Patch`: what is registered. -/
theorem patchCalls_registered {σ J : Type} [DecidableEq J] (h : ConnectorsHandler σ)
    (d : Deps σ J) (r : PatchRequest) (s : σ) :
    SecretsRegistered d r (patchCalls h d r s) := by
  have hnil : SecretsRegistered d r [] :=
    secretsRegistered_of_no_update d r [] (by simp)
  have hval : ∀ a b c, (recordingDeps d).Validation a b c = d.Validation a b c :=
    fun _ _ _ => rfl
  have hmax : (recordingDeps d).maxConnectorTypeIdLength = d.maxConnectorTypeIdLength := rfl
  unfold patchCalls Patch
  simp only [hval, hmax]
  rcases d.Validation "connector_id" r.connectorId
      [ValidateOption.MinLen 1, ValidateOption.MaxLen maxConnectorIdLength] with _ | e
  · rcases d.Validation "connector_type_id" r.connectorTypeId
        [ValidateOption.MaxLen d.maxConnectorTypeIdLength] with _ | e
    · rcases d.Validation "Content-Type header" r.contentType
          [ValidateOption.IsOneOf
            ["application/json-patch+json", "application/merge-patch+json"]] with _ | e
      · exact patchAction_registered h d r s
      · exact hnil
    · exact hnil
  · exact hnil

theorem registrations_secretsCalls_ok {σ J : Type} (d : Deps σ J) (ct : ConnectorType)
    (originalSecrets newSecrets : List String) (p : Connector)
    (hgs : d.getSecretRefs p ct = Except.ok newSecrets) :
    registrations (secretsCalls d ct originalSecrets p)
      = if (StringListSubtract originalSecrets newSecrets).length > 0 then
          [{ staleSecrets := StringListSubtract originalSecrets newSecrets }]
        else [] := by
  unfold secretsCalls
  rw [hgs]
  simp only
  by_cases hlen : (StringListSubtract originalSecrets newSecrets).length > 0
  · simp only [if_pos hlen]
    rfl
  · simp only [if_neg hlen]
    rfl

theorem registrations_secretsCalls_error {σ J : Type} (d : Deps σ J) (ct : ConnectorType)
    (originalSecrets : List String) (p : Connector) (e : String)
    (hgs : d.getSecretRefs p ct = Except.error e) :
    registrations (secretsCalls d ct originalSecrets p) = [] := by
  unfold secretsCalls
  rw [hgs]
  rfl

/-- The post-commit action, when it runs, deletes its stale secrets, one call each. -/
theorem postCommitCalls_eq {σ : Type} (h : ConnectorsHandler σ) (a : PostCommitAction)
    (s : σ) :
    postCommitCalls h a s = a.staleSecrets.map HandlerCall.DeleteSecretString := by
  unfold postCommitCalls runPostCommitAction
  have hgen : ∀ (l : List String) (s0 : σ) (log : List HandlerCall),
      (l.foldl (fun s1 secret =>
          ((recordingHandler h).vaultService.DeleteSecretString secret s1).2) (s0, log)).2
        = log ++ l.map HandlerCall.DeleteSecretString := by
    intro l
    induction l with
    | nil => simp
    | cons x l ih =>
      intro s0 log
      rw [List.foldl_cons]
      have hstep : ((recordingHandler h).vaultService.DeleteSecretString x (s0, log)).2
          = ((h.vaultService.DeleteSecretString x s0).2,
              log ++ [HandlerCall.DeleteSecretString x]) := rfl
      rw [hstep, ih]
      simp
  simpa using hgen a.staleSecrets s []

/-! ## Lemmas on what `Patch` hands to `Update` -/

theorem framedCall_secretsCalls {σ J : Type} (d : Deps σ J) (ct : ConnectorType)
    (resource : PresentedConnector J) (originalSecrets : List String) (p : Connector) :
    ∀ call ∈ secretsCalls d ct originalSecrets p, FramedCall d ct resource call := by
  intro call hc
  obtain ⟨a, ha⟩ := (secretsCalls_spec d ct originalSecrets p).2.2.1 call hc
  rw [ha]
  trivial

theorem patchStore_framed {σ J : Type} (h : ConnectorsHandler σ) (d : Deps σ J)
    (dbresource : Connector) (ct : ConnectorType) (originalSecrets : List String)
    (originalResource resource : PresentedConnector J) (p : Connector) (s : σ)
    (log : List HandlerCall)
    (hp : ∃ p0 s0, ConvertConnector d resource = Except.ok p0
      ∧ (d.moveSecretsToVault p0 ct false s0).1 = (Option.none, p)) :
    ∃ ext,
      (patchStore (recordingHandler h) (recordingDeps d) dbresource ct originalSecrets
          originalResource p (s, log)).2.2 = log ++ ext
      ∧ ∀ call ∈ ext, FramedCall d ct resource call := by
  have hfu : ∀ e a, FramedCall d ct resource (HandlerCall.ConnectorsUpdate p e a) :=
    fun _ _ => hp
  unfold patchStore
  have hupd : (recordingHandler h).connectorsService.Update p (s, log)
      = ((h.connectorsService.Update p s).1,
          ((h.connectorsService.Update p s).2,
            log ++ [HandlerCall.ConnectorsUpdate p (h.connectorsService.Update p s).1.1
              (h.connectorsService.Update p s).1.2])) := rfl
  rw [hupd]
  rcases hu : h.connectorsService.Update p s with ⟨⟨_ | e, p1⟩, s1⟩
  · simp only
    have hassign : (recordingDeps d).ConnectorStatusPhaseAssigning
        = d.ConnectorStatusPhaseAssigning := rfl
    have hupdating : (recordingDeps d).ConnectorStatusPhaseUpdating
        = d.ConnectorStatusPhaseUpdating := rfl
    rw [hassign, hupdating]
    by_cases hst : (originalResource.Status != d.ConnectorStatusPhaseAssigning) = true
    · simp only [hst, if_true]
      have hsave : ∀ st (l : List HandlerCall),
          (recordingHandler h).connectorsService.SaveStatus st (s1, l)
            = ((h.connectorsService.SaveStatus st s1).1,
                ((h.connectorsService.SaveStatus st s1).2,
                  l ++ [HandlerCall.ConnectorsSaveStatus st
                    (h.connectorsService.SaveStatus st s1).1])) := fun _ _ => rfl
      rw [hsave]
      rcases hsv : h.connectorsService.SaveStatus
          { dbresource.Status with Phase := d.ConnectorStatusPhaseUpdating } s1
        with ⟨_ | e, s2⟩
      · simp only
        rw [recording_patchSecrets]
        refine ⟨[HandlerCall.ConnectorsUpdate p Option.none p1,
            HandlerCall.ConnectorsSaveStatus
              { dbresource.Status with Phase := d.ConnectorStatusPhaseUpdating } Option.none]
            ++ secretsCalls d ct originalSecrets
              { p1 with Status := { p1.Status with Phase := d.ConnectorStatusPhaseUpdating } },
          by simp, ?_⟩
        intro call hc
        rcases List.mem_append.mp hc with hc | hc
        · simp only [List.mem_cons, List.mem_singleton, List.not_mem_nil, or_false] at hc
          rcases hc with hc | hc
          · rw [hc]
            exact hfu _ _
          · rw [hc]
            trivial
        · exact framedCall_secretsCalls d ct resource originalSecrets _ call hc
      · simp only
        refine ⟨[HandlerCall.ConnectorsUpdate p Option.none p1,
            HandlerCall.ConnectorsSaveStatus
              { dbresource.Status with Phase := d.ConnectorStatusPhaseUpdating } (some e)],
          by simp, ?_⟩
        intro call hc
        simp only [List.mem_cons, List.mem_singleton, List.not_mem_nil, or_false] at hc
        rcases hc with hc | hc
        · rw [hc]
          exact hfu _ _
        · rw [hc]
          trivial
    · simp only [hst, Bool.false_eq_true, if_false]
      rw [recording_patchSecrets]
      refine ⟨[HandlerCall.ConnectorsUpdate p Option.none p1]
          ++ secretsCalls d ct originalSecrets p1, by simp, ?_⟩
      intro call hc
      rcases List.mem_append.mp hc with hc | hc
      · simp only [List.mem_singleton] at hc
        rw [hc]
        exact hfu _ _
      · exact framedCall_secretsCalls d ct resource originalSecrets _ call hc
  · simp only
    refine ⟨[HandlerCall.ConnectorsUpdate p (some e) p1], rfl, ?_⟩
    intro call hc
    simp only [List.mem_singleton] at hc
    rw [hc]
    exact hfu _ _

theorem patchConvert_framed {σ J : Type} (h : ConnectorsHandler σ) (d : Deps σ J)
    (dbresource : Connector) (ct : ConnectorType) (originalSecrets : List String)
    (originalResource resource : PresentedConnector J) (s : σ) (log : List HandlerCall) :
    ∃ ext,
      (patchConvert (recordingHandler h) (recordingDeps d) dbresource ct originalSecrets
          originalResource resource (s, log)).2.2 = log ++ ext
      ∧ ∀ call ∈ ext, FramedCall d ct resource call := by
  unfold patchConvert
  have hconv : ConvertConnector (recordingDeps d) resource = ConvertConnector d resource :=
    rfl
  rw [hconv]
  rcases hc : ConvertConnector d resource with e | p
  · exact ⟨[], by simp, by simp⟩
  · simp only
    have hmove : (recordingDeps d).moveSecretsToVault p ct false (s, log)
        = ((d.moveSecretsToVault p ct false s).1,
            ((d.moveSecretsToVault p ct false s).2,
              log ++ [HandlerCall.MoveSecretsToVault p
                (d.moveSecretsToVault p ct false s).1.1
                (d.moveSecretsToVault p ct false s).1.2])) := rfl
    rw [hmove]
    rcases hm : d.moveSecretsToVault p ct false s with ⟨⟨_ | e, p1⟩, s2⟩
    · simp only
      obtain ⟨ext, hext, hst⟩ := patchStore_framed h d dbresource ct originalSecrets
        originalResource resource p1 s2
        (log ++ [HandlerCall.MoveSecretsToVault p Option.none p1])
        ⟨p, s, hc, by rw [hm]⟩
      refine ⟨[HandlerCall.MoveSecretsToVault p Option.none p1] ++ ext,
        by rw [hext]; simp, ?_⟩
      intro call hcall
      rcases List.mem_append.mp hcall with hcall | hcall
      · simp only [List.mem_singleton] at hcall
        rw [hcall]
        exact hc
      · exact hst call hcall
    · simp only
      refine ⟨[HandlerCall.MoveSecretsToVault p (some e) p1], rfl, ?_⟩
      intro call hcall
      simp only [List.mem_singleton] at hcall
      rw [hcall]
      exact hc

theorem patchUpdate_framed {σ J : Type} (h : ConnectorsHandler σ) (d : Deps σ J)
    (dbresource : Connector) (ct : ConnectorType) (originalSecrets : List String)
    (originalResource resource : PresentedConnector J) (s : σ) (log : List HandlerCall) :
    ∃ ext,
      (patchUpdate (recordingHandler h) (recordingDeps d) dbresource ct originalSecrets
          originalResource resource (s, log)).2.2 = log ++ ext
      ∧ ∀ call ∈ ext, FramedCall d ct resource call := by
  unfold patchUpdate
  by_cases hk : (resource.Metadata.KafkaId != originalResource.Metadata.KafkaId) = true
  · simp only [hk, if_true]
    have hget : (recordingHandler h).kafkaService.Get resource.Metadata.KafkaId (s, log)
        = ((h.kafkaService.Get resource.Metadata.KafkaId s).1,
            ((h.kafkaService.Get resource.Metadata.KafkaId s).2,
              log ++ [HandlerCall.KafkaGet resource.Metadata.KafkaId
                (h.kafkaService.Get resource.Metadata.KafkaId s).1])) := rfl
    rw [hget]
    rcases hg : h.kafkaService.Get resource.Metadata.KafkaId s with ⟨_ | e, s1⟩
    · simp only
      obtain ⟨ext, hext, hst⟩ := patchConvert_framed h d dbresource ct originalSecrets
        originalResource resource s1
        (log ++ [HandlerCall.KafkaGet resource.Metadata.KafkaId Option.none])
      refine ⟨[HandlerCall.KafkaGet resource.Metadata.KafkaId Option.none] ++ ext,
        by rw [hext]; simp, ?_⟩
      intro call hcall
      rcases List.mem_append.mp hcall with hcall | hcall
      · simp only [List.mem_singleton] at hcall
        rw [hcall]
        trivial
      · exact hst call hcall
    · simp only
      refine ⟨[HandlerCall.KafkaGet resource.Metadata.KafkaId (some e)], rfl, ?_⟩
      intro call hcall
      simp only [List.mem_singleton] at hcall
      rw [hcall]
      trivial
  · simp only [hk, Bool.false_eq_true, if_false]
    exact patchConvert_framed h d dbresource ct originalSecrets originalResource resource s log

theorem patchRevalidate_framed {σ J : Type} (h : ConnectorsHandler σ) (d : Deps σ J)
    (connectorTypeId : String) (dbresource : Connector) (ct : ConnectorType)
    (originalSecrets : List String) (originalResource resource : PresentedConnector J)
    (s : σ) (log : List HandlerCall) :
    ∃ ext,
      (patchRevalidate (recordingHandler h) (recordingDeps d) connectorTypeId dbresource ct
          originalSecrets originalResource resource (s, log)).2.2 = log ++ ext
      ∧ ∀ call ∈ ext, FramedCall d ct resource call := by
  have hval : ∀ a b c, (recordingDeps d).Validation a b c = d.Validation a b c :=
    fun _ _ _ => rfl
  unfold patchRevalidate
  simp only [hval]
  rcases d.Validation "name" resource.Metadata.Name
      [ValidateOption.MinLen 1, ValidateOption.MaxLen 100] with _ | e
  · rcases d.Validation "connector_type_id" resource.ConnectorTypeId
        [ValidateOption.MinLen 1, ValidateOption.MaxLen maxKafkaNameLength] with _ | e
    · rcases d.Validation "kafka_id" resource.Metadata.KafkaId
          [ValidateOption.MinLen 1, ValidateOption.MaxLen maxKafkaNameLength] with _ | e
      · rcases d.Validation "Kafka client_id" resource.Kafka.ClientId
            [ValidateOption.MinLen 1] with _ | e
        · simp only
          have hvs : (recordingDeps d).validateConnectorSpec resource connectorTypeId (s, log)
              = ((d.validateConnectorSpec resource connectorTypeId s).1,
                  ((d.validateConnectorSpec resource connectorTypeId s).2, log)) := rfl
          rw [hvs]
          rcases d.validateConnectorSpec resource connectorTypeId s with ⟨_ | e, s1⟩
          · simp only
            exact patchUpdate_framed h d dbresource ct originalSecrets originalResource
              resource s1 log
          · exact ⟨[], by simp, by simp⟩
        · exact ⟨[], by simp, by simp⟩
      · exact ⟨[], by simp, by simp⟩
    · exact ⟨[], by simp, by simp⟩
  · exact ⟨[], by simp, by simp⟩

/-- Every call of the action of `Patch` is the `Get` of the connector, the `Get` of its type,
or a call made for the patched resource. -/
theorem patchAction_framed {σ J : Type} [DecidableEq J] (h : ConnectorsHandler σ)
    (d : Deps σ J) (r : PatchRequest) (s : σ) :
    ∀ call ∈ (patchAction (recordingHandler h) (recordingDeps d) r (s, [])).2.2,
      (∃ id t f e, call = HandlerCall.ConnectorsGet id t f e)
      ∨ (∃ id f, call = HandlerCall.ConnectorTypesGet id f)
      ∨ ∃ dbresource resource patch ct,
          HandlerCall.ConnectorsGet r.connectorId r.connectorTypeId (some dbresource)
              Option.none
            ∈ (patchAction (recordingHandler h) (recordingDeps d) r (s, [])).2.2
          ∧ PresentConnector d dbresource = Except.ok resource
          ∧ FramedCall d ct (patchedResource resource patch) call := by
  have hshort1 : ∀ (x : HandlerCall) (call : HandlerCall),
      (∃ id t f e, x = HandlerCall.ConnectorsGet id t f e) → call ∈ [x] →
      (∃ id t f e, call = HandlerCall.ConnectorsGet id t f e) := by
    intro x call hx hc
    rw [List.mem_singleton.mp hc]
    exact hx
  unfold patchAction
  have hget : (recordingHandler h).connectorsService.Get r.connectorId r.connectorTypeId (s, [])
      = ((h.connectorsService.Get r.connectorId r.connectorTypeId s).1,
          ((h.connectorsService.Get r.connectorId r.connectorTypeId s).2,
            [HandlerCall.ConnectorsGet r.connectorId r.connectorTypeId
              (okValue (h.connectorsService.Get r.connectorId r.connectorTypeId s).1)
              (errValue (h.connectorsService.Get r.connectorId r.connectorTypeId s).1)])) := rfl
  have hpresent : ∀ c, PresentConnector (recordingDeps d) c = PresentConnector d c :=
    fun _ => rfl
  have hrefs : ∀ c ct, (recordingDeps d).getSecretRefs c ct = d.getSecretRefs c ct :=
    fun _ _ => rfl
  have hvalid : ∀ b ct, validateConnectorPatch (recordingDeps d) b ct
      = validateConnectorPatch d b ct := fun _ _ => rfl
  have hpatch : ∀ res t b, PatchResource (recordingDeps d) res t b = PatchResource d res t b :=
    fun _ _ _ => rfl
  have hzero : zeroConnector (recordingDeps d) = zeroConnector d := rfl
  rw [hget]
  simp only [hpresent, hrefs, hvalid, hpatch, hzero]
  rcases hg : h.connectorsService.Get r.connectorId r.connectorTypeId s
    with ⟨e | dbresource, s1⟩
  · intro call hc
    exact Or.inl (hshort1 _ call ⟨_, _, _, _, rfl⟩ hc)
  · simp only [okValue, errValue]
    have hone : ∀ call ∈ [HandlerCall.ConnectorsGet r.connectorId r.connectorTypeId
        (some dbresource) Option.none],
        (∃ id t f e, call = HandlerCall.ConnectorsGet id t f e)
        ∨ (∃ id f, call = HandlerCall.ConnectorTypesGet id f)
        ∨ ∃ dbresource0 resource patch ct,
            HandlerCall.ConnectorsGet r.connectorId r.connectorTypeId (some dbresource0)
                Option.none
              ∈ [HandlerCall.ConnectorsGet r.connectorId r.connectorTypeId
                  (some dbresource) Option.none]
            ∧ PresentConnector d dbresource0 = Except.ok resource
            ∧ FramedCall d ct (patchedResource resource patch) call := by
      intro call hc
      exact Or.inl (hshort1 _ call ⟨_, _, _, _, rfl⟩ hc)
    rcases hp : PresentConnector d dbresource with e | resource
    · exact hone
    · simp only
      have htget : ∀ l : List HandlerCall,
          (recordingHandler h).connectorTypesService.Get dbresource.ConnectorTypeId (s1, l)
            = ((h.connectorTypesService.Get dbresource.ConnectorTypeId s1).1,
                ((h.connectorTypesService.Get dbresource.ConnectorTypeId s1).2,
                  l ++ [HandlerCall.ConnectorTypesGet dbresource.ConnectorTypeId
                    (okValue (h.connectorTypesService.Get dbresource.ConnectorTypeId s1).1)])) :=
        fun _ => rfl
      rw [htget]
      have htwo : ∀ (f : Option ConnectorType),
          ∀ call ∈ [HandlerCall.ConnectorsGet r.connectorId r.connectorTypeId
              (some dbresource) Option.none,
              HandlerCall.ConnectorTypesGet dbresource.ConnectorTypeId f],
          (∃ id t f e, call = HandlerCall.ConnectorsGet id t f e)
          ∨ (∃ id f, call = HandlerCall.ConnectorTypesGet id f)
          ∨ ∃ dbresource0 resource patch ct,
              HandlerCall.ConnectorsGet r.connectorId r.connectorTypeId (some dbresource0)
                  Option.none
                ∈ [HandlerCall.ConnectorsGet r.connectorId r.connectorTypeId
                    (some dbresource) Option.none,
                    HandlerCall.ConnectorTypesGet dbresource.ConnectorTypeId f]
              ∧ PresentConnector d dbresource0 = Except.ok resource
              ∧ FramedCall d ct (patchedResource resource patch) call := by
        intro f call hc
        simp only [List.mem_cons, List.mem_singleton, List.not_mem_nil, or_false] at hc
        rcases hc with hc | hc
        · exact Or.inl ⟨_, _, _, _, hc⟩
        · exact Or.inr (Or.inl ⟨_, _, hc⟩)
      rcases ht : h.connectorTypesService.Get dbresource.ConnectorTypeId s1 with ⟨e | ct, s2⟩
      · exact htwo _
      · simp only [okValue, List.cons_append, List.nil_append]
        rcases hsr : d.getSecretRefs dbresource ct with e | originalSecrets
        · exact htwo _
        · simp only
          rcases r.body with e | patchBytes
          · exact htwo _
          · simp only
            rcases validateConnectorPatch d patchBytes ct with _ | e
            · simp only
              rcases PatchResource d resource r.contentType patchBytes with e | patch
              · exact htwo _
              · simp only
                split
                · exact htwo _
                · obtain ⟨ext, hext, hst⟩ := patchRevalidate_framed h d r.connectorTypeId
                    dbresource ct originalSecrets resource
                    { resource with
                      Metadata :=
                        { resource.Metadata with
                          Name := patch.Metadata.Name
                          KafkaId := patch.Metadata.KafkaId
                          ResourceVersion := patch.Metadata.ResourceVersion }
                      ConnectorSpec := patch.ConnectorSpec
                      DesiredState := patch.DesiredState
                      Kafka := patch.Kafka } s2
                    [HandlerCall.ConnectorsGet r.connectorId r.connectorTypeId
                      (some dbresource) Option.none,
                      HandlerCall.ConnectorTypesGet dbresource.ConnectorTypeId (some ct)]
                  rw [hext]
                  intro call hc
                  rcases List.mem_append.mp hc with hc | hc
                  · simp only [List.mem_cons, List.mem_singleton, List.not_mem_nil,
                      or_false] at hc
                    rcases hc with hc | hc
                    · exact Or.inl ⟨_, _, _, _, hc⟩
                    · exact Or.inr (Or.inl ⟨_, _, hc⟩)
                  · exact Or.inr (Or.inr ⟨dbresource, resource, patch, ct,
                      List.mem_append_left _ (List.mem_cons_self _ _), hp, hst call hc⟩)
            · exact htwo _

/-- Every call of `Patch` is the `Get` of the connector, the `Get` of its type, or a call
made for the patched resource. -/
theorem patchCalls_framed {σ J : Type} [DecidableEq J] (h : ConnectorsHandler σ)
    (d : Deps σ J) (r : PatchRequest) (s : σ) :
    ∀ call ∈ patchCalls h d r s,
      (∃ id t f e, call = HandlerCall.ConnectorsGet id t f e)
      ∨ (∃ id f, call = HandlerCall.ConnectorTypesGet id f)
      ∨ ∃ dbresource resource patch ct,
          HandlerCall.ConnectorsGet r.connectorId r.connectorTypeId (some dbresource)
              Option.none ∈ patchCalls h d r s
          ∧ PresentConnector d dbresource = Except.ok resource
          ∧ FramedCall d ct (patchedResource resource patch) call := by
  have hval : ∀ a b c, (recordingDeps d).Validation a b c = d.Validation a b c :=
    fun _ _ _ => rfl
  have hmax : (recordingDeps d).maxConnectorTypeIdLength = d.maxConnectorTypeIdLength := rfl
  unfold patchCalls Patch
  simp only [hval, hmax]
  rcases d.Validation "connector_id" r.connectorId
      [ValidateOption.MinLen 1, ValidateOption.MaxLen maxConnectorIdLength] with _ | e
  · rcases d.Validation "connector_type_id" r.connectorTypeId
        [ValidateOption.MaxLen d.maxConnectorTypeIdLength] with _ | e
    · rcases d.Validation "Content-Type header" r.contentType
          [ValidateOption.IsOneOf
            ["application/json-patch+json", "application/merge-patch+json"]] with _ | e
      · exact patchAction_framed h d r s
      · intro call hc
        cases hc
    · intro call hc
      cases hc
  · intro call hc
    cases hc

/-- The conversion of the patched resource: what the stored connector has, but for the
fields taken from the patch, and for the organisation and the timestamps, which
`ConvertConnector` does not set. -/
theorem convert_patchedResource {σ J : Type} (d : Deps σ J) (dbresource p : Connector)
    (resource patch : PresentedConnector J)
    (hpres : PresentConnector d dbresource = Except.ok resource)
    (hconv : ConvertConnector d (patchedResource resource patch) = Except.ok p) :
    p = { dbresource with
          ID := (d.PresentReference dbresource.ID).Id
          CreatedAt := 0, UpdatedAt := 0, OrganisationId := ""
          Name := patch.Metadata.Name
          KafkaID := patch.Metadata.KafkaId
          Version := patch.Metadata.ResourceVersion
          ConnectorSpec := p.ConnectorSpec
          DesiredState := patch.DesiredState
          Kafka :=
            { BootstrapServer := patch.Kafka.BootstrapServer
              ClientId := patch.Kafka.ClientId
              ClientSecret := patch.Kafka.ClientSecret } } := by
  unfold PresentConnector at hpres
  rcases hu : d.unmarshalSpec dbresource.ConnectorSpec with e | spec
  · rw [hu] at hpres
    cases hpres
  · rw [hu] at hpres
    simp only [Except.ok.injEq] at hpres
    unfold ConvertConnector at hconv
    rcases hm : d.marshalSpec (patchedResource resource patch).ConnectorSpec with e | text
    · rw [hm] at hconv
      cases hconv
    · rw [hm] at hconv
      simp only [Except.ok.injEq] at hconv
      rw [← hconv, ← hpres]
      rfl

/-! ## The connector handlers: properties -/

/-- C15. The `Delete` handler of a stored connector, its request being valid: when the
desired state is already `deleted` the only call is the `Get`, the handler succeeds and the
state of the world is as the `Get` left it; otherwise the handler calls `Update` once, with
the record whose desired state is set to `deleted` and nothing else changed, and answers with
the error of `Update`.  So `Update` is called if and only if the desired state was not
`deleted`.  Over a store of connectors, a `Delete` of a stored connector succeeds, the store
then holds the record with desired state `deleted`, and a second `Delete` succeeds and leaves
that store as it is. -/
theorem delete_is_idempotent {σ J : Type} (h : ConnectorsHandler σ) (d : Deps σ J)
    (connectorId : String) (s : σ) (c : Connector)
    (hv : d.Validation "connector_id" connectorId
      [ValidateOption.MinLen 1, ValidateOption.MaxLen maxConnectorIdLength] = Option.none)
    (hget : (h.connectorsService.Get connectorId "" s).1 = Except.ok c) :
    (c.DesiredState = "deleted" →
        Delete h d connectorId s = (Option.none, (h.connectorsService.Get connectorId "" s).2)
        ∧ deleteCalls h d connectorId s
          = [HandlerCall.ConnectorsGet connectorId "" (some c) Option.none])
    ∧ (c.DesiredState ≠ "deleted" →
        deleteCalls h d connectorId s
          = [HandlerCall.ConnectorsGet connectorId "" (some c) Option.none,
             HandlerCall.ConnectorsUpdate { c with DesiredState := "deleted" }
               (h.connectorsService.Update { c with DesiredState := "deleted" }
                 (h.connectorsService.Get connectorId "" s).2).1.1
               (h.connectorsService.Update { c with DesiredState := "deleted" }
                 (h.connectorsService.Get connectorId "" s).2).1.2]
        ∧ (Delete h d connectorId s).1
          = (h.connectorsService.Update { c with DesiredState := "deleted" }
              (h.connectorsService.Get connectorId "" s).2).1.1)
    ∧ ((∃ c1 err after, HandlerCall.ConnectorsUpdate c1 err after ∈ deleteCalls h d connectorId s)
        ↔ c.DesiredState ≠ "deleted")
    ∧ (∀ (dd : Deps (List Connector) J) (store : List Connector) (stored : Connector),
        dd.Validation "connector_id" stored.ID
          [ValidateOption.MinLen 1, ValidateOption.MaxLen maxConnectorIdLength] = Option.none →
        store.find? (fun c0 => c0.ID == stored.ID) = some stored →
        (Delete storeHandler dd stored.ID store).1 = Option.none
        ∧ (Delete storeHandler dd stored.ID store).2.find? (fun c0 => c0.ID == stored.ID)
            = some { stored with DesiredState := "deleted" }
        ∧ Delete storeHandler dd stored.ID (Delete storeHandler dd stored.ID store).2
            = (Option.none, (Delete storeHandler dd stored.ID store).2)) := by
  have hgetr : (recordingHandler h).connectorsService.Get connectorId "" (s, [])
      = (Except.ok c, ((h.connectorsService.Get connectorId "" s).2,
          [HandlerCall.ConnectorsGet connectorId "" (some c) Option.none])) := by
    simp [recordingHandler, hget, okValue, errValue]
  have hget2 : h.connectorsService.Get connectorId "" s
      = (Except.ok c, (h.connectorsService.Get connectorId "" s).2) := by
    rw [← hget]
  have hcalls1 : c.DesiredState = "deleted" →
      deleteCalls h d connectorId s
        = [HandlerCall.ConnectorsGet connectorId "" (some c) Option.none] := by
    intro hd
    have hvr : (recordingDeps d).Validation "connector_id" connectorId
      [ValidateOption.MinLen 1, ValidateOption.MaxLen maxConnectorIdLength] = Option.none := hv
    simp only [deleteCalls, Delete, hvr, deleteAction, hgetr]
    simp [hd]
  have hcalls2 : c.DesiredState ≠ "deleted" →
      deleteCalls h d connectorId s
        = [HandlerCall.ConnectorsGet connectorId "" (some c) Option.none,
           HandlerCall.ConnectorsUpdate { c with DesiredState := "deleted" }
             (h.connectorsService.Update { c with DesiredState := "deleted" }
               (h.connectorsService.Get connectorId "" s).2).1.1
             (h.connectorsService.Update { c with DesiredState := "deleted" }
               (h.connectorsService.Get connectorId "" s).2).1.2] := by
    intro hd
    have hvr : (recordingDeps d).Validation "connector_id" connectorId
      [ValidateOption.MinLen 1, ValidateOption.MaxLen maxConnectorIdLength] = Option.none := hv
    simp only [deleteCalls, Delete, hvr, deleteAction, hgetr]
    have hb : (c.DesiredState != "deleted") = true := by simpa using hd
    simp only [hb, if_true]
    rcases hu : h.connectorsService.Update { c with DesiredState := "deleted" }
        (h.connectorsService.Get connectorId "" s).2 with ⟨⟨_ | e, after⟩, s2⟩ <;>
      simp [recordingHandler, hu]
  refine ⟨?_, ?_, ?_, ?_⟩
  · intro hd
    refine ⟨?_, hcalls1 hd⟩
    unfold Delete deleteAction
    rw [hv, hget2]
    simp [hd]
  · intro hd
    refine ⟨hcalls2 hd, ?_⟩
    unfold Delete deleteAction
    rw [hv, hget2]
    have hb : (c.DesiredState != "deleted") = true := by simpa using hd
    simp only [hb, if_true]
    rcases hu : h.connectorsService.Update { c with DesiredState := "deleted" }
        (h.connectorsService.Get connectorId "" s).2 with ⟨⟨_ | e, after⟩, s2⟩ <;> simp
  · constructor
    · rintro ⟨c1, err, after, hmem⟩ hd
      rw [hcalls1 hd] at hmem
      simp at hmem
    · intro hd
      rw [hcalls2 hd]
      exact ⟨_, _, _, List.mem_cons_of_mem _ (List.mem_singleton.mpr rfl)⟩
  · intro dd store stored hvs hfind
    have hdel : stored.DesiredState ≠ "deleted" →
        Delete storeHandler dd stored.ID store
          = (Option.none,
              store.map fun c0 =>
                if c0.ID == stored.ID then { stored with DesiredState := "deleted" } else c0) := by
      intro hd
      have hb : (stored.DesiredState != "deleted") = true := by simpa using hd
      simp [Delete, hvs, deleteAction, storeHandler, storeConnectorsService, hfind, hb]
    have hkeep : ∀ (st : List Connector) (c0 : Connector),
        st.find? (fun c1 => c1.ID == stored.ID) = some c0 → c0.DesiredState = "deleted" →
        Delete storeHandler dd stored.ID st = (Option.none, st) := by
      intro st c0 hf hd
      simp [Delete, hvs, deleteAction, storeHandler, storeConnectorsService, hf, hd]
    by_cases hd : stored.DesiredState = "deleted"
    · rw [hkeep store stored hfind hd]
      refine ⟨rfl, ?_, hkeep store stored hfind hd⟩
      simp only
      rw [hfind]
      congr 1
      rcases stored with ⟨⟩
      simp only at hd
      simp [hd]
    · have hfind2 := find_after_replace store stored
        { stored with DesiredState := "deleted" } hfind rfl
      rw [hdel hd]
      exact ⟨rfl, hfind2, hkeep _ _ hfind2 rfl⟩

/-- On the store that holds the concrete connector, `Delete` calls `Update` once and sets
the desired state to `deleted`; a second `Delete` changes nothing. -/
theorem delete_is_idempotent_witness :
    deleteCalls storeHandler demoDeps "c1" [demoConnector]
      = [HandlerCall.ConnectorsGet "c1" "" (some demoConnector) Option.none,
         HandlerCall.ConnectorsUpdate { demoConnector with DesiredState := "deleted" }
           Option.none { demoConnector with DesiredState := "deleted" }]
    ∧ Delete storeHandler demoDeps "c1" [demoConnector]
      = (Option.none, [{ demoConnector with DesiredState := "deleted" }])
    ∧ Delete storeHandler demoDeps "c1" [{ demoConnector with DesiredState := "deleted" }]
      = (Option.none, [{ demoConnector with DesiredState := "deleted" }]) :=
  ⟨((delete_is_idempotent storeHandler demoDeps "c1" [demoConnector] demoConnector rfl rfl).2.1
      (by decide)).1,
    by decide, by decide⟩

/-- C20. The stale secrets of `Patch`.  `StringListSubtract l items` holds every element of
`l` that is not in `items`, each once, and nothing else.  Lines 231-246, for an updated
connector whose secret references are `newSecrets`, register one post-commit action for
`StringListSubtract originalSecrets newSecrets` when that list is not empty, and make no
other call.  In a whole `Patch`: no secret is deleted from the vault; at most one post-commit
action is registered; an action registered is for the secret references of the stored
connector, the one `Get` returned, that are not secret references of the updated connector,
the one `Update` accepted, each once; when the action runs it deletes those secrets and no
others, so no secret the updated connector refers to.  And the action is registered: in a
`Patch` whose `Update` succeeded and in which no `SaveStatus` failed, the actions registered
are exactly the one for `StringListSubtract originalSecrets newSecrets` when that list is not
empty, and none when it is empty or the secret references of the updated connector cannot
be read; the updated connector is the one `Update` left, with the phase updating when the
status was saved. -/
theorem patch_schedules_stale_secrets {σ J : Type} [DecidableEq J] (h : ConnectorsHandler σ)
    (d : Deps σ J) (r : PatchRequest) (s : σ) :
    (∀ (l items : List String),
        (∀ x, x ∈ StringListSubtract l items ↔ x ∈ l ∧ x ∉ items)
        ∧ (StringListSubtract l items).Nodup)
    ∧ (∀ (ct : ConnectorType) (originalSecrets newSecrets : List String) (p : Connector)
        (s1 : σ) (log : List HandlerCall),
        d.getSecretRefs p ct = Except.ok newSecrets →
        (patchSecrets (recordingDeps d) ct originalSecrets p (s1, log)).2.2
          = log ++
              if (StringListSubtract originalSecrets newSecrets).length > 0 then
                [HandlerCall.AddPostCommitAction
                  { staleSecrets := StringListSubtract originalSecrets newSecrets }]
              else [])
    ∧ (∀ secret, HandlerCall.DeleteSecretString secret ∉ patchCalls h d r s)
    ∧ (registrations (patchCalls h d r s)).length ≤ 1
    ∧ (∀ a, HandlerCall.AddPostCommitAction a ∈ patchCalls h d r s →
        ∃ dbresource ct originalSecrets p0 p1 p newSecrets,
          HandlerCall.ConnectorsGet r.connectorId r.connectorTypeId (some dbresource)
              Option.none ∈ patchCalls h d r s
          ∧ HandlerCall.ConnectorTypesGet dbresource.ConnectorTypeId (some ct)
              ∈ patchCalls h d r s
          ∧ d.getSecretRefs dbresource ct = Except.ok originalSecrets
          ∧ HandlerCall.ConnectorsUpdate p0 Option.none p1 ∈ patchCalls h d r s
          ∧ (p = p1 ∨ p = { p1 with
                Status := { p1.Status with Phase := d.ConnectorStatusPhaseUpdating } })
          ∧ d.getSecretRefs p ct = Except.ok newSecrets
          ∧ a.staleSecrets = StringListSubtract originalSecrets newSecrets
          ∧ (∀ x, x ∈ a.staleSecrets ↔ x ∈ originalSecrets ∧ x ∉ newSecrets)
          ∧ a.staleSecrets.Nodup
          ∧ a.staleSecrets ≠ []
          ∧ ∀ s1, postCommitCalls h a s1 = a.staleSecrets.map HandlerCall.DeleteSecretString
              ∧ ∀ x ∈ newSecrets, HandlerCall.DeleteSecretString x ∉ postCommitCalls h a s1)
    ∧ (∀ p0 p1, HandlerCall.ConnectorsUpdate p0 Option.none p1 ∈ patchCalls h d r s →
        (∀ st e, HandlerCall.ConnectorsSaveStatus st (some e) ∉ patchCalls h d r s) →
        ∃ dbresource ct originalSecrets p,
          HandlerCall.ConnectorsGet r.connectorId r.connectorTypeId (some dbresource)
              Option.none ∈ patchCalls h d r s
          ∧ HandlerCall.ConnectorTypesGet dbresource.ConnectorTypeId (some ct)
              ∈ patchCalls h d r s
          ∧ d.getSecretRefs dbresource ct = Except.ok originalSecrets
          ∧ ((p = p1 ∧ ∀ st, HandlerCall.ConnectorsSaveStatus st Option.none
                ∉ patchCalls h d r s)
            ∨ (p = { p1 with
                  Status := { p1.Status with Phase := d.ConnectorStatusPhaseUpdating } }
                ∧ ∃ st, HandlerCall.ConnectorsSaveStatus st Option.none
                    ∈ patchCalls h d r s))
          ∧ (∀ newSecrets, d.getSecretRefs p ct = Except.ok newSecrets →
              registrations (patchCalls h d r s)
                = if (StringListSubtract originalSecrets newSecrets).length > 0 then
                    [{ staleSecrets := StringListSubtract originalSecrets newSecrets }]
                  else [])
          ∧ (∀ e, d.getSecretRefs p ct = Except.error e →
              registrations (patchCalls h d r s) = [])) := by
  obtain ⟨h1, h2, h3⟩ := patchCalls_scheduled h d r s
  refine ⟨fun l items => ⟨fun x => mem_StringListSubtract l items x,
    nodup_StringListSubtract l items⟩, ?_, h1, h2, ?_, ?_⟩
  · intro ct originalSecrets newSecrets p s1 log hgs
    rw [recording_patchSecrets]
    simp only [secretsCalls, hgs]
  · intro a ha
    obtain ⟨dbresource, ct, originalSecrets, p0, p1, p, newSecrets, hg, ht, ho, hu, hp, hn,
      hst, hne⟩ := h3 a ha
    have hmem : ∀ x, x ∈ a.staleSecrets ↔ x ∈ originalSecrets ∧ x ∉ newSecrets := by
      intro x
      rw [hst]
      exact mem_StringListSubtract originalSecrets newSecrets x
    refine ⟨dbresource, ct, originalSecrets, p0, p1, p, newSecrets, hg, ht, ho, hu, hp, hn,
      hst, hmem, ?_, hne, ?_⟩
    · rw [hst]
      exact nodup_StringListSubtract originalSecrets newSecrets
    · intro s1
      refine ⟨postCommitCalls_eq h a s1, ?_⟩
      intro x hx hdel
      rw [postCommitCalls_eq] at hdel
      simp only [List.mem_map, HandlerCall.DeleteSecretString.injEq] at hdel
      obtain ⟨y, hy, hxy⟩ := hdel
      rw [hxy] at hy
      exact ((hmem x).mp hy).2 hx
  · intro p0 p1 hu hnofail
    obtain ⟨dbresource, ct, originalSecrets, p, hg, ht, ho, hp, hreg⟩ :=
      patchCalls_registered h d r s p0 p1 hu hnofail
    refine ⟨dbresource, ct, originalSecrets, p, hg, ht, ho, hp, ?_, ?_⟩
    · intro newSecrets hn
      rw [hreg]
      exact registrations_secretsCalls_ok d ct originalSecrets newSecrets p hn
    · intro e he
      rw [hreg]
      exact registrations_secretsCalls_error d ct originalSecrets p e he

/-- A merge patch that gives the concrete connector a new client secret: the one post-commit
action registered is for the old client secret, and `Patch` deletes nothing itself. -/
theorem patch_schedules_stale_secrets_witness :
    registrations (patchCalls storeHandler patchDeps demoPatch [demoConnector])
      = [{ staleSecrets := ["secret-ref-1"] }]
    ∧ postCommitCalls storeHandler { staleSecrets := ["secret-ref-1"] } [demoConnector]
      = [HandlerCall.DeleteSecretString "secret-ref-1"]
    ∧ ∀ secret, HandlerCall.DeleteSecretString secret
        ∉ patchCalls storeHandler patchDeps demoPatch [demoConnector] :=
  ⟨by decide, by decide,
    (patch_schedules_stale_secrets storeHandler patchDeps demoPatch [demoConnector]).2.2.1⟩

/-! ## The presenters: round trip -/

/-- C23, as amended.  A reference carrying the id it is given, and `moveSecretsToVault`
changing nothing but the specification and the kafka connection settings: every connector
`Patch` passes to `Update` is the stored connector, the one `Get` returned, but for name,
kafka id, connector specification, desired state, resource version and kafka connection
settings, and for organisation and timestamps, which `ConvertConnector` does not set and
which are passed with their zero value.  Id, owner, connector type id, channel, deployment
location and status are those of the stored connector, whatever the patch holds.  Without the
assumption on `moveSecretsToVault`, the same holds of the connector passed to it. -/
theorem patch_update_frame {σ J : Type} [DecidableEq J] (h : ConnectorsHandler σ)
    (d : Deps σ J) (r : PatchRequest) (s : σ)
    (href : ∀ id, (d.PresentReference id).Id = id) :
    (∀ p e a, HandlerCall.MoveSecretsToVault p e a ∈ patchCalls h d r s →
        ∃ dbresource,
          HandlerCall.ConnectorsGet r.connectorId r.connectorTypeId (some dbresource)
              Option.none ∈ patchCalls h d r s
          ∧ p = { dbresource with
                  CreatedAt := 0, UpdatedAt := 0, OrganisationId := ""
                  Name := p.Name, KafkaID := p.KafkaID, Version := p.Version
                  ConnectorSpec := p.ConnectorSpec, DesiredState := p.DesiredState
                  Kafka := p.Kafka })
    ∧ ((∀ p ct create s0,
          (d.moveSecretsToVault p ct create s0).1.2
            = { p with
                ConnectorSpec := (d.moveSecretsToVault p ct create s0).1.2.ConnectorSpec
                Kafka := (d.moveSecretsToVault p ct create s0).1.2.Kafka }) →
        ∀ c e a, HandlerCall.ConnectorsUpdate c e a ∈ patchCalls h d r s →
          ∃ dbresource,
            HandlerCall.ConnectorsGet r.connectorId r.connectorTypeId (some dbresource)
                Option.none ∈ patchCalls h d r s
            ∧ c = { dbresource with
                    CreatedAt := 0, UpdatedAt := 0, OrganisationId := ""
                    Name := c.Name, KafkaID := c.KafkaID, Version := c.Version
                    ConnectorSpec := c.ConnectorSpec, DesiredState := c.DesiredState
                    Kafka := c.Kafka }
            ∧ c.ID = dbresource.ID ∧ c.Owner = dbresource.Owner
            ∧ c.ConnectorTypeId = dbresource.ConnectorTypeId
            ∧ c.Channel = dbresource.Channel ∧ c.TargetKind = dbresource.TargetKind
            ∧ c.AddonClusterId = dbresource.AddonClusterId
            ∧ c.CloudProvider = dbresource.CloudProvider ∧ c.Region = dbresource.Region
            ∧ c.MultiAZ = dbresource.MultiAZ ∧ c.Status = dbresource.Status
            ∧ c.OrganisationId = "" ∧ c.CreatedAt = 0 ∧ c.UpdatedAt = 0) := by
  have hframe : ∀ (dbresource p : Connector) (resource patch : PresentedConnector J),
      PresentConnector d dbresource = Except.ok resource →
      ConvertConnector d (patchedResource resource patch) = Except.ok p →
      p = { dbresource with
            CreatedAt := 0, UpdatedAt := 0, OrganisationId := ""
            Name := p.Name, KafkaID := p.KafkaID, Version := p.Version
            ConnectorSpec := p.ConnectorSpec, DesiredState := p.DesiredState
            Kafka := p.Kafka } := by
    intro dbresource p resource patch hpres hconv
    have hp := convert_patchedResource d dbresource p resource patch hpres hconv
    rw [href] at hp
    generalize p.ConnectorSpec = spec at hp
    rw [hp]
  constructor
  · intro p e a hmem
    rcases patchCalls_framed h d r s _ hmem with ⟨_, _, _, _, hc⟩ | ⟨_, _, hc⟩ |
      ⟨dbresource, resource, patch, ct, hget, hpres, hf⟩
    · cases hc
    · cases hc
    · exact ⟨dbresource, hget, hframe dbresource p resource patch hpres hf⟩
  · intro hmove c e a hmem
    rcases patchCalls_framed h d r s _ hmem with ⟨_, _, _, _, hc⟩ | ⟨_, _, hc⟩ |
      ⟨dbresource, resource, patch, ct, hget, hpres, hf⟩
    · cases hc
    · cases hc
    · obtain ⟨p, s0, hconv, hm⟩ := hf
      have hp := hframe dbresource p resource patch hpres hconv
      have hc := hmove p ct false s0
      rw [hm] at hc
      simp only at hc
      have heq : c = { dbresource with
          CreatedAt := 0, UpdatedAt := 0, OrganisationId := ""
          Name := c.Name, KafkaID := c.KafkaID, Version := c.Version
          ConnectorSpec := c.ConnectorSpec, DesiredState := c.DesiredState
          Kafka := c.Kafka } := by
        generalize c.ConnectorSpec = spec at hc
        generalize c.Kafka = kafka at hc
        rw [hc, hp]
      refine ⟨dbresource, hget, heq, ?_⟩
      rw [heq]
      exact ⟨rfl, rfl, rfl, rfl, rfl, rfl, rfl, rfl, rfl, rfl, rfl, rfl, rfl⟩

/-- The merge patch that gives the concrete connector a new client secret: `Update` receives
a connector with the id, owner and channel of the stored connector. -/
theorem patch_update_frame_witness :
    ∃ dbresource,
      HandlerCall.ConnectorsGet "c1" "aws-sqs-source" (some dbresource) Option.none
          ∈ patchCalls storeHandler patchDeps demoPatch [demoConnector]
      ∧ dbresource.ID = "c1" ∧ dbresource.Owner = "alice" ∧ dbresource.Channel = "stable" := by
  obtain ⟨dbresource, hget, _, hid, hown, _, hch, _⟩ :=
    (patch_update_frame storeHandler patchDeps demoPatch [demoConnector] (fun _ => rfl)).2
      (fun _ _ _ _ => rfl)
      { demoConnector with
        CreatedAt := 0, UpdatedAt := 0, OrganisationId := ""
        Kafka := { demoConnector.Kafka with ClientSecret := "secret-ref-2" } }
      Option.none
      { demoConnector with
        CreatedAt := 0, UpdatedAt := 0, OrganisationId := ""
        Kafka := { demoConnector.Kafka with ClientSecret := "secret-ref-2" } }
      (by decide)
  exact ⟨dbresource, hget, hid.symm, hown.symm, hch.symm⟩

/-- C23, as stated, fails: the stored connector has organisation `org`, the merge patch that
names a new client secret is accepted, and the connector passed to `Update` has an empty
organisation and no timestamps. -/
theorem patch_update_drops_organisation :
    (Patch storeHandler patchDeps demoPatch [demoConnector]).1.toOption.isSome = true
    ∧ HandlerCall.ConnectorsGet "c1" "aws-sqs-source" (some demoConnector) Option.none
        ∈ patchCalls storeHandler patchDeps demoPatch [demoConnector]
    ∧ demoConnector.OrganisationId = "org"
    ∧ ¬ (∀ c e a, HandlerCall.ConnectorsUpdate c e a
            ∈ patchCalls storeHandler patchDeps demoPatch [demoConnector] →
          c.OrganisationId = demoConnector.OrganisationId) := by
  refine ⟨by decide, by decide, rfl, ?_⟩
  intro hall
  have hc := hall
    { demoConnector with
      CreatedAt := 0, UpdatedAt := 0, OrganisationId := ""
      Kafka := { demoConnector.Kafka with ClientSecret := "secret-ref-2" } }
    Option.none
    { demoConnector with
      CreatedAt := 0, UpdatedAt := 0, OrganisationId := ""
      Kafka := { demoConnector.Kafka with ClientSecret := "secret-ref-2" } }
    (by decide)
  revert hc
  decide

/-! ## A patch that changes nothing -/

/-- C24. A patch that leaves name, kafka id, connector specification, desired state, resource
version and kafka connection settings as the presentation of the stored connector has them:
the request being valid, the connector and its type found, its secrets and the body read, the
patch valid and applied, `Patch` answers with the presentation of the stored connector, in
the state the two `Get` calls left; its only calls are these two, so it calls neither
`Update` nor `SaveStatus` and registers no deletion of secrets. -/
theorem patch_noop_is_skipped {σ J : Type} [DecidableEq J] (h : ConnectorsHandler σ)
    (d : Deps σ J) (r : PatchRequest) (s : σ) (dbresource : Connector)
    (resource patch : PresentedConnector J) (ct : ConnectorType)
    (originalSecrets : List String) (patchBytes : String)
    (hv1 : d.Validation "connector_id" r.connectorId
      [ValidateOption.MinLen 1, ValidateOption.MaxLen maxConnectorIdLength] = Option.none)
    (hv2 : d.Validation "connector_type_id" r.connectorTypeId
      [ValidateOption.MaxLen d.maxConnectorTypeIdLength] = Option.none)
    (hv3 : d.Validation "Content-Type header" r.contentType
      [ValidateOption.IsOneOf ["application/json-patch+json", "application/merge-patch+json"]]
      = Option.none)
    (hget : (h.connectorsService.Get r.connectorId r.connectorTypeId s).1
      = Except.ok dbresource)
    (hpres : PresentConnector d dbresource = Except.ok resource)
    (htype : (h.connectorTypesService.Get dbresource.ConnectorTypeId
      (h.connectorsService.Get r.connectorId r.connectorTypeId s).2).1 = Except.ok ct)
    (hrefs : d.getSecretRefs dbresource ct = Except.ok originalSecrets)
    (hbody : r.body = Except.ok patchBytes)
    (hvalid : validateConnectorPatch d patchBytes ct = Option.none)
    (hpatch : PatchResource d resource r.contentType patchBytes = Except.ok patch)
    (hname : patch.Metadata.Name = resource.Metadata.Name)
    (hkafkaId : patch.Metadata.KafkaId = resource.Metadata.KafkaId)
    (hspec : patch.ConnectorSpec = resource.ConnectorSpec)
    (hstate : patch.DesiredState = resource.DesiredState)
    (hversion : patch.Metadata.ResourceVersion = resource.Metadata.ResourceVersion)
    (hkafka : patch.Kafka = resource.Kafka) :
    Patch h d r s
        = (Except.ok resource,
            (h.connectorTypesService.Get dbresource.ConnectorTypeId
              (h.connectorsService.Get r.connectorId r.connectorTypeId s).2).2)
    ∧ patchCalls h d r s
        = [HandlerCall.ConnectorsGet r.connectorId r.connectorTypeId (some dbresource)
             Option.none,
           HandlerCall.ConnectorTypesGet dbresource.ConnectorTypeId (some ct)]
    ∧ (∀ call ∈ patchCalls h d r s, isWriteCall call = false ∧ isSecretCall call = false) := by
  have hsame : ({ resource with
      Metadata :=
        { resource.Metadata with
          Name := patch.Metadata.Name
          KafkaId := patch.Metadata.KafkaId
          ResourceVersion := patch.Metadata.ResourceVersion }
      ConnectorSpec := patch.ConnectorSpec
      DesiredState := patch.DesiredState
      Kafka := patch.Kafka } : PresentedConnector J) = resource := by
    rw [hname, hkafkaId, hspec, hstate, hversion, hkafka]
  have hcalls : patchCalls h d r s
      = [HandlerCall.ConnectorsGet r.connectorId r.connectorTypeId (some dbresource)
           Option.none,
         HandlerCall.ConnectorTypesGet dbresource.ConnectorTypeId (some ct)] := by
    have hval : ∀ a b c, (recordingDeps d).Validation a b c = d.Validation a b c :=
      fun _ _ _ => rfl
    have hmax : (recordingDeps d).maxConnectorTypeIdLength = d.maxConnectorTypeIdLength := rfl
    have hgetr : (recordingHandler h).connectorsService.Get r.connectorId r.connectorTypeId
        (s, [])
        = (Except.ok dbresource,
            ((h.connectorsService.Get r.connectorId r.connectorTypeId s).2,
              [HandlerCall.ConnectorsGet r.connectorId r.connectorTypeId (some dbresource)
                Option.none])) := by
      simp [recordingHandler, hget, okValue, errValue]
    have htyper : ∀ l : List HandlerCall,
        (recordingHandler h).connectorTypesService.Get dbresource.ConnectorTypeId
          ((h.connectorsService.Get r.connectorId r.connectorTypeId s).2, l)
        = (Except.ok ct,
            ((h.connectorTypesService.Get dbresource.ConnectorTypeId
                (h.connectorsService.Get r.connectorId r.connectorTypeId s).2).2,
              l ++ [HandlerCall.ConnectorTypesGet dbresource.ConnectorTypeId (some ct)])) := by
      intro l
      simp [recordingHandler, htype, okValue]
    have hpresent : ∀ c, PresentConnector (recordingDeps d) c = PresentConnector d c :=
      fun _ => rfl
    have hrefsr : ∀ c ct, (recordingDeps d).getSecretRefs c ct = d.getSecretRefs c ct :=
      fun _ _ => rfl
    have hvalidr : ∀ b ct, validateConnectorPatch (recordingDeps d) b ct
        = validateConnectorPatch d b ct := fun _ _ => rfl
    have hpatchr : ∀ res t b, PatchResource (recordingDeps d) res t b
        = PatchResource d res t b := fun _ _ _ => rfl
    unfold patchCalls Patch
    simp only [hval, hmax, hv1, hv2, hv3]
    unfold patchAction
    rw [hgetr]
    simp only [hpresent, hrefsr, hvalidr, hpatchr, hpres, htyper, hrefs, hbody, hvalid,
      hpatch, hsame, if_true, List.nil_append]
    rfl
  refine ⟨?_, hcalls, ?_⟩
  · have hget2 : h.connectorsService.Get r.connectorId r.connectorTypeId s
        = (Except.ok dbresource, (h.connectorsService.Get r.connectorId r.connectorTypeId s).2) := by
      rw [← hget]
    have htype2 : h.connectorTypesService.Get dbresource.ConnectorTypeId
          (h.connectorsService.Get r.connectorId r.connectorTypeId s).2
        = (Except.ok ct,
            (h.connectorTypesService.Get dbresource.ConnectorTypeId
              (h.connectorsService.Get r.connectorId r.connectorTypeId s).2).2) := by
      rw [← htype]
    unfold Patch
    simp only [hv1, hv2, hv3]
    unfold patchAction
    rw [hget2]
    simp only [hpres]
    rw [htype2]
    simp only [hrefs, hbody, hvalid, hpatch, hsame, if_true]
  · intro call hc
    rw [hcalls] at hc
    simp only [List.mem_cons, List.mem_singleton, List.not_mem_nil, or_false] at hc
    rcases hc with hc | hc <;> rw [hc] <;> exact ⟨rfl, rfl⟩

/-- The merge patch that names the client secret the concrete connector already has: the
handler answers with the presentation of the stored connector after the two `Get` calls and
the store is as it was. -/
theorem patch_noop_is_skipped_witness :
    patchCalls storeHandler patchDeps demoNoopPatch [demoConnector]
      = [HandlerCall.ConnectorsGet "c1" "aws-sqs-source" (some demoConnector) Option.none,
         HandlerCall.ConnectorTypesGet "aws-sqs-source"
           (some { ID := "aws-sqs-source", JsonSchema := "" })]
    ∧ (Patch storeHandler patchDeps demoNoopPatch [demoConnector]).2 = [demoConnector] :=
  ⟨(patch_noop_is_skipped storeHandler patchDeps demoNoopPatch [demoConnector] demoConnector
      { Id := "c1", Kind := "Connector", Href := "/api/connector_mgmt/v1/kafka_connectors/c1"
        Metadata :=
          { Owner := "alice", KafkaId := "kafka1", Name := "sink", CreatedAt := 1,
            UpdatedAt := 2, ResourceVersion := 3 }
        DeploymentLocation :=
          { Kind := "addon", ClusterId := "k1", CloudProvider := "aws", Region := "us-east-1",
            MultiAz := true }
        ConnectorTypeId := "aws-sqs-source", ConnectorSpec := "\x7b\x7d", Status := "ready"
        DesiredState := "ready", Channel := "stable"
        Kafka := { BootstrapServer := "b:443", ClientId := "id", ClientSecret := "secret-ref-1" } }
      { Id := "c1", Kind := "Connector", Href := "/api/connector_mgmt/v1/kafka_connectors/c1"
        Metadata :=
          { Owner := "alice", KafkaId := "kafka1", Name := "sink", CreatedAt := 1,
            UpdatedAt := 2, ResourceVersion := 3 }
        DeploymentLocation :=
          { Kind := "addon", ClusterId := "k1", CloudProvider := "aws", Region := "us-east-1",
            MultiAz := true }
        ConnectorTypeId := "aws-sqs-source", ConnectorSpec := "\x7b\x7d", Status := "ready"
        DesiredState := "ready", Channel := "stable"
        Kafka := { BootstrapServer := "b:443", ClientId := "id", ClientSecret := "secret-ref-1" } }
      { ID := "aws-sqs-source", JsonSchema := "" } ["secret-ref-1"] "secret-ref-1"
      rfl rfl rfl rfl rfl rfl rfl rfl rfl rfl rfl rfl rfl rfl rfl rfl).2.1,
    by decide⟩

end ConnectorHandlers

end KasFleetManager
